import Mathlib

/-!
# Verification of the `ai-quick-builder` lazy-resolution engine

A shallow embedding of `src/core.py` (the `AI` class, its cache, template
expansion and operator-driven resolution) together with proofs settling the
frozen specification claims.

Python values are modelled by the inductive type `Value`; Python floats are
modelled exactly as canonical decimal numbers `m * 10^(-e)` (every value a
Python float can print is of this form).  Stateful methods of the `AI` class
become explicit state-passing functions over `AIState`; the module-global
session cache (`global cache`) is threaded alongside as an `Option Dict`
(present iff the Python global exists); exceptions become `Except PyErr`.
The external completion provider (LLM call plus langchain decoding) is an
oracle `String → PyType → Value` mapping the final prompt and the requested
output type to the decoded payload; each provider invocation is counted.
-/

set_option maxRecDepth 100000

namespace AIQB

/-- The Python types that can be requested via the `output` setting
(`str`, `int`, `float`, `bool`, `list`, `dict`). -/
inductive PyType where
  | str | int | float | bool | list | dict
deriving DecidableEq, Repr

/-- A Python float, modelled exactly as the decimal `mant * 10^(-frexp)`.
Canonical (`PyFloat.WF`) floats have no trailing zero in the fractional
digits, matching the shortest-repr form Python prints. -/
structure PyFloat where
  mant : Int
  frexp : Nat
deriving DecidableEq, Repr

/-- Canonicity of the decimal representation: if there are fractional
digits, the last one is nonzero (`0.750` is stored as `(75, 2)`). -/
def PyFloat.WF (f : PyFloat) : Prop := f.frexp ≠ 0 → f.mant % 10 ≠ 0

instance (f : PyFloat) : Decidable f.WF := by unfold PyFloat.WF; infer_instance

/-- A Python value, as far as the repository manipulates them: `None`,
booleans, ints, floats, strings, type objects (`<class 'str'>` …), lists,
tuples and string-keyed dicts (all dicts built by `core.py` are
string-keyed).  Dicts are insertion-ordered association lists, like CPython
dicts. -/
inductive Value where
  | none : Value
  | bool : Bool → Value
  | int : Int → Value
  | float : PyFloat → Value
  | str : String → Value
  | typ : PyType → Value
  | list : List Value → Value
  | tuple : List Value → Value
  | dict : List (String × Value) → Value

-- Structural (Lean-level) boolean equality on `Value`, with a hand-rolled
-- decidability instance (the nested inductive defeats `deriving`).
mutual
def beqV : Value → Value → Bool
  | .none, .none => true
  | .bool a, .bool b => a = b
  | .int a, .int b => a = b
  | .float a, .float b => a = b
  | .str a, .str b => a = b
  | .typ a, .typ b => a = b
  | .list l1, .list l2 => beqVL l1 l2
  | .tuple l1, .tuple l2 => beqVL l1 l2
  | .dict d1, .dict d2 => beqVE d1 d2
  | _, _ => false
def beqVL : List Value → List Value → Bool
  | [], [] => true
  | v :: vs, w :: ws => beqV v w && beqVL vs ws
  | _, _ => false
def beqVE : List (String × Value) → List (String × Value) → Bool
  | [], [] => true
  | (k1, v) :: vs, (k2, w) :: ws => k1 = k2 && beqV v w && beqVE vs ws
  | _, _ => false
end

mutual
theorem beqV_iff : ∀ v w, beqV v w = true ↔ v = w
  | .none, w => by cases w <;> simp [beqV]
  | .bool a, w => by cases w <;> simp [beqV]
  | .int a, w => by cases w <;> simp [beqV]
  | .float a, w => by cases w <;> simp [beqV]
  | .str a, w => by cases w <;> simp [beqV]
  | .typ a, w => by cases w <;> simp [beqV]
  | .list l1, w => by
      cases w <;> simp [beqV]
      exact (beqVL_iff l1 _).trans (by simp)
  | .tuple l1, w => by
      cases w <;> simp [beqV]
      exact (beqVL_iff l1 _).trans (by simp)
  | .dict d1, w => by
      cases w <;> simp [beqV]
      exact (beqVE_iff d1 _).trans (by simp)
theorem beqVL_iff : ∀ l1 l2, beqVL l1 l2 = true ↔ l1 = l2
  | [], l2 => by cases l2 <;> simp [beqVL]
  | v :: vs, l2 => by
      cases l2 with
      | nil => simp [beqVL]
      | cons w ws => simp [beqVL, beqV_iff v w, beqVL_iff vs ws]
theorem beqVE_iff : ∀ d1 d2, beqVE d1 d2 = true ↔ d1 = d2
  | [], d2 => by cases d2 <;> simp [beqVE]
  | (k1, v) :: vs, d2 => by
      cases d2 with
      | nil => simp [beqVE]
      | cons kw ws =>
          obtain ⟨k2, w⟩ := kw
          simp [beqVE, beqV_iff v w, beqVE_iff vs ws]
end

instance : DecidableEq Value := fun v w =>
  decidable_of_iff (beqV v w = true) (beqV_iff v w)

/-- Insertion-ordered dictionary with string keys (a CPython `dict`). -/
abbrev Dict := List (String × Value)

/-- `d[k]` as an option (no exception). -/
def dGet (d : Dict) (k : String) : Option Value :=
  match d with
  | [] => Option.none
  | (k', v) :: rest => if k' = k then some v else dGet rest k

/-- `d.get(k, dflt)`. -/
def dGetD (d : Dict) (k : String) (dflt : Value) : Value :=
  (dGet d k).getD dflt

/-- `k in d`. -/
def dMem (d : Dict) (k : String) : Bool :=
  (dGet d k).isSome

/-- `d[k] = v`: replaces the value in place if the key exists (CPython keeps
the key's insertion position), otherwise appends the new key at the end. -/
def dSet (d : Dict) (k : String) (v : Value) : Dict :=
  match d with
  | [] => [(k, v)]
  | (k', v') :: rest => if k' = k then (k, v) :: rest else (k', v') :: dSet rest k v

/-- `d1 | d2` / `d1 |= d2`: merge, right operand wins, insertion order of the
left operand preserved, new keys appended in the right operand's order. -/
def dUnion (d1 d2 : Dict) : Dict :=
  d2.foldl (fun acc kv => dSet acc kv.1 kv.2) d1

/-- Python truthiness (`bool(x)` / `if x:`). -/
def pyTruthy : Value → Bool
  | .none => false
  | .bool b => b
  | .int n => n ≠ 0
  | .float f => f.mant ≠ 0
  | .str s => s ≠ ""
  | .typ _ => true
  | .list l => !l.isEmpty
  | .tuple l => !l.isEmpty
  | .dict d => !d.isEmpty

/-- Numeric equality between two floats (`m1*10^-e1 == m2*10^-e2`). -/
def PyFloat.numEq (f g : PyFloat) : Bool :=
  f.mant * (10 : Int) ^ g.frexp = g.mant * (10 : Int) ^ f.frexp

/-- Numeric equality between an int and a float. -/
def intFloatEq (n : Int) (f : PyFloat) : Bool :=
  n * (10 : Int) ^ f.frexp = f.mant

/-- Python `==`, with bounded recursion depth (CPython would recurse on the
structure; the fuel is irrelevant for any value the repository builds).
Dicts compare order-independently: same key set and `==`-equal values;
numeric values compare across `bool`/`int`/`float`. -/
def pyEqF : Nat → Value → Value → Bool
  | 0, _, _ => false
  | _ + 1, .none, .none => true
  | _ + 1, .bool a, .bool b => a = b
  | _ + 1, .bool a, .int n => (if a then (1 : Int) else 0) = n
  | _ + 1, .int n, .bool a => n = (if a then (1 : Int) else 0)
  | _ + 1, .bool a, .float f => intFloatEq (if a then 1 else 0) f
  | _ + 1, .float f, .bool a => intFloatEq (if a then 1 else 0) f
  | _ + 1, .int a, .int b => a = b
  | _ + 1, .int a, .float f => intFloatEq a f
  | _ + 1, .float f, .int a => intFloatEq a f
  | _ + 1, .float f, .float g => f.numEq g
  | _ + 1, .str a, .str b => a = b
  | _ + 1, .typ a, .typ b => a = b
  | fuel + 1, .list l1, .list l2 =>
      l1.length = l2.length && (l1.zip l2).all fun p => pyEqF fuel p.1 p.2
  | fuel + 1, .tuple l1, .tuple l2 =>
      l1.length = l2.length && (l1.zip l2).all fun p => pyEqF fuel p.1 p.2
  | fuel + 1, .dict d1, .dict d2 =>
      (d1.all fun kv =>
        match dGet d2 kv.1 with
        | some w => pyEqF fuel kv.2 w
        | Option.none => false) &&
      (d2.all fun kv => dMem d1 kv.1)
  | _ + 1, _, _ => false

/-- Python `==` (depth 1000 far exceeds anything the engine builds). -/
def pyEq (v w : Value) : Bool := pyEqF 1000 v w

/-- Lower-case one ASCII character. -/
def lowerChar (c : Char) : Char :=
  if 'A' ≤ c ∧ c ≤ 'Z' then Char.ofNat (c.toNat + 32) else c

/-- `str.lower()` (ASCII, which is all the settings use). -/
def pyLower (s : String) : String := String.mk (s.data.map lowerChar)

/-- The whitespace characters `str.strip()` removes. -/
def isPyWs (c : Char) : Bool :=
  c = ' ' || c = '\t' || c = '\n' || c = '\r' || c = '\x0b' || c = '\x0c'

/-- `str.strip()`: drop leading and trailing whitespace. -/
def pyStrip (s : String) : String :=
  String.mk (((s.data.dropWhile isPyWs).reverse.dropWhile isPyWs).reverse)

/-! ## Python `repr`

`cache_get`/`cache_set` key the cache by `str(key)` where `key` is the full
keyword dict; `str` of a dict is its `repr`.  We model `repr` faithfully for
every value shape the engine stores in that dict. -/

/-- The decimal digit character for `d < 10`. -/
def digitChar10 (d : Nat) : Char := Char.ofNat (48 + d)

/-- Decimal digits, most significant first, structurally recursive on a
fuel bound (`n` itself always suffices, because `n / 10 < n`). -/
def natCharsF : Nat → Nat → List Char
  | 0, n => [digitChar10 n]
  | fuel + 1, n => if n < 10 then [digitChar10 n] else natCharsF fuel (n / 10) ++ [digitChar10 (n % 10)]

/-- Decimal digits of a natural number, most significant first
(CPython's `repr` for non-negative integers). -/
def natChars (n : Nat) : List Char := natCharsF n n

/-- `repr` of a Python int. -/
def intChars (i : Int) : List Char :=
  if i < 0 then '-' :: natChars i.natAbs else natChars i.natAbs

/-- Left-pad the decimal digits of `n` with zeros to `width` characters
(fractional part of a float). -/
def padZeros (width : Nat) (n : Nat) : List Char :=
  List.replicate (width - (natChars n).length) '0' ++ natChars n

/-- `repr` of a Python float in its canonical decimal form: integer part,
a dot, then the `frexp` fractional digits (a single `0` when the float is
integral), e.g. `0.75`, `13.0`, `-0.05`. -/
def floatChars (f : PyFloat) : List Char :=
  let sign : List Char := if f.mant < 0 then ['-'] else []
  let a := f.mant.natAbs
  if f.frexp = 0 then sign ++ natChars a ++ ['.', '0']
  else sign ++ natChars (a / 10 ^ f.frexp) ++ '.' :: padZeros f.frexp (a % 10 ^ f.frexp)

/-- `repr`'s escaping of one character inside a string literal. -/
def escChar (c : Char) : List Char :=
  if c = '\\' then ['\\', '\\']
  else if c = '\'' then ['\\', '\'']
  else if c = '\n' then ['\\', 'n']
  else if c = '\r' then ['\\', 'r']
  else if c = '\t' then ['\\', 't']
  else [c]

/-- `repr` of a Python string: single-quoted with escapes. -/
def strLitChars (s : String) : List Char :=
  '\'' :: (s.data.flatMap escChar) ++ ['\'']

/-- The `__name__` of a requested output type. -/
def PyType.pyName : PyType → String
  | .str => "str"
  | .int => "int"
  | .float => "float"
  | .bool => "bool"
  | .list => "list"
  | .dict => "dict"

/-- `repr` of a type object, e.g. `<class 'str'>`. -/
def typeChars (t : PyType) : List Char :=
  "<class '".data ++ t.pyName.data ++ "'>".data

-- `repr` of a value; lists/tuples/dicts render their elements recursively
-- with `", "` separators (`reprVL`/`reprVE`), one-element tuples with the
-- trailing comma CPython prints.
mutual
def reprV : Value → List Char
  | .none => "None".data
  | .bool b => if b then "True".data else "False".data
  | .int n => intChars n
  | .float f => floatChars f
  | .str s => strLitChars s
  | .typ t => typeChars t
  | .list l => '[' :: reprVL l ++ [']']
  | .tuple [] => ['(', ')']
  | .tuple [v] => '(' :: reprV v ++ [',', ')']
  | .tuple (v :: w :: rest) => '(' :: reprVL (v :: w :: rest) ++ [')']
  | .dict d => '{' :: reprVE d ++ ['}']
def reprVL : List Value → List Char
  | [] => []
  | [v] => reprV v
  | v :: w :: rest => reprV v ++ ',' :: ' ' :: reprVL (w :: rest)
def reprVE : List (String × Value) → List Char
  | [] => []
  | [(k, v)] => strLitChars k ++ ':' :: ' ' :: reprV v
  | (k, v) :: e :: rest => strLitChars k ++ ':' :: ' ' :: reprV v ++ ',' :: ' ' :: reprVE (e :: rest)
end

/-- Python `str(x)`: the string itself for strings, `repr` otherwise
(exactly the cases the engine hits: dict keys, history formatting). -/
def pyStr : Value → String
  | .str s => s
  | v => String.mk (reprV v)

/-- Python exceptions the engine can raise. -/
inductive PyErr where
  | valueError (msg : String)
  | keyError (msg : String)
  | indexError (msg : String)
  | typeError (msg : String)
  | notImplementedError (msg : String)
  | nameError (msg : String)
  | attributeError (msg : String)
deriving DecidableEq, Repr

deriving instance DecidableEq for Except

/-! ## Template Engine (`replace_placeholders`)

`re.findall(r'\{(.*?)\}', text)` scans left to right; from each `{` the lazy
group matches up to the *nearest* `}`, and `.` does not match a newline, so
an opening brace with no closing brace on the same line matches nothing and
scanning resumes at the next character. -/

/-- One attempt of the lazy group: the characters up to the nearest `}`,
failing on a newline or the end of the text. -/
def scanName : List Char → Option (List Char × List Char)
  | [] => Option.none
  | c :: rest =>
      if c = '}' then some ([], rest)
      else if c = '\n' then Option.none
      else (scanName rest).map fun p => (c :: p.1, p.2)

theorem scanName_length : ∀ l n r, scanName l = some (n, r) → r.length < l.length := by
  intro l
  induction l with
  | nil => intro n r h; simp [scanName] at h
  | cons c rest ih =>
      intro n r h
      simp only [scanName] at h
      split at h
      · cases h; simp
      · split at h
        · cases h
        · match hs : scanName rest with
          | Option.none => rw [hs] at h; cases h
          | some (n', r') =>
              rw [hs] at h
              simp at h
              obtain ⟨-, h2⟩ := h
              subst h2
              exact Nat.lt_succ_of_lt (ih n' r' hs)

/-- The `re.findall` scan, structurally recursive on a fuel bound (the
text length always suffices: a successful lazy match consumes at least two
characters). -/
def findPHF : Nat → List Char → List String
  | 0, _ => []
  | fuel + 1, l =>
      match l with
      | [] => []
      | c :: rest =>
          if c = '{' then
            match scanName rest with
            | some (name, rest') => String.mk name :: findPHF fuel rest'
            | Option.none => findPHF fuel rest
          else findPHF fuel rest

/-- All placeholder names found by `re.findall(r'\{(.*?)\}', text)`, in
match order, duplicates included. -/
def findPH (l : List Char) : List String := findPHF l.length l

theorem findPHF_irrel : ∀ f1 : Nat, ∀ l : List Char, ∀ f2 : Nat,
    l.length ≤ f1 → l.length ≤ f2 → findPHF f1 l = findPHF f2 l := by
  intro f1
  induction f1 with
  | zero =>
      intro l f2 h1 _
      have : l = [] := List.length_eq_zero.mp (Nat.le_zero.mp h1)
      subst this
      cases f2 <;> simp [findPHF]
  | succ f ih =>
      intro l f2 h1 h2
      match l with
      | [] => cases f2 <;> simp [findPHF]
      | c :: rest =>
          match f2 with
          | 0 => exact absurd h2 (by simp)
          | f2' + 1 =>
              simp only [findPHF]
              have hr : rest.length ≤ f := Nat.lt_succ_iff.mp h1
              have hr2 : rest.length ≤ f2' := Nat.lt_succ_iff.mp h2
              split
              · cases hs : scanName rest with
                | none => simp only [hs]; rw [ih rest f2' hr hr2]
                | some pr =>
                    obtain ⟨name, rest'⟩ := pr
                    have hlen : rest'.length < rest.length := scanName_length rest name rest' hs
                    simp only [hs]
                    rw [ih rest' f2' (le_trans (Nat.le_of_lt hlen) hr)
                        (le_trans (Nat.le_of_lt hlen) hr2)]
              · rw [ih rest f2' hr hr2]

/-- The defining equation of `findPH` on a nonempty text. -/
theorem findPH_cons (c : Char) (rest : List Char) :
    findPH (c :: rest) =
      if c = '{' then
        match scanName rest with
        | some (name, rest') => String.mk name :: findPH rest'
        | Option.none => findPH rest
      else findPH rest := by
  show findPHF (rest.length + 1) (c :: rest) = _
  simp only [findPHF]
  split
  · cases hs : scanName rest with
    | none => simp only [hs]; rfl
    | some pr =>
        obtain ⟨name, rest'⟩ := pr
        have hlen := scanName_length rest name rest' hs
        simp only [hs, findPH]
        rw [findPHF_irrel rest.length rest' rest'.length (Nat.le_of_lt hlen) le_rfl]
  · rfl

@[simp] theorem findPH_nil : findPH [] = [] := rfl

/-- The `str.replace` scan, structurally recursive on a fuel bound (the
text length suffices for any nonempty pattern). -/
def replaceAllF : Nat → List Char → List Char → List Char → List Char
  | 0, t, _, _ => t
  | fuel + 1, t, p, v =>
      match t with
      | [] => []
      | c :: rest =>
          if p ≠ [] ∧ p.isPrefixOf (c :: rest) then
            v ++ replaceAllF fuel ((c :: rest).drop p.length) p v
          else c :: replaceAllF fuel rest p v

/-- `text.replace(old, new)` for a nonempty `old`: replace every
non-overlapping occurrence left to right, never rescanning `new`. -/
def replaceAll (t p v : List Char) : List Char := replaceAllF t.length t p v

theorem replaceAllF_irrel : ∀ f1 : Nat, ∀ t : List Char, ∀ f2 : Nat, ∀ p v : List Char,
    t.length ≤ f1 → t.length ≤ f2 → replaceAllF f1 t p v = replaceAllF f2 t p v := by
  intro f1
  induction f1 with
  | zero =>
      intro t f2 p v h1 _
      have : t = [] := List.length_eq_zero.mp (Nat.le_zero.mp h1)
      subst this
      cases f2 <;> simp [replaceAllF]
  | succ f ih =>
      intro t f2 p v h1 h2
      match t with
      | [] => cases f2 <;> simp [replaceAllF]
      | c :: rest =>
          match f2 with
          | 0 => exact absurd h2 (by simp)
          | f2' + 1 =>
              simp only [replaceAllF]
              have hr : rest.length ≤ f := Nat.lt_succ_iff.mp h1
              have hr2 : rest.length ≤ f2' := Nat.lt_succ_iff.mp h2
              split
              · rename_i hpre
                have hp : 0 < p.length := List.length_pos.mpr hpre.1
                have hd : ((c :: rest).drop p.length).length ≤ rest.length := by
                  simp only [List.length_drop, List.length_cons]
                  omega
                rw [ih ((c :: rest).drop p.length) f2' p v (le_trans hd hr) (le_trans hd hr2)]
              · rw [ih rest f2' p v hr hr2]

/-- The defining equation of `replaceAll` on a nonempty text. -/
theorem replaceAll_cons (c : Char) (rest p v : List Char) :
    replaceAll (c :: rest) p v =
      if p ≠ [] ∧ p.isPrefixOf (c :: rest) then
        v ++ replaceAll ((c :: rest).drop p.length) p v
      else c :: replaceAll rest p v := by
  show replaceAllF (rest.length + 1) (c :: rest) p v = _
  simp only [replaceAllF]
  split
  · rename_i hpre
    have hp : 0 < p.length := List.length_pos.mpr hpre.1
    have hd : ((c :: rest).drop p.length).length ≤ rest.length := by
      simp only [List.length_drop, List.length_cons]
      omega
    simp only [replaceAll]
    rw [replaceAllF_irrel rest.length ((c :: rest).drop p.length) ((c :: rest).drop p.length).length
        p v hd le_rfl]
  · rfl

@[simp] theorem replaceAll_nil (p v : List Char) : replaceAll [] p v = [] := rfl

/-- The literal text of a placeholder, `'{' + name + '}'`. -/
def phText (n : String) : List Char := '{' :: n.data ++ ['}']

/-- One iteration of the `for placeholder in placeholders` loop: substitute
the mapping value if the name is present, else the default if one was
supplied, else raise `KeyError` naming the placeholder.  (Replacement values
must be strings, as `str.replace` demands.) -/
def substOne (t : String) (n : String) (repl : List (String × Value)) (default : Value) :
    Except PyErr String :=
  match dGet repl n with
  | some (.str v) => .ok (String.mk (replaceAll t.data (phText n) v.data))
  | some _ => .error (.typeError "replace() argument 2 must be str")
  | Option.none =>
      match default with
      | .str d => .ok (String.mk (replaceAll t.data (phText n) d.data))
      | .none => .error (.keyError ("Placeholder " ++ n ++ " was not found in replacements dictionary."))
      | _ => .error (.typeError "replace() argument 2 must be str")

/-- The substitution loop of `replace_placeholders`. -/
def applySubs (repl : List (String × Value)) (default : Value) :
    List String → String → Except PyErr String
  | [], t => .ok t
  | n :: rest, t => do
      let t' ← substOne t n repl default
      applySubs repl default rest t'

/-- `replace_placeholders(text, replacements, default)`: find all
placeholders once, then run the substitution loop over them. -/
def replacePlaceholders (text : String) (replacements : List (String × Value))
    (default : Value) : Except PyErr String :=
  applySubs replacements default (findPH text.data) text

/-! ## The `AI` class -/

def NUMERICALS_DEFAULT_WITHOUT_FLOAT : Bool := false
def AUTO_INVOKE_ON_CREATION : Bool := false
def AUTO_CAST_TO_PREFERRED_TYPE : Bool := true
def VALID_PROVIDERS : List String := ["openai"]
def VALID_CACHE_LOCATIONS : List String := ["none", "instance", "session", "project", "module"]

/-- The mutable state of one `AI` instance: `self.variables`,
`self.results` (invocation records), `self.chat` (conversation log) and the
per-instance cache attribute `self.cache` (absent unless `cache_init`
created it). -/
structure AIState where
  vars : Dict
  results : List (Dict × Value)
  chat : List (Dict × Value)
  instCache : Option Dict
deriving DecidableEq

/-- The constructor's keyword arguments, with the source's default values. -/
structure AIArgs where
  prompt : Value := .none
  params : Value := .dict []
  param_default : Value := .none
  batch : Value := .none
  input_list : Value := .none
  output : Value := .none
  model : Value := .str "gpt-3.5-turbo"
  provider : Value := .str "openai"
  temperature : Value := .float ⟨75, 2⟩
  metadata : Value := .dict []
  tags : Value := .list [.str "AI() call"]
  caching : Value := .bool true
  cache_location : Value := .str "session"
  append_history : Value := .bool false
  history_names : Value := .tuple [.str "Question", .str "Answer"]
  numericals_default_to_int : Value := .bool NUMERICALS_DEFAULT_WITHOUT_FLOAT

/-- `self.variables` as built by `__init__`, in its insertion order. -/
def AIArgs.toVariables (a : AIArgs) : Dict :=
  [("prompt", a.prompt), ("params", a.params), ("param_default", a.param_default),
   ("batch", a.batch), ("input_list", a.input_list), ("output", a.output),
   ("model", a.model), ("provider", a.provider), ("temperature", a.temperature),
   ("metadata", a.metadata), ("tags", a.tags), ("caching", a.caching),
   ("cache_location", a.cache_location), ("append_history", a.append_history),
   ("history_names", a.history_names),
   ("numericals_default_to_int", a.numericals_default_to_int)]

/-- `self.variables['cache_location'].lower()`. -/
def locationLower (vars : Dict) : Except PyErr String :=
  match dGetD vars "cache_location" .none with
  | .str s => .ok (pyLower s)
  | _ => .error (.attributeError "cache_location object has no attribute lower")

/-- The message of the `NotImplementedError` the cache helpers raise. -/
def cacheLocErrMsg (vars : Dict) : String :=
  "Cache location " ++ pyStr (dGetD vars "cache_location" .none) ++ " is not implemented yet."

/-- `AI.cache_init`: create the per-instance dict or the module-global
session dict as required by the configured scope; any other scope raises
`NotImplementedError`.  Note the short-circuit: with caching falsy nothing
is checked at all.  Returns the (possibly created) instance cache and
session global. -/
def cache_init (vars : Dict) (instCache : Option Dict) (sess : Option Dict) :
    Except PyErr (Option Dict × Option Dict) :=
  if ¬ pyTruthy (dGetD vars "caching" .none) then .ok (instCache, sess)
  else do
    let loc ← locationLower vars
    if loc = "none" then .ok (instCache, sess)
    else if loc = "instance" then .ok (some (instCache.getD []), sess)
    else if loc = "session" then .ok (instCache, some (sess.getD []))
    else .error (.notImplementedError (cacheLocErrMsg vars))

/-- `AI.cache_get`: `self.cache.get(str(key), False)` (or the session
global), `False` when caching is off or the scope is `none`. -/
def cache_get (vars : Dict) (instCache : Option Dict) (sess : Option Dict)
    (key : Value) : Except PyErr Value :=
  if ¬ pyTruthy (dGetD vars "caching" .none) then .ok (.bool false)
  else do
    let loc ← locationLower vars
    if loc = "none" then .ok (.bool false)
    else if loc = "instance" then
      match instCache with
      | some c => .ok (dGetD c (pyStr key) (.bool false))
      | Option.none => .error (.attributeError "AI object has no attribute cache")
    else if loc = "session" then
      match sess with
      | some c => .ok (dGetD c (pyStr key) (.bool false))
      | Option.none => .error (.nameError "name cache is not defined")
    else .error (.notImplementedError (cacheLocErrMsg vars))

/-- `AI.cache_set`: store under `str(key)`; a silent no-op when caching is
off or the scope is `none`. -/
def cache_set (vars : Dict) (instCache : Option Dict) (sess : Option Dict)
    (key : Value) (value : Value) : Except PyErr (Option Dict × Option Dict) :=
  if ¬ pyTruthy (dGetD vars "caching" .none) then .ok (instCache, sess)
  else do
    let loc ← locationLower vars
    if loc = "none" then .ok (instCache, sess)
    else if loc = "instance" then
      match instCache with
      | some c => .ok (some (dSet c (pyStr key) value), sess)
      | Option.none => .error (.attributeError "AI object has no attribute cache")
    else if loc = "session" then
      match sess with
      | some c => .ok (instCache, some (dSet c (pyStr key) value))
      | Option.none => .error (.nameError "name cache is not defined")
    else .error (.notImplementedError (cacheLocErrMsg vars))

/-- `AI.__init__`: build `self.variables`, validate the provider against the
allow-list, and run `cache_init`.  The module-global session cache is
threaded in and out. -/
def mkAI (args : AIArgs) (sess : Option Dict) : Except PyErr (AIState × Option Dict) := do
  let vars := args.toVariables
  let prov ← match args.provider with
    | .str s => pure s
    | _ => Except.error (.attributeError "provider object has no attribute lower")
  if pyLower prov ∈ VALID_PROVIDERS then do
    let (ic, sess') ← cache_init vars Option.none sess
    .ok (⟨vars, [], [], ic⟩, sess')
  else
    .error (.notImplementedError ("Provider " ++ prov ++ " is not available, please use openai for now."))

/-- The argument-defaulting loop at the top of `invoke`: for every key of
`self.variables`, a missing or `None` keyword argument is filled from the
stored configuration (an update keeps the key's position, a new key is
appended). -/
def fillKwargs (vars kwargs : Dict) : Dict :=
  vars.foldl
    (fun kw kv =>
      match dGet kw kv.1 with
      | some v => if v = Value.none then dSet kw kv.1 kv.2 else kw
      | Option.none => dSet kw kv.1 kv.2)
    kwargs

/-- The target type after `output = kwargs['output']; if output is None:
output = str`. -/
def decodeOutput : Value → Except PyErr PyType
  | .none => .ok .str
  | .typ t => .ok t
  | _ => .error (.typeError "output must be a type")

/-- The dict `kwargs | {'full_prompt': full_prompt}` whose `str()` keys the
cache. -/
def cacheKeyV (kwargs : Dict) (full_prompt : String) : Value :=
  .dict (dSet kwargs "full_prompt" (.str full_prompt))

/-- The actual cache key string, `str(kwargs | {'full_prompt': ...})`. -/
def cacheKeyStr (kwargs : Dict) (full_prompt : String) : String :=
  pyStr (cacheKeyV kwargs full_prompt)

/-- Sequence indexing `x[i]` (used on the `history_names` tuple). -/
def tupleIx (v : Value) (i : Nat) : Except PyErr Value :=
  match v with
  | .tuple l =>
      match l.get? i with
      | some x => .ok x
      | Option.none => .error (.indexError "tuple index out of range")
  | .list l =>
      match l.get? i with
      | some x => .ok x
      | Option.none => .error (.indexError "list index out of range")
  | _ => .error (.typeError "object is not subscriptable")

/-- The `chat_history` accumulation loop of `invoke`: for each prior
`(record, answer)` pair append `"\n{q}: {record['prompt']}\n{a}: {answer}"`
(f-string interpolation is `str()`; every record stores a `'prompt'` key). -/
def chatHistoryBlock (n0 n1 : String) (chat : List (Dict × Value)) : String :=
  chat.foldl
    (fun acc e =>
      acc ++ "\n" ++ n0 ++ ": " ++ pyStr (dGetD e.1 "prompt" .none)
          ++ "\n" ++ n1 ++ ": " ++ pyStr e.2)
    ""

/-- Strip trailing decimal zeros so a float stays in canonical form. -/
def normFloat (m : Int) : Nat → PyFloat
  | 0 => ⟨m, 0⟩
  | e + 1 => if m % 10 = 0 then normFloat (m / 10) e else ⟨m, e + 1⟩

/-- The value of a run of decimal digit characters, `Option.none` if any
character is not a digit. -/
def digitsVal : List Char → Option Nat
  | [] => some 0
  | c :: rest =>
      if '0' ≤ c ∧ c ≤ '9' then
        (digitsVal rest).map fun v => (c.toNat - 48) * 10 ^ rest.length + v
      else Option.none

/-- Python `int(s)` on a string. -/
def pyIntOfString (s : String) : Except PyErr Int :=
  let t := (pyStrip s).data
  let signed : List Char → Option Int := fun ds =>
    if ds = [] then Option.none else (digitsVal ds).map Int.ofNat
  let parsed : Option Int :=
    match t with
    | '-' :: ds => (signed ds).map Neg.neg
    | '+' :: ds => signed ds
    | ds => signed ds
  match parsed with
  | some n => .ok (.ofNat 0 + n)
  | Option.none =>
      .error (.valueError ("invalid literal for int() with base 10: " ++ String.mk (strLitChars s)))

/-- Python `float(s)` on a string (plain `ddd` or `ddd.ddd` forms, which is
all the engine can receive back for numeric requests). -/
def pyFloatOfString (s : String) : Except PyErr PyFloat :=
  let t := (pyStrip s).data
  let core : List Char → Option PyFloat := fun ds =>
    match ds.splitOn '.' with
    | [ip] => (digitsVal ip).bind fun i => if ip = [] then Option.none else some ⟨i, 0⟩
    | [ip, fp] =>
        (digitsVal ip).bind fun i =>
          (digitsVal fp).bind fun f =>
            if ip = [] ∧ fp = [] then Option.none
            else some (normFloat (i * 10 ^ fp.length + f) fp.length)
    | _ => Option.none
  let parsed : Option PyFloat :=
    match t with
    | '-' :: ds => (core ds).map fun f => ⟨-f.mant, f.frexp⟩
    | '+' :: ds => core ds
    | ds => core ds
  match parsed with
  | some f => .ok f
  | Option.none =>
      .error (.valueError ("could not convert string to float: " ++ String.mk (strLitChars s)))

/-- Native-type coercion `output(result)` for each requestable type. -/
def pyCast (t : PyType) (v : Value) : Except PyErr Value :=
  match t with
  | .str => .ok (.str (pyStr v))
  | .int =>
      match v with
      | .int n => .ok (.int n)
      | .bool b => .ok (.int (if b then 1 else 0))
      | .float f =>
          .ok (.int (if f.mant < 0 then -(Int.ofNat (f.mant.natAbs / 10 ^ f.frexp))
                     else Int.ofNat (f.mant.natAbs / 10 ^ f.frexp)))
      | .str s => (pyIntOfString s).map Value.int
      | _ => .error (.typeError "int() argument must be a string or a number")
  | .float =>
      match v with
      | .float f => .ok (.float f)
      | .int n => .ok (.float ⟨n, 0⟩)
      | .bool b => .ok (.float ⟨if b then 1 else 0, 0⟩)
      | .str s => (pyFloatOfString s).map Value.float
      | _ => .error (.typeError "float() argument must be a string or a number")
  | .bool => .ok (.bool (pyTruthy v))
  | .list =>
      match v with
      | .list l => .ok (.list l)
      | .tuple l => .ok (.list l)
      | .str s => .ok (.list (s.data.map fun c => .str (String.mk [c])))
      | .dict d => .ok (.list (d.map fun kv => .str kv.1))
      | _ => .error (.typeError "object is not iterable")
  | .dict =>
      match v with
      | .dict d => .ok (.dict d)
      | _ => .error (.typeError "cannot convert object to dict")

/-- The final lambda of the dict-output chain:
`{item['key']: item['value'] for item in dict_list}` (last write wins,
insertion order of first occurrence kept, as in CPython). -/
def collapsePairs (v : Value) : Except PyErr Value :=
  match v with
  | .list items => do
      let pairs ← items.mapM fun it =>
        match it with
        | .dict d =>
            match dGet d "key", dGet d "value" with
            | some (.str k), some w => Except.ok (k, w)
            | some _, some _ => Except.error (PyErr.typeError "unhashable or non-string key")
            | _, _ => Except.error (PyErr.keyError "key")
        | _ => Except.error (PyErr.typeError "item is not subscriptable")
      .ok (.dict (pairs.foldl (fun acc kv => dSet acc kv.1 kv.2) []))
  | _ => .error (.typeError "response is not iterable")

/-- `AI.invoke`: fill the keyword arguments from the stored configuration,
default and write back the output type, resolve the prompt, expand the
template, optionally prepend the conversation history, consult the cache
(returning a truthy hit immediately), otherwise call the provider `oracle`,
collapse dict payloads, auto-cast, record the invocation in `results` and
`chat`, and write through to the cache.  Returns the result, the new
instance state, the new session global and the number of provider calls
made (0 or 1). -/
def invoke (oracle : String → PyType → Value) (a : AIState) (sess : Option Dict)
    (promptArg : Option String) (kwargs0 : Dict) :
    Except PyErr (Value × AIState × Option Dict × Nat) := do
  let kwargs := fillKwargs a.vars kwargs0
  let output ← decodeOutput (dGetD kwargs "output" .none)
  let vars1 := dSet a.vars "output" (.typ output)
  let a1 : AIState := { a with vars := vars1 }
  let promptV : Value :=
    match promptArg with
    | some p => .str p
    | Option.none => dGetD kwargs "prompt" .none
  if ¬ pyTruthy promptV then
    throw (.valueError "No prompt was given for the AI invocation.")
  let prompt0 ← match promptV with
    | .str s => pure s
    | _ => throw (.typeError "expected string or bytes-like object")
  let params ← match dGetD kwargs "params" .none with
    | .dict d => pure d
    | _ => throw (.typeError "params must be a mapping")
  let prompt ← replacePlaceholders prompt0 params (dGetD kwargs "param_default" .none)
  let full_prompt ←
    if pyTruthy (dGetD kwargs "append_history" .none) then do
      let names := dGetD kwargs "history_names" .none
      let n0 ← tupleIx names 0
      let n1 ← tupleIx names 1
      let hist := pyStrip (chatHistoryBlock (pyStr n0) (pyStr n1) a.chat)
      pure (hist ++ "\n" ++ pyStr n0 ++ ": " ++ prompt ++ "\n" ++ pyStr n1 ++ ": ")
    else pure prompt
  let key := cacheKeyV kwargs full_prompt
  let cachingK := pyTruthy (dGetD kwargs "caching" .none)
  let cached ← if cachingK then cache_get vars1 a1.instCache sess key else pure (Value.bool false)
  if pyTruthy cached then
    return (cached, a1, sess, 0)
  let raw := oracle full_prompt output
  let raw2 ← if output = PyType.dict then collapsePairs raw else pure raw
  let result ←
    if dMem kwargs "cast_to_preffered_type" then
      if pyTruthy (dGetD kwargs "cast_to_preffered_type" .none) then pyCast output raw2
      else pure raw2
    else
      if AUTO_CAST_TO_PREFERRED_TYPE then pyCast output raw2 else pure raw2
  let record := dSet kwargs "full_prompt" (.str full_prompt)
  let chatRec := dSet kwargs "prompt" (.str prompt)
  let a2 : AIState := { a1 with results := a1.results ++ [(record, result)],
                                chat := a1.chat ++ [(chatRec, result)] }
  if cachingK then
    let (ic, sess') ← cache_set vars1 a2.instCache sess key result
    return (result, { a2 with instCache := ic }, sess', 1)
  else
    return (result, a2, sess, 1)

/-- The per-instance memoization guard of `AI.result`:
`self.results and self.results[-1][0] == self.variables`, yielding the
held result when the comparison succeeds. -/
def memoHit (a : AIState) : Option Value :=
  match a.results.getLast? with
  | some last => if pyEq (.dict last.1) (.dict a.vars) then some last.2 else Option.none
  | Option.none => Option.none

/-- `AI.result`: the per-instance memoization guard `memoHit`, then the
missing-prompt check, then `invoke` — passing the demanded type as `output`
only when the stored configuration has none — and a final cast to the
preferred type. -/
def result (oracle : String → PyType → Value) (a : AIState) (sess : Option Dict)
    (preferredArg : Option PyType) (castArg : Bool) :
    Except PyErr (Value × AIState × Option Dict × Nat) := do
  let pc : PyType × Bool :=
    match preferredArg with
    | Option.none => (PyType.str, false)
    | some t => (t, castArg)
  let (r, a', sess', n) ←
    match memoHit a with
    | some rv => pure (rv, a, sess, 0)
    | Option.none =>
        if ¬ pyTruthy (dGetD a.vars "prompt" .none) then
          throw (.valueError
            "No prompt was given for the AI invocation. Cannot get the result of AI() without prompt")
        else if dGetD a.vars "output" .none = Value.none then
          invoke oracle a sess Option.none [("output", .typ pc.1)]
        else
          invoke oracle a sess Option.none []
  let r' ← if pc.2 then pyCast pc.1 r else pure r
  pure (r', a', sess', n)

/-- `AI.__call__`: merge the keyword arguments (and a positional prompt)
into the stored configuration. -/
def callAI (a : AIState) (promptArg : Option String) (kwargs : Dict) : AIState :=
  let kwargs :=
    match promptArg with
    | some p => dSet kwargs "prompt" (.str p)
    | Option.none => kwargs
  { a with vars := dUnion a.vars kwargs }

/-- `AI.__int__` = `self.result(int)`. -/
def toint (oracle : String → PyType → Value) (a : AIState) (sess : Option Dict) :
    Except PyErr (Value × AIState × Option Dict × Nat) :=
  result oracle a sess (some .int) true

/-- `AI.__float__` = `self.result(float)`. -/
def tofloat (oracle : String → PyType → Value) (a : AIState) (sess : Option Dict) :
    Except PyErr (Value × AIState × Option Dict × Nat) :=
  result oracle a sess (some .float) true

/-- `AI.__str__` = `self.result(str)`. -/
def tostr (oracle : String → PyType → Value) (a : AIState) (sess : Option Dict) :
    Except PyErr (Value × AIState × Option Dict × Nat) :=
  result oracle a sess (some .str) true

/-- `AI.tonum`: integer resolution if the instance prefers ints, float
resolution otherwise.  This is the per-instance int/float default
preference the operators use. -/
def tonum (oracle : String → PyType → Value) (a : AIState) (sess : Option Dict) :
    Except PyErr (Value × AIState × Option Dict × Nat) :=
  if pyTruthy (dGetD a.vars "numericals_default_to_int" .none) then toint oracle a sess
  else tofloat oracle a sess

/-- An operand of an arithmetic/comparison operator: an engine instance or
a plain value. -/
inductive Operand where
  | engine : AIState → Operand
  | plain : Value → Operand

/-- `AI.make_numeric`: force an engine operand to numeric resolution with
its own preference; pass anything else through. -/
def make_numeric (oracle : String → PyType → Value) (sess : Option Dict) :
    Operand → Except PyErr (Value × Option Dict × Nat)
  | .engine a => do
      let (v, _, sess', n) ← tonum oracle a sess
      pure (v, sess', n)
  | .plain v => pure (v, sess, 0)

/-- Normalize a numeric value (`bool` counts as an int, as in Python). -/
def asNum : Value → Option (Int ⊕ PyFloat)
  | .int n => some (.inl n)
  | .bool b => some (.inl (if b then 1 else 0))
  | .float f => some (.inr f)
  | _ => Option.none

/-- Multiplication on canonical floats. -/
def floatMul (f g : PyFloat) : PyFloat := normFloat (f.mant * g.mant) (f.frexp + g.frexp)

/-- Python `*` on numbers. -/
def pyMul (v w : Value) : Except PyErr Value :=
  match asNum v, asNum w with
  | some (.inl a), some (.inl b) => .ok (.int (a * b))
  | some (.inl a), some (.inr g) => .ok (.float (floatMul ⟨a, 0⟩ g))
  | some (.inr f), some (.inl b) => .ok (.float (floatMul f ⟨b, 0⟩))
  | some (.inr f), some (.inr g) => .ok (.float (floatMul f g))
  | _, _ => .error (.typeError "unsupported operand type(s) for *")

/-- `AI.__mul__`: `AI.make_numeric(self) * AI.make_numeric(other)` (left
operand resolved first, then the right, then the native operator). -/
def aiMul (oracle : String → PyType → Value) (x y : Operand) (sess : Option Dict) :
    Except PyErr (Value × Option Dict × Nat) := do
  let (vx, sess1, n1) ← make_numeric oracle sess x
  let (vy, sess2, n2) ← make_numeric oracle sess1 y
  let v ← pyMul vx vy
  pure (v, sess2, n1 + n2)

/-- `n` sequential `invoke()` calls (no per-call overrides) on one
instance; returns the list of results and the total number of provider
calls. -/
def repeatInvoke (oracle : String → PyType → Value) :
    Nat → AIState → Option Dict → Except PyErr (List Value × AIState × Option Dict × Nat)
  | 0, a, sess => .ok ([], a, sess, 0)
  | n + 1, a, sess => do
      let (v, a1, sess1, c1) ← invoke oracle a sess Option.none []
      let (vs, a2, sess2, c2) ← repeatInvoke oracle n a1 sess1
      .ok (v :: vs, a2, sess2, c1 + c2)

/-- One chatbot turn, as in the example script:
`chatbot(question)` then `print(...)`, i.e. `__call__` followed by
`__str__`. -/
def chatStep (oracle : String → PyType → Value) (a : AIState) (sess : Option Dict)
    (question : String) : Except PyErr (Value × AIState × Option Dict × Nat) :=
  tostr oracle (callAI a Option.none [("prompt", .str question)]) sess

/-! ## Concrete scenarios used to settle the claims -/

/-- A provider whose decoded answer to a counting question is the number 0
(a perfectly ordinary, falsy result). -/
def zeroOracle : String → PyType → Value := fun _ _ => .int 0

/-- Three resolutions of one request (`output=int` fixed, caching on, the
default session scope) whose provider answer is `0`. -/
def c1FalsyRun : Except PyErr (List Value × Nat) :=
  match mkAI {prompt := .str "How many moons does Venus have?", output := .typ .int}
      Option.none with
  | .ok (a, sess) =>
      match repeatInvoke zeroOracle 3 a sess with
      | .ok (vs, _, _, n) => .ok (vs, n)
      | .error e => .error e
  | .error e => .error e

/-- A provider answering a population question with the float 1.4 (e9). -/
def popOracle : String → PyType → Value := fun _ _ => .float ⟨14, 1⟩

/-- Two successive float demands (`__float__` → `result(float)`) on one
instance with caching disabled, together with the value of the
per-instance memoization guard `self.results[-1][0] == self.variables`
observed between them.  Returns (provider calls of demand 1, guard,
provider calls of demand 2). -/
def c2MemoRun : Except PyErr (Nat × Bool × Nat) :=
  match mkAI {prompt := .str "What is the population of India?", caching := .bool false}
      Option.none with
  | .ok (a, sess) =>
      match tofloat popOracle a sess with
      | .ok (_, a1, s1, n1) =>
          let guard :=
            match a1.results.getLast? with
            | some last => pyEq (.dict last.1) (.dict a1.vars)
            | Option.none => false
          match tofloat popOracle a1 s1 with
          | .ok (_, _, _, n2) => .ok (n1, guard, n2)
          | .error e => .error e
      | .error e => .error e
  | .error e => .error e

/-- A provider greeting back. -/
def greetOracle : String → PyType → Value := fun _ _ => .str "Hi there"

/-- Two identical resolutions (miss then hit) of a plain text request;
returns the results, the length of the instance's invocation record list
afterwards, and the provider call count. -/
def c4HitRun : Except PyErr (List Value × Nat × Nat) :=
  match mkAI {prompt := .str "Hello?", output := .typ .str} Option.none with
  | .ok (a, sess) =>
      match repeatInvoke greetOracle 2 a sess with
      | .ok (vs, a', _, n) => .ok (vs, a'.results.length, n)
      | .error e => .error e
  | .error e => .error e

/-- A provider resolving the two arithmetic prompts of the spec scenario to
13 and 2 (as an int or a float, whichever shape is requested). -/
def mulOracle : String → PyType → Value := fun p t =>
  let n : Int := if p = "How many is a bakers dozen?" then 13 else 2
  match t with
  | .int => .int n
  | .float => .float ⟨n, 0⟩
  | _ => .str (pyStr (.int n))

/-- `AI("How many is a bakers dozen?") * AI("How many wheels does a bicycle have?")`
with both instances left at their defaults (no explicit output type). -/
def c5MulRun : Except PyErr (Value × Nat) :=
  match mkAI {prompt := .str "How many is a bakers dozen?"} Option.none with
  | .ok (a, s0) =>
      match mkAI {prompt := .str "How many wheels does a bicycle have?"} s0 with
      | .ok (b, s1) =>
          match aiMul mulOracle (.engine a) (.engine b) s1 with
          | .ok (v, _, n) => .ok (v, n)
          | .error e => .error e
      | .error e => .error e
  | .error e => .error e

/-- Constructor arguments for the operator-inference scenario: a prompt,
caching disabled (so the provider count tells the whole story) and the
given int/float numeric preference. -/
def c5Args (p : String) (intPref : Bool) : AIArgs :=
  { prompt := Value.str p, caching := Value.bool false,
    numericals_default_to_int := Value.bool intPref }

/-- A freshly constructed instance for the operator-inference scenario. -/
def c5State (p : String) (intPref : Bool) : AIState :=
  ⟨(c5Args p intPref).toVariables, [], [], Option.none⟩

/-- The final prompt format the specification describes: every prior
(question, answer) pair as alternating role-labeled lines, then the
current role label with the new text, then the answering role label with
nothing after it.  (Modelled from the spec's words, for comparison with
the prompt the code builds.) -/
def specChatPrompt (n0 n1 : String) (chatLog : List (String × String)) (text : String) : String :=
  String.join (chatLog.map fun qa => n0 ++ ": " ++ qa.1 ++ "\n" ++ n1 ++ ": " ++ qa.2 ++ "\n")
    ++ n0 ++ ": " ++ text ++ "\n" ++ n1 ++ ": "

/-- First turn of a conversation-enabled chatbot (`AI(append_history=True)`
called with one question): the full prompt the engine actually sent, read
back from the invocation record. -/
def c6FirstPrompt : Except PyErr String :=
  match mkAI {append_history := .bool true, caching := .bool false} Option.none with
  | .ok (a, sess) =>
      match chatStep greetOracle a sess "Hi" with
      | .ok (_, a1, _, _) =>
          match a1.results.getLast? with
          | some last =>
              match dGet last.1 "full_prompt" with
              | some (.str fp) => .ok fp
              | _ => .error (.keyError "full_prompt")
          | Option.none => .error (.keyError "no record")
      | .error e => .error e
  | .error e => .error e

/-- Head character present and not `str.strip()`-whitespace. -/
def headNonWS (s : String) : Bool :=
  match s.data with
  | [] => false
  | c :: _ => !isPyWs c

/-- Last character present and not `str.strip()`-whitespace. -/
def endsNonWS (s : String) : Bool :=
  match s.data.reverse with
  | [] => false
  | c :: _ => !isPyWs c

/-- The full prompt `invoke` builds when conversation append is on:
`chat_history.strip() + f"\n{q}: {prompt}\n{a}: "` with the history
accumulated from the conversation log. -/
def chatFullPrompt (n0 n1 : String) (chat : List (Dict × Value)) (q : String) : String :=
  pyStrip (chatHistoryBlock n0 n1 chat) ++ "\n" ++ n0 ++ ": " ++ q ++ "\n" ++ n1 ++ ": "

/-- The example script's chatbot configuration
(`AI(append_history=True, caching=False)`). -/
def c6Args : AIArgs := { append_history := Value.bool true, caching := Value.bool false }

/-- The chatbot instance exactly as `__init__` leaves it: empty histories,
no per-instance cache (`cache_init` short-circuits on disabled caching). -/
def c6State : AIState := ⟨c6Args.toVariables, [], [], Option.none⟩

/-- Three questions to one chatbot in sequence, as in the example script's
interactive loop; returns the last turn's answer, the final instance
state, the session global and the last turn's provider call count. -/
def threeChatTurns (oracle : String → PyType → Value) (q1 q2 q3 : String) :
    Except PyErr (Value × AIState × Option Dict × Nat) := do
  let (_, a1, s1, _) ← chatStep oracle c6State Option.none q1
  let (_, a2, s2, _) ← chatStep oracle a1 s1 q2
  chatStep oracle a2 s2 q3

/-- Constructing an instance that requests the unimplemented `project`
cache scope with caching disabled (the construction the claim says must
fail). -/
def c8DisabledRun : Except PyErr (AIState × Option Dict) :=
  mkAI {prompt := .str "x", cache_location := .str "project", caching := .bool false}
    Option.none

/-- Whether an `Except` computation succeeded. -/
def exceptOk {ε α : Type} : Except ε α → Bool
  | .ok _ => true
  | .error _ => false

/-- A configuration with the prompt, output type, params and the three
cache-relevant settings pinned (caching on, session scope, no conversation
append) and every other setting left as in `base`. -/
def cfgArgs (base : AIArgs) (p : String) (T : PyType) (par : Dict) : AIArgs :=
  { base with
    prompt := Value.str p, output := Value.typ T, params := Value.dict par,
    caching := Value.bool true, cache_location := Value.str "session",
    append_history := Value.bool false }

/-! ## Helper lemmas -/

@[simp] theorem ebind_ok {ε α β : Type} (x : α) (f : α → Except ε β) :
    (Except.ok x : Except ε α) >>= f = f x := rfl

@[simp] theorem ebind_err {ε α β : Type} (e : ε) (f : α → Except ε β) :
    (Except.error e : Except ε α) >>= f = .error e := rfl

@[simp] theorem epure_eq {ε α : Type} (x : α) : (pure x : Except ε α) = .ok x := rfl

@[simp] theorem ethrow_eq {ε α : Type} (e : ε) : (throw e : Except ε α) = .error e := rfl

theorem pyTruthy_str_of_ne {s : String} (h : s ≠ "") : pyTruthy (.str s) = true := by
  simp [pyTruthy, h]

@[simp] theorem pyTruthy_bool (b : Bool) : pyTruthy (.bool b) = b := rfl

@[simp] theorem dGet_nil (k : String) : dGet [] k = Option.none := rfl

@[simp] theorem dGet_cons_self (k : String) (v : Value) (rest : Dict) :
    dGet ((k, v) :: rest) k = some v := by simp [dGet]

@[simp] theorem dGet_cons_ne (k' : String) (v' : Value) (rest : Dict) (k : String)
    (h : ¬ k' = k) : dGet ((k', v') :: rest) k = dGet rest k := by simp [dGet, h]

@[simp] theorem dSet_nil (k : String) (v : Value) : dSet [] k v = [(k, v)] := rfl

@[simp] theorem dSet_cons_self (k : String) (v' : Value) (rest : Dict) (v : Value) :
    dSet ((k, v') :: rest) k v = (k, v) :: rest := by simp [dSet]

@[simp] theorem dSet_cons_ne (k' : String) (v' : Value) (rest : Dict) (k : String) (v : Value)
    (h : ¬ k' = k) : dSet ((k', v') :: rest) k v = (k', v') :: dSet rest k v := by
  simp [dSet, h]

@[simp] theorem pyLower_session : pyLower "session" = "session" := rfl

theorem dGet_dSet_self (d : Dict) (k : String) (v : Value) :
    dGet (dSet d k v) k = some v := by
  induction d with
  | nil => simp
  | cons kv rest ih =>
      obtain ⟨k', v'⟩ := kv
      by_cases h : k' = k
      · subst h; simp
      · simp [dSet, dGet, h, ih]

theorem dSet_eq_of_dGet {d : Dict} {k : String} {v : Value} (h : dGet d k = some v) :
    dSet d k v = d := by
  induction d with
  | nil => simp [dGet] at h
  | cons kv rest ih =>
      obtain ⟨k', v'⟩ := kv
      by_cases hk : k' = k
      · subst hk
        simp [dGet] at h
        simp [h]
      · simp [dGet, hk] at h
        simp [dSet, hk, ih h]

theorem dGetD_eq {d : Dict} {k : String} {v : Value} (dflt : Value)
    (h : dGet d k = some v) : dGetD d k dflt = v := by simp [dGetD, h]

theorem dMem_eq_false {d : Dict} {k : String} (h : dGet d k = Option.none) :
    dMem d k = false := by simp [dMem, h]

theorem replacePlaceholders_noPH (p : String) (repl : List (String × Value)) (d : Value)
    (h : findPH p.data = []) : replacePlaceholders p repl d = .ok p := by
  unfold replacePlaceholders
  rw [h]
  rfl

/-- `cache_get` with caching on and the `session` scope reads the session
global under `str(key)` (returning `False` when absent). -/
theorem cache_get_session (vars : Dict) (ic : Option Dict) (c : Dict) (key : Value)
    (hcach : dGetD vars "caching" Value.none = Value.bool true)
    (hloc : dGetD vars "cache_location" Value.none = Value.str "session") :
    cache_get vars ic (some c) key = .ok (dGetD c (pyStr key) (Value.bool false)) := by
  unfold cache_get locationLower
  rw [hcach, hloc]
  simp [pyTruthy]

/-- `cache_set` with caching on and the `session` scope stores under
`str(key)` into the session global. -/
theorem cache_set_session (vars : Dict) (ic : Option Dict) (c : Dict) (key value : Value)
    (hcach : dGetD vars "caching" Value.none = Value.bool true)
    (hloc : dGetD vars "cache_location" Value.none = Value.str "session") :
    cache_set vars ic (some c) key value = .ok (ic, some (dSet c (pyStr key) value)) := by
  unfold cache_set locationLower
  rw [hcach, hloc]
  simp [pyTruthy]

/-- Everything `invoke()` (no per-call overrides) reads from a stable,
already-resolved configuration: the nine facts the proofs below consume. -/
structure StableCfg (vars : Dict) (p q : String) (T : PyType) : Prop where
  hfill : fillKwargs vars [] = vars
  hout : dGet vars "output" = some (Value.typ T)
  hprompt : dGetD vars "prompt" Value.none = Value.str p
  hp : p ≠ ""
  hparams : ∃ par pd, dGetD vars "params" Value.none = Value.dict par ∧
      dGetD vars "param_default" Value.none = pd ∧
      replacePlaceholders p par pd = Except.ok q
  hah : dGetD vars "append_history" Value.none = Value.bool false
  hcach : dGetD vars "caching" Value.none = Value.bool true
  hloc : dGetD vars "cache_location" Value.none = Value.str "session"
  hctp : dMem vars "cast_to_preffered_type" = false

/-- The steady state of a cached resolution: with a stable configuration
(output type already recorded, caching on, session scope, no conversation
append) and a truthy value stored in the session cache under the current
effective key, `invoke()` returns the stored value, leaves the instance
state and the session cache untouched, and makes no provider call. -/
theorem invoke_hit (oracle : String → PyType → Value) (vars : Dict) (p q : String)
    (T : PyType) (results chat : List (Dict × Value)) (ic : Option Dict)
    (c : Dict) (w : Value)
    (hcfg : StableCfg vars p q T)
    (hc : dGetD c (cacheKeyStr vars q) (Value.bool false) = w)
    (hw : pyTruthy w = true) :
    invoke oracle ⟨vars, results, chat, ic⟩ (some c) Option.none [] =
      .ok (w, ⟨vars, results, chat, ic⟩, some c, 0) := by
  obtain ⟨hfill, hout, hprompt, hp, ⟨par, pd, hpar, hpd, hq⟩, hah, hcach, hloc, -⟩ := hcfg
  have h1 : pyTruthy (.str p) = true := pyTruthy_str_of_ne hp
  have hdset : dSet vars "output" (Value.typ T) = vars := dSet_eq_of_dGet hout
  have houtD : dGetD vars "output" Value.none = Value.typ T := dGetD_eq _ hout
  have hcg := cache_get_session vars ic c (cacheKeyV vars q) hcach hloc
  rw [show pyStr (cacheKeyV vars q) = cacheKeyStr vars q from rfl, hc] at hcg
  simp only [cacheKeyV] at hcg
  unfold invoke
  simp only [hfill, houtD, hdset, hprompt, hpar, hpd, hah, hcach, decodeOutput,
             ebind_ok, ebind_err, epure_eq, ethrow_eq, h1, hq, hcg, hw, cacheKeyV,
             pyTruthy_bool, Bool.not_true, Bool.false_eq_true, not_false_eq_true,
             ite_true, ite_false, if_true, if_false]
  simp [hw, hp]

/-- A resolution that misses (nothing truthy under the effective key):
`invoke()` calls the provider once, auto-casts the decoded payload to the
requested type, appends one invocation record and one conversation-log
entry, and writes the result through to the session cache under the
effective key. -/
theorem invoke_miss (oracle : String → PyType → Value) (vars : Dict) (p q : String)
    (T : PyType) (results chat : List (Dict × Value)) (ic : Option Dict)
    (c : Dict) (w : Value)
    (hcfg : StableCfg vars p q T)
    (hmiss : pyTruthy (dGetD c (cacheKeyStr vars q) (Value.bool false)) = false)
    (hT : ¬ T = PyType.dict)
    (hcast : pyCast T (oracle q T) = .ok w) :
    invoke oracle ⟨vars, results, chat, ic⟩ (some c) Option.none [] =
      .ok (w,
           ⟨vars, results ++ [(dSet vars "full_prompt" (Value.str q), w)],
                  chat ++ [(dSet vars "prompt" (Value.str q), w)], ic⟩,
           some (dSet c (cacheKeyStr vars q) w), 1) := by
  obtain ⟨hfill, hout, hprompt, hp, ⟨par, pd, hpar, hpd, hq⟩, hah, hcach, hloc, hctp⟩ := hcfg
  have h1 : pyTruthy (.str p) = true := pyTruthy_str_of_ne hp
  have hdset : dSet vars "output" (Value.typ T) = vars := dSet_eq_of_dGet hout
  have houtD : dGetD vars "output" Value.none = Value.typ T := dGetD_eq _ hout
  have hcg := cache_get_session vars ic c (cacheKeyV vars q) hcach hloc
  rw [show pyStr (cacheKeyV vars q) = cacheKeyStr vars q from rfl] at hcg
  simp only [cacheKeyV] at hcg
  have hcs := cache_set_session vars ic c (cacheKeyV vars q) w hcach hloc
  rw [show pyStr (cacheKeyV vars q) = cacheKeyStr vars q from rfl] at hcs
  simp only [cacheKeyV] at hcs
  unfold invoke
  simp only [hfill, houtD, hdset, hprompt, hpar, hpd, hah, hcach, hctp, decodeOutput,
             ebind_ok, ebind_err, epure_eq, ethrow_eq, h1, hq, hcg, hcs, hmiss, hcast,
             hT, cacheKeyV, AUTO_CAST_TO_PREFERRED_TYPE, pyTruthy_bool, Bool.not_true,
             Bool.false_eq_true, not_false_eq_true, ite_true, ite_false, if_true, if_false]
  simp [hp, hmiss]

/-- The facts `invoke` reads from the *filled keyword arguments* `kw`
(prompt present and nonempty, params expanding to `q`, conversation append
off, caching gate on, no misspelled cast override). -/
structure KwReads (kw : Dict) (p q : String) : Prop where
  hprompt : dGetD kw "prompt" Value.none = Value.str p
  hp : p ≠ ""
  hparams : ∃ par pd, dGetD kw "params" Value.none = Value.dict par ∧
      dGetD kw "param_default" Value.none = pd ∧
      replacePlaceholders p par pd = Except.ok q
  hah : dGetD kw "append_history" Value.none = Value.bool false
  hctp : dMem kw "cast_to_preffered_type" = false

/-- The general missing-from-cache invocation, for arbitrary per-call
keyword arguments `kwargs0` filling to `kw`: the target type `T` is
resolved from `kw['output']` (defaulting to `str`) and written back into
`self.variables['output']`; the provider is called once; the result is
cast to `T`, recorded in the histories under `kw`, and written through to
the session cache. -/
theorem invoke_miss_general (oracle : String → PyType → Value) (vars kwargs0 kw : Dict)
    (p q : String) (T : PyType) (results chat : List (Dict × Value)) (ic : Option Dict)
    (c : Dict) (w : Value)
    (hfill : fillKwargs vars kwargs0 = kw)
    (hout : decodeOutput (dGetD kw "output" Value.none) = .ok T)
    (hk : KwReads kw p q)
    (hcach : dGetD kw "caching" Value.none = Value.bool true)
    (hvc : dGetD (dSet vars "output" (Value.typ T)) "caching" Value.none = Value.bool true)
    (hvl : dGetD (dSet vars "output" (Value.typ T)) "cache_location" Value.none =
      Value.str "session")
    (hmiss : pyTruthy (dGetD c (cacheKeyStr kw q) (Value.bool false)) = false)
    (hT : ¬ T = PyType.dict)
    (hcast : pyCast T (oracle q T) = .ok w) :
    invoke oracle ⟨vars, results, chat, ic⟩ (some c) Option.none kwargs0 =
      .ok (w,
           ⟨dSet vars "output" (Value.typ T),
            results ++ [(dSet kw "full_prompt" (Value.str q), w)],
            chat ++ [(dSet kw "prompt" (Value.str q), w)], ic⟩,
           some (dSet c (cacheKeyStr kw q) w), 1) := by
  obtain ⟨hprompt, hp, ⟨par, pd, hpar, hpd, hq⟩, hah, hctp⟩ := hk
  have h1 : pyTruthy (.str p) = true := pyTruthy_str_of_ne hp
  have hcg := cache_get_session (dSet vars "output" (Value.typ T)) ic c (cacheKeyV kw q) hvc hvl
  rw [show pyStr (cacheKeyV kw q) = cacheKeyStr kw q from rfl] at hcg
  simp only [cacheKeyV] at hcg
  have hcs := cache_set_session (dSet vars "output" (Value.typ T)) ic c (cacheKeyV kw q) w hvc hvl
  rw [show pyStr (cacheKeyV kw q) = cacheKeyStr kw q from rfl] at hcs
  simp only [cacheKeyV] at hcs
  unfold invoke
  simp only [hfill, hout, hprompt, hpar, hpd, hah, hcach, hctp,
             ebind_ok, ebind_err, epure_eq, ethrow_eq, h1, hq, hcg, hcs, hmiss, hcast,
             hT, cacheKeyV, AUTO_CAST_TO_PREFERRED_TYPE, pyTruthy_bool, Bool.not_true,
             Bool.false_eq_true, not_false_eq_true, ite_true, ite_false, if_true, if_false]
  simp [hp, hmiss]

/-- An invocation with caching disabled never touches any cache: one
provider call, result cast to the resolved type, both histories appended,
session untouched. -/
theorem invoke_nocache (oracle : String → PyType → Value) (vars kwargs0 kw : Dict)
    (p q : String) (T : PyType) (results chat : List (Dict × Value)) (ic : Option Dict)
    (sess : Option Dict) (w : Value)
    (hfill : fillKwargs vars kwargs0 = kw)
    (hout : decodeOutput (dGetD kw "output" Value.none) = .ok T)
    (hk : KwReads kw p q)
    (hcach : pyTruthy (dGetD kw "caching" Value.none) = false)
    (hT : ¬ T = PyType.dict)
    (hcast : pyCast T (oracle q T) = .ok w) :
    invoke oracle ⟨vars, results, chat, ic⟩ sess Option.none kwargs0 =
      .ok (w,
           ⟨dSet vars "output" (Value.typ T),
            results ++ [(dSet kw "full_prompt" (Value.str q), w)],
            chat ++ [(dSet kw "prompt" (Value.str q), w)], ic⟩,
           sess, 1) := by
  obtain ⟨hprompt, hp, ⟨par, pd, hpar, hpd, hq⟩, hah, hctp⟩ := hk
  have h1 : pyTruthy (.str p) = true := pyTruthy_str_of_ne hp
  unfold invoke
  simp only [hfill, hout, hprompt, hpar, hpd, hah, hcach, hctp,
             ebind_ok, ebind_err, epure_eq, ethrow_eq, h1, hq, hcast,
             hT, AUTO_CAST_TO_PREFERRED_TYPE, pyTruthy_bool, Bool.not_true,
             Bool.false_eq_true, not_false_eq_true, ite_true, ite_false, if_true, if_false]
  simp [hp, pyTruthy]

/-- `AI.result` demanding type `T` on a fresh caching-disabled instance
whose stored output type is absent: the memo guard fails, `invoke` is
called with `output=T`, and the result is cast to `T` twice (once by the
auto-cast inside `invoke`, once by `result`). -/
theorem result_demand_nocache (oracle : String → PyType → Value) (vars : Dict)
    (p q : String) (T : PyType) (sess : Option Dict) (w w' : Value)
    (hmemo : memoHit ⟨vars, [], [], Option.none⟩ = Option.none)
    (hpromptT : pyTruthy (dGetD vars "prompt" Value.none) = true)
    (houtN : dGetD vars "output" Value.none = Value.none)
    (hout2 : decodeOutput (dGetD (fillKwargs vars [("output", Value.typ T)]) "output"
      Value.none) = .ok T)
    (hk : KwReads (fillKwargs vars [("output", Value.typ T)]) p q)
    (hcach : pyTruthy (dGetD (fillKwargs vars [("output", Value.typ T)]) "caching"
      Value.none) = false)
    (hT : ¬ T = PyType.dict)
    (hcast : pyCast T (oracle q T) = .ok w)
    (hcast2 : pyCast T w = .ok w') :
    result oracle ⟨vars, [], [], Option.none⟩ sess (some T) true =
      .ok (w',
           ⟨dSet vars "output" (Value.typ T),
            [(dSet (fillKwargs vars [("output", Value.typ T)]) "full_prompt" (Value.str q), w)],
            [(dSet (fillKwargs vars [("output", Value.typ T)]) "prompt" (Value.str q), w)],
            Option.none⟩,
           sess, 1) := by
  unfold result
  simp only [hmemo, hpromptT, houtN, Bool.not_true, Bool.false_eq_true, not_false_eq_true,
             ite_true, ite_false, if_true, if_false]
  rw [invoke_nocache oracle vars [("output", Value.typ T)]
        (fillKwargs vars [("output", Value.typ T)]) p q T [] [] Option.none sess w
        rfl hout2 hk hcach hT hcast]
  simp [hcast2]

/-- Any number of repeated resolutions from the steady (already cached,
truthy) state return the stored value each time with zero provider calls
and no state change at all. -/
theorem repeatInvoke_hits (oracle : String → PyType → Value) (vars : Dict) (p q : String)
    (T : PyType) (results chat : List (Dict × Value)) (ic : Option Dict)
    (c : Dict) (w : Value)
    (hcfg : StableCfg vars p q T)
    (hc : dGetD c (cacheKeyStr vars q) (Value.bool false) = w)
    (hw : pyTruthy w = true) :
    ∀ n : Nat, repeatInvoke oracle n ⟨vars, results, chat, ic⟩ (some c) =
      .ok (List.replicate n w, ⟨vars, results, chat, ic⟩, some c, 0) := by
  intro n
  induction n with
  | zero => rfl
  | succ m ih =>
      show (do
        let (v, a1, sess1, c1) ← invoke oracle ⟨vars, results, chat, ic⟩ (some c) Option.none []
        let (vs, a2, sess2, c2) ← repeatInvoke oracle m a1 sess1
        Except.ok (v :: vs, a2, sess2, c1 + c2)) = _
      rw [invoke_hit oracle vars p q T results chat ic c w hcfg hc hw]
      simp only [ebind_ok, ih, List.replicate_succ]

/-- `AI.result` on an instance whose stored configuration already has an
output type: the memo guard fails, the prompt check passes, and the
resolution is delegated to `invoke()` with *no* output override — the
stored type is reused; only the final cast applies the newly demanded
type. -/
theorem result_reuses_stored_type (oracle : String → PyType → Value) (vars : Dict)
    (results chat : List (Dict × Value)) (ic : Option Dict) (sess : Option Dict)
    (T T' : PyType) (castArg : Bool)
    (hout : dGet vars "output" = some (Value.typ T))
    (hmemo : memoHit ⟨vars, results, chat, ic⟩ = Option.none)
    (hprompt : pyTruthy (dGetD vars "prompt" Value.none) = true) :
    result oracle ⟨vars, results, chat, ic⟩ sess (some T') castArg =
      (do
        let r ← invoke oracle ⟨vars, results, chat, ic⟩ sess Option.none []
        let r' ← if castArg then pyCast T' r.1 else pure r.1
        pure (r', r.2.1, r.2.2.1, r.2.2.2)) := by
  have houtD : dGetD vars "output" Value.none = Value.typ T := dGetD_eq _ hout
  unfold result
  simp only [hmemo, houtD, hprompt, Bool.not_true, Bool.false_eq_true, not_false_eq_true,
             ite_true, ite_false, if_true, if_false]
  cases hinv : invoke oracle ⟨vars, results, chat, ic⟩ sess Option.none [] with
  | error e => simp
  | ok r =>
      obtain ⟨r1, a', s', n⟩ := r
      simp

@[simp] theorem dGetD_dSet_self (d : Dict) (k : String) (v dflt : Value) :
    dGetD (dSet d k v) k dflt = v := by simp [dGetD, dGet_dSet_self]

theorem dGet_mem {d : Dict} {k : String} {v : Value} (h : dGet d k = some v) : (k, v) ∈ d := by
  induction d with
  | nil => simp [dGet] at h
  | cons kv rest ih =>
      obtain ⟨k', v'⟩ := kv
      by_cases hk : k' = k
      · subst hk
        simp [dGet] at h
        simp [h]
      · simp [dGet, hk] at h
        exact List.mem_cons_of_mem _ (ih h)

theorem pyEqF_dict_succ (fuel : Nat) (d1 d2 : Dict) :
    pyEqF (fuel + 1) (.dict d1) (.dict d2) =
      ((d1.all fun kv =>
        match dGet d2 kv.1 with
        | some w => pyEqF fuel kv.2 w
        | Option.none => false) &&
      (d2.all fun kv => dMem d1 kv.1)) := rfl

/-- Python `==` on dicts is `False` as soon as one key of the left dict is
absent from the right dict. -/
theorem pyEq_dict_false_of_missing {d1 d2 : Dict} {k : String}
    (h1 : dMem d1 k = true) (h2 : dMem d2 k = false) :
    pyEq (Value.dict d1) (Value.dict d2) = false := by
  obtain ⟨v, hv⟩ : ∃ v, dGet d1 k = some v := by
    unfold dMem at h1
    cases h : dGet d1 k with
    | none => rw [h] at h1; simp at h1
    | some v => exact ⟨v, rfl⟩
  have h2' : dGet d2 k = Option.none := by
    unfold dMem at h2
    cases h : dGet d2 k with
    | none => rfl
    | some w => rw [h] at h2; simp at h2
  unfold pyEq
  rw [show (1000 : Nat) = 999 + 1 from rfl, pyEqF_dict_succ]
  have hall : (d1.all fun kv =>
      match dGet d2 kv.1 with
      | some w => pyEqF 999 kv.2 w
      | Option.none => false) = false :=
    List.all_eq_false.mpr ⟨(k, v), dGet_mem hv, by simp [h2']⟩
  rw [hall, Bool.false_and]

/-- The memoization guard fails whenever the last invocation record has a
key (in practice `full_prompt`) that `self.variables` lacks. -/
theorem memoHit_none_of_extra_key (vars : Dict) (results chat : List (Dict × Value))
    (ic : Option Dict) (k : String)
    (hlast : ∀ r, results.getLast? = some r → dMem r.1 k = true)
    (hvars : dMem vars k = false) :
    memoHit ⟨vars, results, chat, ic⟩ = Option.none := by
  cases h : results.getLast? with
  | none => simp [memoHit, h]
  | some last =>
      have hne := pyEq_dict_false_of_missing (hlast last h) hvars
      simp [memoHit, h, hne]

theorem headNonWS_lit_append (s t : String) (h : headNonWS s = true) :
    headNonWS (s ++ t) = true := by
  unfold headNonWS at h ⊢
  rw [String.data_append]
  cases hs : s.data with
  | nil => rw [hs] at h; simp at h
  | cons c l => rw [hs] at h; simpa using h

theorem endsNonWS_append (s t : String) (h : endsNonWS t = true) :
    endsNonWS (s ++ t) = true := by
  unfold endsNonWS at h ⊢
  rw [String.data_append, List.reverse_append]
  cases ht : t.data.reverse with
  | nil => rw [ht] at h; simp at h
  | cons c l => rw [ht] at h; simpa using h

/-- `str.strip()` of a newline followed by a block that neither starts nor
ends in whitespace removes exactly that newline. -/
theorem pyStrip_block {r : String} (h1 : headNonWS r = true) (h2 : endsNonWS r = true) :
    pyStrip ("\n" ++ r) = r := by
  obtain ⟨c, t, hct⟩ : ∃ c t, r.data = c :: t := by
    unfold headNonWS at h1
    cases h : r.data with
    | nil => rw [h] at h1; simp at h1
    | cons c t => exact ⟨c, t, rfl⟩
  have hc : isPyWs c = false := by
    unfold headNonWS at h1
    rw [hct] at h1
    simpa using h1
  obtain ⟨d, m, hdm⟩ : ∃ d m, r.data.reverse = d :: m := by
    unfold endsNonWS at h2
    cases h : r.data.reverse with
    | nil => rw [h] at h2; simp at h2
    | cons d m => exact ⟨d, m, rfl⟩
  have hd : isPyWs d = false := by
    unfold endsNonWS at h2
    rw [hdm] at h2
    simpa using h2
  have happ : ("\n" ++ r).data = '\n' :: r.data := by
    rw [String.data_append]
    rfl
  have h3 : List.dropWhile isPyWs ('\n' :: r.data) = r.data := by
    rw [hct]
    simp [List.dropWhile, hc, show isPyWs '\n' = true from by decide]
  have h4 : List.dropWhile isPyWs r.data.reverse = r.data.reverse := by
    rw [hdm]
    simp [List.dropWhile, hd]
  unfold pyStrip
  rw [happ, h3, h4, List.reverse_reverse]

/-- `invoke` with conversation append on and caching off: one provider
call on the history-prefixed full prompt, the result auto-cast to the
resolved type, the full prompt recorded in `results`, the expanded prompt
recorded in `chat`, every cache untouched. -/
theorem invoke_chat (oracle : String → PyType → Value) (vars kwargs0 kw : Dict)
    (p q n0 n1 : String) (T : PyType) (results chat : List (Dict × Value))
    (ic : Option Dict) (sess : Option Dict) (w : Value)
    (hfill : fillKwargs vars kwargs0 = kw)
    (hout : decodeOutput (dGetD kw "output" Value.none) = .ok T)
    (hprompt : dGetD kw "prompt" Value.none = Value.str p)
    (hp : p ≠ "")
    (hparams : ∃ par pd, dGetD kw "params" Value.none = Value.dict par ∧
      dGetD kw "param_default" Value.none = pd ∧ replacePlaceholders p par pd = Except.ok q)
    (hah : dGetD kw "append_history" Value.none = Value.bool true)
    (hhn : dGetD kw "history_names" Value.none = Value.tuple [Value.str n0, Value.str n1])
    (hctp : dMem kw "cast_to_preffered_type" = false)
    (hcach : pyTruthy (dGetD kw "caching" Value.none) = false)
    (hT : ¬ T = PyType.dict)
    (hcast : pyCast T (oracle (chatFullPrompt n0 n1 chat q) T) = .ok w) :
    invoke oracle ⟨vars, results, chat, ic⟩ sess Option.none kwargs0 =
      .ok (w,
           ⟨dSet vars "output" (Value.typ T),
            results ++ [(dSet kw "full_prompt"
                (Value.str (chatFullPrompt n0 n1 chat q)), w)],
            chat ++ [(dSet kw "prompt" (Value.str q), w)], ic⟩,
           sess, 1) := by
  obtain ⟨par, pd, hpar, hpd, hq⟩ := hparams
  have h1 : pyTruthy (.str p) = true := pyTruthy_str_of_ne hp
  have hn0 : tupleIx (Value.tuple [Value.str n0, Value.str n1]) 0 = .ok (.str n0) := rfl
  have hn1 : tupleIx (Value.tuple [Value.str n0, Value.str n1]) 1 = .ok (.str n1) := rfl
  simp only [chatFullPrompt] at hcast
  unfold invoke
  simp only [hfill, hout, hprompt, hpar, hpd, hah, hhn, hn0, hn1, hctp, hcach,
             chatFullPrompt, pyStr,
             ebind_ok, ebind_err, epure_eq, ethrow_eq, h1, hq, hcast,
             hT, AUTO_CAST_TO_PREFERRED_TYPE, pyTruthy_bool, Bool.not_true,
             Bool.false_eq_true, not_false_eq_true, ite_true, ite_false, if_true, if_false]
  simp [hp, pyTruthy]

/-- One whole chatbot turn at the `result` level: `__str__` on a
conversation-append, caching-off instance whose stored output type is
either still absent (first turn, `output=str` passed through) or already
the written-back `str` (later turns, no override). -/
theorem result_chat_step (oracle : String → PyType → Value) (vars kwargs0 kw : Dict)
    (p q n0 n1 : String) (results chat : List (Dict × Value)) (sess : Option Dict)
    (s : String)
    (hmemo : memoHit ⟨vars, results, chat, Option.none⟩ = Option.none)
    (hvpr : dGetD vars "prompt" Value.none = Value.str p)
    (hbr : (dGetD vars "output" Value.none = Value.none ∧
              kwargs0 = [("output", Value.typ PyType.str)]) ∨
           (dGetD vars "output" Value.none = Value.typ PyType.str ∧ kwargs0 = []))
    (hfill : fillKwargs vars kwargs0 = kw)
    (hout : decodeOutput (dGetD kw "output" Value.none) = .ok PyType.str)
    (hprompt : dGetD kw "prompt" Value.none = Value.str p)
    (hp : p ≠ "")
    (hparams : ∃ par pd, dGetD kw "params" Value.none = Value.dict par ∧
      dGetD kw "param_default" Value.none = pd ∧ replacePlaceholders p par pd = Except.ok q)
    (hah : dGetD kw "append_history" Value.none = Value.bool true)
    (hhn : dGetD kw "history_names" Value.none = Value.tuple [Value.str n0, Value.str n1])
    (hctp : dMem kw "cast_to_preffered_type" = false)
    (hcach : pyTruthy (dGetD kw "caching" Value.none) = false)
    (horacle : oracle (chatFullPrompt n0 n1 chat q) PyType.str = Value.str s) :
    tostr oracle ⟨vars, results, chat, Option.none⟩ sess =
      .ok (Value.str s,
           ⟨dSet vars "output" (Value.typ PyType.str),
            results ++ [(dSet kw "full_prompt"
                (Value.str (chatFullPrompt n0 n1 chat q)), Value.str s)],
            chat ++ [(dSet kw "prompt" (Value.str q), Value.str s)], Option.none⟩,
           sess, 1) := by
  have hcast : pyCast PyType.str (oracle (chatFullPrompt n0 n1 chat q) PyType.str) =
      .ok (Value.str s) := by rw [horacle]; rfl
  have hprT : pyTruthy (dGetD vars "prompt" Value.none) = true := by
    rw [hvpr]; exact pyTruthy_str_of_ne hp
  rcases hbr with ⟨hN, hk0⟩ | ⟨hS, hk0⟩ <;> subst hk0
  · have hinv := invoke_chat oracle vars [("output", Value.typ PyType.str)] kw p q n0 n1
      PyType.str results chat Option.none sess (Value.str s) hfill hout hprompt hp hparams
      hah hhn hctp hcach (by decide) hcast
    unfold tostr result
    simp only [hmemo, hprT, Bool.not_true, Bool.false_eq_true, not_false_eq_true,
               ite_true, ite_false, if_true, if_false]
    rw [if_pos hN, hinv]
    simp [pyCast, pyStr]
  · have hinv := invoke_chat oracle vars [] kw p q n0 n1 PyType.str results chat
      Option.none sess (Value.str s) hfill hout hprompt hp hparams hah hhn hctp hcach
      (by decide) hcast
    have hSne : ¬ dGetD vars "output" Value.none = Value.none := by rw [hS]; simp
    unfold tostr result
    simp only [hmemo, hprT, Bool.not_true, Bool.false_eq_true, not_false_eq_true,
               ite_true, ite_false, if_true, if_false]
    rw [if_neg hSne, hinv]
    simp [pyCast, pyStr]

/-- The full prompt of the first chatbot turn (empty log): just the
unconditional newline, the labels and the question. -/
theorem c6_fp1 (q1 : String) : chatFullPrompt "Question" "Answer" [] q1 =
    "\nQuestion: " ++ q1 ++ "\nAnswer: " := by
  simp [chatFullPrompt, chatHistoryBlock, show pyStrip "" = "" from rfl,
        String.append_assoc]

/-- First turn of the example chatbot: question in, answer recorded, the
full prompt carrying the leading separating newline. -/
theorem c6_turn1 (oracle : String → PyType → Value) (q1 s1 : String)
    (hq1 : q1 ≠ "") (hf1 : findPH q1.data = [])
    (ho1 : oracle ("\nQuestion: " ++ q1 ++ "\nAnswer: ") PyType.str = Value.str s1) :
    tostr oracle ⟨dSet c6Args.toVariables "prompt" (Value.str q1), [], [], Option.none⟩
        Option.none =
      .ok (Value.str s1,
           ⟨dSet (dSet c6Args.toVariables "prompt" (Value.str q1)) "output"
              (Value.typ PyType.str),
            [] ++ [(dSet (fillKwargs (dSet c6Args.toVariables "prompt" (Value.str q1))
                [("output", Value.typ PyType.str)]) "full_prompt"
                (Value.str ("\nQuestion: " ++ q1 ++ "\nAnswer: ")), Value.str s1)],
            [] ++ [(dSet (fillKwargs (dSet c6Args.toVariables "prompt" (Value.str q1))
                [("output", Value.typ PyType.str)]) "prompt" (Value.str q1), Value.str s1)],
            Option.none⟩,
           Option.none, 1) := by
  have t1 := result_chat_step oracle
    (dSet c6Args.toVariables "prompt" (Value.str q1))
    [("output", Value.typ PyType.str)]
    (fillKwargs (dSet c6Args.toVariables "prompt" (Value.str q1))
      [("output", Value.typ PyType.str)])
    q1 q1 "Question" "Answer" [] [] Option.none s1
    rfl
    (by simp)
    (Or.inl ⟨by simp [c6Args, AIArgs.toVariables, dGetD], rfl⟩)
    rfl
    (by simp [c6Args, AIArgs.toVariables, fillKwargs, dGetD, decodeOutput])
    (by simp [c6Args, AIArgs.toVariables, fillKwargs, dGetD])
    hq1
    ⟨[], Value.none, by simp [c6Args, AIArgs.toVariables, fillKwargs, dGetD],
      by simp [c6Args, AIArgs.toVariables, fillKwargs, dGetD],
      replacePlaceholders_noPH q1 [] Value.none hf1⟩
    (by simp [c6Args, AIArgs.toVariables, fillKwargs, dGetD])
    (by simp [c6Args, AIArgs.toVariables, fillKwargs, dGetD])
    (by simp [c6Args, AIArgs.toVariables, fillKwargs, dMem])
    (by simp [c6Args, AIArgs.toVariables, fillKwargs, dGetD, pyTruthy])
    (by rw [c6_fp1 q1]; exact ho1)
  rw [c6_fp1 q1] at t1
  exact t1

/-- The full prompt of the second chatbot turn: the first (question,
answer) pair, then the separating newline collapsed by `strip()` into the
single newline between the pairs and the new question. -/
theorem c6_fp2 (q1 q2 s1 : String) (hs1 : endsNonWS s1 = true) :
    chatFullPrompt "Question" "Answer"
      ([] ++ [(dSet (fillKwargs (dSet c6Args.toVariables "prompt" (Value.str q1))
          [("output", Value.typ PyType.str)]) "prompt" (Value.str q1), Value.str s1)]) q2 =
      "Question: " ++ q1 ++ "\nAnswer: " ++ s1 ++ "\nQuestion: " ++ q2 ++ "\nAnswer: " := by
  have hb2 : chatHistoryBlock "Question" "Answer"
      ([] ++ [(dSet (fillKwargs (dSet c6Args.toVariables "prompt" (Value.str q1))
          [("output", Value.typ PyType.str)]) "prompt" (Value.str q1), Value.str s1)]) =
      "\n" ++ ("Question: " ++ q1 ++ "\nAnswer: " ++ s1) := by
    simp [chatHistoryBlock, pyStr, String.append_assoc]
    rfl
  have hh2 : headNonWS ("Question: " ++ q1 ++ "\nAnswer: " ++ s1) = true :=
    headNonWS_lit_append _ s1 (headNonWS_lit_append _ "\nAnswer: "
      (headNonWS_lit_append "Question: " q1 (by decide)))
  have he2 : endsNonWS ("Question: " ++ q1 ++ "\nAnswer: " ++ s1) = true :=
    endsNonWS_append _ s1 hs1
  unfold chatFullPrompt
  rw [hb2, pyStrip_block hh2 he2]
  simp [String.append_assoc]

/-- Second turn: both histories and the stored output type are reused; the
full prompt now carries the first pair. -/
theorem c6_turn2 (oracle : String → PyType → Value) (q1 q2 s1 s2 : String)
    (hq2 : q2 ≠ "") (hf2 : findPH q2.data = []) (hs1 : endsNonWS s1 = true)
    (ho2 : oracle ("Question: " ++ q1 ++ "\nAnswer: " ++ s1 ++ "\nQuestion: " ++ q2 ++
      "\nAnswer: ") PyType.str = Value.str s2) :
    tostr oracle
      ⟨dSet (dSet (dSet c6Args.toVariables "prompt" (Value.str q1)) "output"
        (Value.typ PyType.str)) "prompt" (Value.str q2),
       [] ++ [(dSet (fillKwargs (dSet c6Args.toVariables "prompt" (Value.str q1))
           [("output", Value.typ PyType.str)]) "full_prompt"
           (Value.str ("\nQuestion: " ++ q1 ++ "\nAnswer: ")), Value.str s1)],
       [] ++ [(dSet (fillKwargs (dSet c6Args.toVariables "prompt" (Value.str q1))
           [("output", Value.typ PyType.str)]) "prompt" (Value.str q1), Value.str s1)],
       Option.none⟩ Option.none =
      .ok (Value.str s2,
           ⟨dSet (dSet (dSet (dSet c6Args.toVariables "prompt" (Value.str q1)) "output"
              (Value.typ PyType.str)) "prompt" (Value.str q2)) "output"
              (Value.typ PyType.str),
            ([] ++ [(dSet (fillKwargs (dSet c6Args.toVariables "prompt" (Value.str q1))
                [("output", Value.typ PyType.str)]) "full_prompt"
                (Value.str ("\nQuestion: " ++ q1 ++ "\nAnswer: ")), Value.str s1)]) ++
              [(dSet (fillKwargs (dSet (dSet (dSet c6Args.toVariables "prompt"
                  (Value.str q1)) "output" (Value.typ PyType.str)) "prompt"
                  (Value.str q2)) []) "full_prompt"
                  (Value.str ("Question: " ++ q1 ++ "\nAnswer: " ++ s1 ++ "\nQuestion: " ++
                    q2 ++ "\nAnswer: ")), Value.str s2)],
            ([] ++ [(dSet (fillKwargs (dSet c6Args.toVariables "prompt" (Value.str q1))
                [("output", Value.typ PyType.str)]) "prompt" (Value.str q1), Value.str s1)]) ++
              [(dSet (fillKwargs (dSet (dSet (dSet c6Args.toVariables "prompt"
                  (Value.str q1)) "output" (Value.typ PyType.str)) "prompt"
                  (Value.str q2)) []) "prompt" (Value.str q2), Value.str s2)],
            Option.none⟩,
           Option.none, 1) := by
  have t2 := result_chat_step oracle
    (dSet (dSet (dSet c6Args.toVariables "prompt" (Value.str q1)) "output"
      (Value.typ PyType.str)) "prompt" (Value.str q2))
    []
    (fillKwargs (dSet (dSet (dSet c6Args.toVariables "prompt" (Value.str q1)) "output"
      (Value.typ PyType.str)) "prompt" (Value.str q2)) [])
    q2 q2 "Question" "Answer"
    ([] ++ [(dSet (fillKwargs (dSet c6Args.toVariables "prompt" (Value.str q1))
        [("output", Value.typ PyType.str)]) "full_prompt"
        (Value.str ("\nQuestion: " ++ q1 ++ "\nAnswer: ")), Value.str s1)])
    ([] ++ [(dSet (fillKwargs (dSet c6Args.toVariables "prompt" (Value.str q1))
        [("output", Value.typ PyType.str)]) "prompt" (Value.str q1), Value.str s1)])
    Option.none s2
    (memoHit_none_of_extra_key _ _ _ _ "full_prompt"
      (by intro r h
          rw [List.getLast?_concat] at h
          injection h with h
          rw [← h]
          simp [dMem, dGet_dSet_self])
      (by simp [c6Args, AIArgs.toVariables, dMem]))
    (by simp)
    (Or.inr ⟨by simp [c6Args, AIArgs.toVariables, dGetD], rfl⟩)
    rfl
    (by simp [c6Args, AIArgs.toVariables, fillKwargs, dGetD, decodeOutput])
    (by simp [c6Args, AIArgs.toVariables, fillKwargs, dGetD])
    hq2
    ⟨[], Value.none, by simp [c6Args, AIArgs.toVariables, fillKwargs, dGetD],
      by simp [c6Args, AIArgs.toVariables, fillKwargs, dGetD],
      replacePlaceholders_noPH q2 [] Value.none hf2⟩
    (by simp [c6Args, AIArgs.toVariables, fillKwargs, dGetD])
    (by simp [c6Args, AIArgs.toVariables, fillKwargs, dGetD])
    (by simp [c6Args, AIArgs.toVariables, fillKwargs, dMem])
    (by simp [c6Args, AIArgs.toVariables, fillKwargs, dGetD, pyTruthy])
    (by rw [c6_fp2 q1 q2 s1 hs1]; exact ho2)
  rw [c6_fp2 q1 q2 s1 hs1] at t2
  exact t2

/-- The full prompt of the third chatbot turn: both prior pairs, then the
new question. -/
theorem c6_fp3 (q1 q2 q3 s1 s2 : String) (hs2 : endsNonWS s2 = true) :
    chatFullPrompt "Question" "Answer"
      (([] ++ [(dSet (fillKwargs (dSet c6Args.toVariables "prompt" (Value.str q1))
          [("output", Value.typ PyType.str)]) "prompt" (Value.str q1), Value.str s1)]) ++
       [(dSet (fillKwargs (dSet (dSet (dSet c6Args.toVariables "prompt" (Value.str q1))
          "output" (Value.typ PyType.str)) "prompt" (Value.str q2)) []) "prompt"
          (Value.str q2), Value.str s2)]) q3 =
      "Question: " ++ q1 ++ "\nAnswer: " ++ s1 ++ "\nQuestion: " ++ q2 ++ "\nAnswer: " ++
        s2 ++ "\nQuestion: " ++ q3 ++ "\nAnswer: " := by
  have hb3 : chatHistoryBlock "Question" "Answer"
      (([] ++ [(dSet (fillKwargs (dSet c6Args.toVariables "prompt" (Value.str q1))
          [("output", Value.typ PyType.str)]) "prompt" (Value.str q1), Value.str s1)]) ++
       [(dSet (fillKwargs (dSet (dSet (dSet c6Args.toVariables "prompt" (Value.str q1))
          "output" (Value.typ PyType.str)) "prompt" (Value.str q2)) []) "prompt"
          (Value.str q2), Value.str s2)]) =
      "\n" ++ ("Question: " ++ q1 ++ "\nAnswer: " ++ s1 ++ "\nQuestion: " ++ q2 ++
        "\nAnswer: " ++ s2) := by
    simp [chatHistoryBlock, pyStr, String.append_assoc]
    rfl
  have hh3 : headNonWS ("Question: " ++ q1 ++ "\nAnswer: " ++ s1 ++ "\nQuestion: " ++ q2 ++
      "\nAnswer: " ++ s2) = true :=
    headNonWS_lit_append _ s2 (headNonWS_lit_append _ "\nAnswer: "
      (headNonWS_lit_append _ q2 (headNonWS_lit_append _ "\nQuestion: "
        (headNonWS_lit_append _ s1 (headNonWS_lit_append _ "\nAnswer: "
          (headNonWS_lit_append "Question: " q1 (by decide)))))))
  have he3 : endsNonWS ("Question: " ++ q1 ++ "\nAnswer: " ++ s1 ++ "\nQuestion: " ++ q2 ++
      "\nAnswer: " ++ s2) = true :=
    endsNonWS_append _ s2 hs2
  unfold chatFullPrompt
  rw [hb3, pyStrip_block hh3 he3]
  simp [String.append_assoc]

/-- Third turn: the full prompt carries both prior pairs in order. -/
theorem c6_turn3 (oracle : String → PyType → Value) (q1 q2 q3 s1 s2 s3 : String)
    (hq3 : q3 ≠ "") (hf3 : findPH q3.data = [])
    (hs2 : endsNonWS s2 = true)
    (ho3 : oracle ("Question: " ++ q1 ++ "\nAnswer: " ++ s1 ++ "\nQuestion: " ++ q2 ++
      "\nAnswer: " ++ s2 ++ "\nQuestion: " ++ q3 ++ "\nAnswer: ") PyType.str =
      Value.str s3) :
    tostr oracle
      ⟨dSet (dSet (dSet (dSet (dSet c6Args.toVariables "prompt" (Value.str q1)) "output"
        (Value.typ PyType.str)) "prompt" (Value.str q2)) "output" (Value.typ PyType.str))
        "prompt" (Value.str q3),
       ([] ++ [(dSet (fillKwargs (dSet c6Args.toVariables "prompt" (Value.str q1))
           [("output", Value.typ PyType.str)]) "full_prompt"
           (Value.str ("\nQuestion: " ++ q1 ++ "\nAnswer: ")), Value.str s1)]) ++
         [(dSet (fillKwargs (dSet (dSet (dSet c6Args.toVariables "prompt" (Value.str q1))
             "output" (Value.typ PyType.str)) "prompt" (Value.str q2)) []) "full_prompt"
             (Value.str ("Question: " ++ q1 ++ "\nAnswer: " ++ s1 ++ "\nQuestion: " ++
               q2 ++ "\nAnswer: ")), Value.str s2)],
       ([] ++ [(dSet (fillKwargs (dSet c6Args.toVariables "prompt" (Value.str q1))
           [("output", Value.typ PyType.str)]) "prompt" (Value.str q1), Value.str s1)]) ++
         [(dSet (fillKwargs (dSet (dSet (dSet c6Args.toVariables "prompt" (Value.str q1))
             "output" (Value.typ PyType.str)) "prompt" (Value.str q2)) []) "prompt"
             (Value.str q2), Value.str s2)],
       Option.none⟩ Option.none =
      .ok (Value.str s3,
           ⟨dSet (dSet (dSet (dSet (dSet (dSet c6Args.toVariables "prompt" (Value.str q1))
              "output" (Value.typ PyType.str)) "prompt" (Value.str q2)) "output"
              (Value.typ PyType.str)) "prompt" (Value.str q3)) "output"
              (Value.typ PyType.str),
            (([] ++ [(dSet (fillKwargs (dSet c6Args.toVariables "prompt" (Value.str q1))
                [("output", Value.typ PyType.str)]) "full_prompt"
                (Value.str ("\nQuestion: " ++ q1 ++ "\nAnswer: ")), Value.str s1)]) ++
              [(dSet (fillKwargs (dSet (dSet (dSet c6Args.toVariables "prompt"
                  (Value.str q1)) "output" (Value.typ PyType.str)) "prompt"
                  (Value.str q2)) []) "full_prompt"
                  (Value.str ("Question: " ++ q1 ++ "\nAnswer: " ++ s1 ++ "\nQuestion: " ++
                    q2 ++ "\nAnswer: ")), Value.str s2)]) ++
              [(dSet (fillKwargs (dSet (dSet (dSet (dSet (dSet c6Args.toVariables "prompt"
                  (Value.str q1)) "output" (Value.typ PyType.str)) "prompt" (Value.str q2))
                  "output" (Value.typ PyType.str)) "prompt" (Value.str q3)) [])
                  "full_prompt"
                  (Value.str ("Question: " ++ q1 ++ "\nAnswer: " ++ s1 ++ "\nQuestion: " ++
                    q2 ++ "\nAnswer: " ++ s2 ++ "\nQuestion: " ++ q3 ++ "\nAnswer: ")),
                Value.str s3)],
            (([] ++ [(dSet (fillKwargs (dSet c6Args.toVariables "prompt" (Value.str q1))
                [("output", Value.typ PyType.str)]) "prompt" (Value.str q1), Value.str s1)]) ++
              [(dSet (fillKwargs (dSet (dSet (dSet c6Args.toVariables "prompt"
                  (Value.str q1)) "output" (Value.typ PyType.str)) "prompt"
                  (Value.str q2)) []) "prompt" (Value.str q2), Value.str s2)]) ++
              [(dSet (fillKwargs (dSet (dSet (dSet (dSet (dSet c6Args.toVariables "prompt"
                  (Value.str q1)) "output" (Value.typ PyType.str)) "prompt" (Value.str q2))
                  "output" (Value.typ PyType.str)) "prompt" (Value.str q3)) []) "prompt"
                  (Value.str q3), Value.str s3)],
            Option.none⟩,
           Option.none, 1) := by
  have t3 := result_chat_step oracle
    (dSet (dSet (dSet (dSet (dSet c6Args.toVariables "prompt" (Value.str q1)) "output"
      (Value.typ PyType.str)) "prompt" (Value.str q2)) "output" (Value.typ PyType.str))
      "prompt" (Value.str q3))
    []
    (fillKwargs (dSet (dSet (dSet (dSet (dSet c6Args.toVariables "prompt" (Value.str q1))
      "output" (Value.typ PyType.str)) "prompt" (Value.str q2)) "output"
      (Value.typ PyType.str)) "prompt" (Value.str q3)) [])
    q3 q3 "Question" "Answer"
    (([] ++ [(dSet (fillKwargs (dSet c6Args.toVariables "prompt" (Value.str q1))
        [("output", Value.typ PyType.str)]) "full_prompt"
        (Value.str ("\nQuestion: " ++ q1 ++ "\nAnswer: ")), Value.str s1)]) ++
      [(dSet (fillKwargs (dSet (dSet (dSet c6Args.toVariables "prompt" (Value.str q1))
          "output" (Value.typ PyType.str)) "prompt" (Value.str q2)) []) "full_prompt"
          (Value.str ("Question: " ++ q1 ++ "\nAnswer: " ++ s1 ++ "\nQuestion: " ++
            q2 ++ "\nAnswer: ")), Value.str s2)])
    (([] ++ [(dSet (fillKwargs (dSet c6Args.toVariables "prompt" (Value.str q1))
        [("output", Value.typ PyType.str)]) "prompt" (Value.str q1), Value.str s1)]) ++
      [(dSet (fillKwargs (dSet (dSet (dSet c6Args.toVariables "prompt" (Value.str q1))
          "output" (Value.typ PyType.str)) "prompt" (Value.str q2)) []) "prompt"
          (Value.str q2), Value.str s2)])
    Option.none s3
    (memoHit_none_of_extra_key _ _ _ _ "full_prompt"
      (by intro r h
          rw [List.getLast?_concat] at h
          injection h with h
          rw [← h]
          simp [dMem, dGet_dSet_self])
      (by simp [c6Args, AIArgs.toVariables, dMem]))
    (by simp)
    (Or.inr ⟨by simp [c6Args, AIArgs.toVariables, dGetD], rfl⟩)
    rfl
    (by simp [c6Args, AIArgs.toVariables, fillKwargs, dGetD, decodeOutput])
    (by simp [c6Args, AIArgs.toVariables, fillKwargs, dGetD])
    hq3
    ⟨[], Value.none, by simp [c6Args, AIArgs.toVariables, fillKwargs, dGetD],
      by simp [c6Args, AIArgs.toVariables, fillKwargs, dGetD],
      replacePlaceholders_noPH q3 [] Value.none hf3⟩
    (by simp [c6Args, AIArgs.toVariables, fillKwargs, dGetD])
    (by simp [c6Args, AIArgs.toVariables, fillKwargs, dGetD])
    (by simp [c6Args, AIArgs.toVariables, fillKwargs, dMem])
    (by simp [c6Args, AIArgs.toVariables, fillKwargs, dGetD, pyTruthy])
    (by rw [c6_fp3 q1 q2 q3 s1 s2 hs2]; exact ho3)
  rw [c6_fp3 q1 q2 q3 s1 s2 hs2] at t3
  exact t3

/-- The substitution loop succeeds when every scanned name has a string
value in the mapping or the default is a string. -/
theorem applySubs_all_ok (repl : List (String × Value)) (d : Value) :
    ∀ ns : List String, ∀ t : String,
    (∀ n ∈ ns, (∃ v, dGet repl n = some (Value.str v)) ∨
       (dGet repl n = Option.none ∧ ∃ dv, d = Value.str dv)) →
    ∃ out, applySubs repl d ns t = .ok out := by
  intro ns
  induction ns with
  | nil => intro t _; exact ⟨t, rfl⟩
  | cons n rest ih =>
      intro t hall
      have hrest : ∀ m ∈ rest, (∃ v, dGet repl m = some (Value.str v)) ∨
          (dGet repl m = Option.none ∧ ∃ dv, d = Value.str dv) :=
        fun m hm => hall m (by simp [hm])
      rcases hall n (by simp) with ⟨v, hv⟩ | ⟨hnone, dv, hd⟩
      · simp only [applySubs, substOne, hv, ebind_ok]
        exact ih _ hrest
      · subst hd
        simp only [applySubs, substOne, hnone, ebind_ok]
        exact ih _ hrest

/-- The substitution loop raises `KeyError` naming the *first* scanned
name that is absent from the mapping when no default was supplied. -/
theorem applySubs_first_missing (repl : List (String × Value)) :
    ∀ ns1 : List String, ∀ t : String, ∀ n : String, ∀ ns2 : List String,
    (∀ m ∈ ns1, ∃ v, dGet repl m = some (Value.str v)) →
    dGet repl n = Option.none →
    applySubs repl Value.none (ns1 ++ n :: ns2) t =
      .error (.keyError ("Placeholder " ++ n ++ " was not found in replacements dictionary.")) := by
  intro ns1
  induction ns1 with
  | nil =>
      intro t n ns2 _ hn
      simp [applySubs, substOne, hn]
  | cons m ms ih =>
      intro t n ns2 hall hn
      obtain ⟨v, hv⟩ := hall m (by simp)
      simp only [List.cons_append, applySubs, substOne, hv, ebind_ok]
      exact ih _ n ns2 (fun x hx => hall x (by simp [hx])) hn

/-! ## Structured templates (the totality half of C9) -/

/-- No brace characters. -/
def braceFree (l : List Char) : Bool := l.all fun c => c ≠ '{' && c ≠ '}'

/-- No newline (the lazy group of the scan cannot cross one). -/
def nlFree (l : List Char) : Bool := l.all fun c => c ≠ '\n'

/-- A structured template: literal segments and placeholders. -/
inductive TItem where
  | seg : List Char → TItem
  | ph : String → TItem

/-- The flat text of a structured template. -/
def renderT : List TItem → List Char
  | [] => []
  | .seg s :: rest => s ++ renderT rest
  | .ph n :: rest => '{' :: n.data ++ '}' :: renderT rest

/-- The placeholder names of a structured template, in order. -/
def phNames : List TItem → List String
  | [] => []
  | .seg _ :: rest => phNames rest
  | .ph n :: rest => n :: phNames rest

/-- Well-formed: every segment is brace-free and every placeholder name is
brace-free and newline-free. -/
def wfT : List TItem → Bool
  | [] => true
  | .seg s :: rest => braceFree s && wfT rest
  | .ph n :: rest => braceFree n.data && nlFree n.data && wfT rest

/-- Substituting one placeholder name by a literal segment. -/
def substT (n : String) (v : List Char) : List TItem → List TItem
  | [] => []
  | .seg s :: rest => .seg s :: substT n v rest
  | .ph m :: rest => (if m = n then .seg v else .ph m) :: substT n v rest

theorem braceFree_mem {l : List Char} {c : Char} (h : braceFree l = true) (hc : c ∈ l) :
    ¬ c = '{' ∧ ¬ c = '}' := by
  have := List.all_eq_true.mp h c hc
  simpa using this

theorem nlFree_mem {l : List Char} {c : Char} (h : nlFree l = true) (hc : c ∈ l) :
    ¬ c = '\n' := by
  have := List.all_eq_true.mp h c hc
  simpa using this

theorem strData_inj {n m : String} (h : n.data = m.data) : n = m :=
  congrArg String.mk h

/-- The lazy group consumes exactly a brace-free, newline-free name. -/
theorem scanName_name : ∀ nd : List Char, ∀ r : List Char,
    (∀ c ∈ nd, ¬ c = '}') → (∀ c ∈ nd, ¬ c = '\n') →
    scanName (nd ++ '}' :: r) = some (nd, r) := by
  intro nd
  induction nd with
  | nil => intro r _ _; simp [scanName]
  | cons c t ih =>
      intro r hb hn
      have hc1 : ¬ c = '}' := hb c (by simp)
      have hc2 : ¬ c = '\n' := hn c (by simp)
      have hih := ih r (fun x hx => hb x (by simp [hx])) (fun x hx => hn x (by simp [hx]))
      simp [scanName, hc1, hc2, hih]

/-- The placeholder scan skips brace-free literal text. -/
theorem findPH_append_seg : ∀ s r : List Char, (∀ c ∈ s, ¬ c = '{') →
    findPH (s ++ r) = findPH r := by
  intro s
  induction s with
  | nil => intro r _; rfl
  | cons c t ih =>
      intro r h
      rw [List.cons_append, findPH_cons, if_neg (h c (by simp))]
      exact ih r fun x hx => h x (by simp [hx])

/-- The scan of a well-formed structured template returns exactly its
placeholder names, in order. -/
theorem findPH_render : ∀ items : List TItem, wfT items = true →
    findPH (renderT items) = phNames items := by
  intro items
  induction items with
  | nil => intro _; rfl
  | cons it rest ih =>
      intro hwf
      cases it with
      | seg s =>
          simp only [wfT, Bool.and_eq_true] at hwf
          rw [renderT, findPH_append_seg s _ (fun c hc => (braceFree_mem hwf.1 hc).1)]
          exact ih hwf.2
      | ph n =>
          simp only [wfT, Bool.and_eq_true] at hwf
          obtain ⟨⟨hb, hnl⟩, hrest⟩ := hwf
          rw [renderT, List.cons_append, findPH_cons, if_pos rfl,
              scanName_name n.data (renderT rest)
                (fun c hc => (braceFree_mem hb hc).2) (fun c hc => nlFree_mem hnl hc)]
          simp only [phNames, ih hrest]

theorem isPrefixOf_cons_neq {a b : Char} (h : ¬ a = b) (l1 l2 : List Char) :
    (a :: l1).isPrefixOf (b :: l2) = false := by
  simp [List.isPrefixOf, h]

theorem isPrefixOf_self_append : ∀ l r : List Char, l.isPrefixOf (l ++ r) = true := by
  intro l
  induction l with
  | nil => intro r; simp [List.isPrefixOf]
  | cons a as ih => intro r; simp [List.isPrefixOf, ih r]

/-- If one '}'-free name (with its closing brace) is a prefix of another's
rendering, the names are equal. -/
theorem namePrefix_imp_eq : ∀ nd md r : List Char,
    (∀ c ∈ nd, ¬ c = '}') → (∀ c ∈ md, ¬ c = '}') →
    (nd ++ ['}']).isPrefixOf (md ++ '}' :: r) = true → nd = md := by
  intro nd
  induction nd with
  | nil =>
      intro md r _ hm h
      cases md with
      | nil => rfl
      | cons b bs =>
          simp [List.isPrefixOf] at h
          exact absurd h.symm (hm b (by simp))
  | cons a as ih =>
      intro md r hn hm h
      cases md with
      | nil =>
          simp [List.isPrefixOf] at h
          exact absurd h.1 (hn a (by simp))
      | cons b bs =>
          simp only [List.cons_append, List.isPrefixOf, Bool.and_eq_true, beq_iff_eq] at h
          obtain ⟨hab, hrest⟩ := h
          subst hab
          rw [ih bs r (fun c hc => hn c (by simp [hc])) (fun c hc => hm c (by simp [hc]))
              hrest]

/-- `str.replace` passes over brace-free literal text when the pattern
starts with a brace. -/
theorem replaceAll_seg : ∀ s t p2 v : List Char, (∀ c ∈ s, ¬ c = '{') →
    replaceAll (s ++ t) ('{' :: p2) v = s ++ replaceAll t ('{' :: p2) v := by
  intro s
  induction s with
  | nil => intro t p2 v _; rfl
  | cons c cs ih =>
      intro t p2 v h
      rw [List.cons_append, replaceAll_cons,
          if_neg (by
            rintro ⟨-, hpre⟩
            rw [isPrefixOf_cons_neq (fun he => h c (by simp) he.symm) p2 (cs ++ t)] at hpre
            exact absurd hpre (by simp)),
          ih t p2 v fun x hx => h x (by simp [hx])]
      rfl

/-- `str.replace` of a placeholder's brace text on a well-formed template
replaces exactly the placeholders of that name (values are spliced in,
never rescanned). -/
theorem replaceAll_render : ∀ items : List TItem, ∀ n : String, ∀ v : List Char,
    wfT items = true → braceFree n.data = true →
    replaceAll (renderT items) (phText n) v = renderT (substT n v items) := by
  intro items
  induction items with
  | nil => intro n v _ _; rfl
  | cons it rest ih =>
      intro n v hwf hn
      cases it with
      | seg s =>
          simp only [wfT, Bool.and_eq_true] at hwf
          rw [renderT, show phText n = '{' :: (n.data ++ ['}']) from rfl,
              replaceAll_seg s _ _ v (fun c hc => (braceFree_mem hwf.1 hc).1),
              ← show phText n = '{' :: (n.data ++ ['}']) from rfl, ih n v hwf.2 hn]
          rfl
      | ph m =>
          simp only [wfT, Bool.and_eq_true] at hwf
          obtain ⟨⟨hbm, -⟩, hrest⟩ := hwf
          by_cases hmn : m = n
          · subst hmn
            rw [renderT, show ('{' :: m.data ++ '}' :: renderT rest : List Char) =
                  '{' :: (m.data ++ '}' :: renderT rest) from rfl,
                replaceAll_cons, if_pos ?hcond]
            case hcond =>
              constructor
              · simp [phText]
              · show (phText m).isPrefixOf ('{' :: (m.data ++ '}' :: renderT rest)) = true
                rw [show phText m = '{' :: (m.data ++ ['}']) from rfl,
                    show (m.data ++ '}' :: renderT rest : List Char) =
                      (m.data ++ ['}']) ++ renderT rest by simp]
                simp [List.isPrefixOf, isPrefixOf_self_append]
            rw [show ('{' :: (m.data ++ '}' :: renderT rest) : List Char) =
                  phText m ++ renderT rest by simp [phText],
                List.drop_left, ih m v hrest hn]
            simp [substT, renderT]
          · rw [renderT, show ('{' :: m.data ++ '}' :: renderT rest : List Char) =
                  '{' :: (m.data ++ '}' :: renderT rest) from rfl,
                replaceAll_cons,
                if_neg (by
                  rintro ⟨-, hpre⟩
                  rw [show phText n = '{' :: (n.data ++ ['}']) from rfl] at hpre
                  simp only [List.isPrefixOf, Bool.and_eq_true, beq_self_eq_true,
                             true_and] at hpre
                  have := namePrefix_imp_eq n.data m.data (renderT rest)
                    (fun c hc => (braceFree_mem hn hc).2)
                    (fun c hc => (braceFree_mem hbm hc).2) hpre
                  exact hmn (strData_inj this).symm),
                show phText n = '{' :: (n.data ++ ['}']) from rfl,
                replaceAll_seg m.data _ _ v (fun c hc => (braceFree_mem hbm hc).1),
                replaceAll_cons,
                if_neg (by rintro ⟨-, hpre⟩
                           rw [isPrefixOf_cons_neq (by decide) _ _] at hpre
                           exact absurd hpre (by simp))]
            rw [← show phText n = '{' :: (n.data ++ ['}']) from rfl, ih n v hrest hn]
            simp [substT, renderT, hmn]

theorem wfT_substT : ∀ items : List TItem, ∀ n : String, ∀ v : List Char,
    wfT items = true → braceFree v = true → wfT (substT n v items) = true := by
  intro items
  induction items with
  | nil => intro n v _ _; rfl
  | cons it rest ih =>
      intro n v hwf hv
      cases it with
      | seg s =>
          simp only [wfT, Bool.and_eq_true] at hwf ⊢
          exact ⟨hwf.1, ih n v hwf.2 hv⟩
      | ph m =>
          simp only [wfT, Bool.and_eq_true] at hwf
          by_cases hmn : m = n
          · simp only [substT, hmn, ite_true, if_true, wfT, Bool.and_eq_true]
            exact ⟨hv, ih n v hwf.2 hv⟩
          · simp only [substT, hmn, ite_false, if_false, wfT, Bool.and_eq_true]
            exact ⟨hwf.1, ih n v hwf.2 hv⟩

theorem phNames_substT_mem : ∀ items : List TItem, ∀ n : String, ∀ v : List Char,
    ∀ m : String, m ∈ phNames (substT n v items) → m ∈ phNames items ∧ ¬ m = n := by
  intro items
  induction items with
  | nil => intro n v m hm; simp [substT, phNames] at hm
  | cons it rest ih =>
      intro n v m hm
      cases it with
      | seg s =>
          simp only [substT, phNames] at hm ⊢
          exact ih n v m hm
      | ph k =>
          by_cases hkn : k = n
          · simp only [substT, hkn, ite_true, if_true, phNames] at hm
            have := ih n v m hm
            simp only [phNames]
            exact ⟨by simp [this.1], this.2⟩
          · simp only [substT, hkn, ite_false, if_false, phNames, List.mem_cons] at hm
            rcases hm with hm | hm
            · subst hm
              simp only [phNames]
              exact ⟨by simp, hkn⟩
            · have := ih n v m hm
              simp only [phNames]
              exact ⟨by simp [this.1], this.2⟩

theorem wfT_names : ∀ items : List TItem, ∀ n : String, wfT items = true →
    n ∈ phNames items → braceFree n.data = true ∧ nlFree n.data = true := by
  intro items
  induction items with
  | nil => intro n _ hn; simp [phNames] at hn
  | cons it rest ih =>
      intro n hwf hn
      cases it with
      | seg s =>
          simp only [wfT, Bool.and_eq_true] at hwf
          exact ih n hwf.2 hn
      | ph m =>
          simp only [wfT, Bool.and_eq_true] at hwf
          simp only [phNames, List.mem_cons] at hn
          rcases hn with hn | hn
          · subst hn; exact hwf.1
          · exact ih n hwf.2 hn

/-- The substitution loop on a well-formed template: when every processed
name has a brace-free string value (or the default is a brace-free
string), the loop succeeds and the final text is a template with no
placeholders left. -/
theorem applySubs_render (repl : List (String × Value)) (d : Value) :
    ∀ ns : List String, ∀ items : List TItem,
    wfT items = true →
    (∀ n ∈ phNames items, n ∈ ns) →
    (∀ n ∈ ns, braceFree n.data = true ∧
      ((∃ v, dGet repl n = some (Value.str v) ∧ braceFree v.data = true) ∨
       (dGet repl n = Option.none ∧ ∃ dv, d = Value.str dv ∧ braceFree dv.data = true))) →
    ∃ items2 : List TItem, wfT items2 = true ∧ phNames items2 = [] ∧
      applySubs repl d ns (String.mk (renderT items)) =
        .ok (String.mk (renderT items2)) := by
  intro ns
  induction ns with
  | nil =>
      intro items hwf hsub _
      refine ⟨items, hwf, ?_, rfl⟩
      cases hne : phNames items with
      | nil => rfl
      | cons a l => exact absurd (hsub a (by rw [hne]; simp)) (by simp)
  | cons n rest ih =>
      intro items hwf hsub hns
      obtain ⟨hbn, hcase⟩ := hns n (by simp)
      have hnext : ∀ v : List Char, braceFree v = true →
          ∃ items2, wfT items2 = true ∧ phNames items2 = [] ∧
            applySubs repl d rest (String.mk (renderT (substT n v items))) =
              .ok (String.mk (renderT items2)) := by
        intro v hv
        refine ih (substT n v items) (wfT_substT items n v hwf hv) ?_
          (fun m hm => hns m (by simp [hm]))
        intro m hm
        obtain ⟨h1, h2⟩ := phNames_substT_mem items n v m hm
        have := hsub m h1
        simp only [List.mem_cons] at this
        exact this.resolve_left h2
      rcases hcase with ⟨v, hv, hbv⟩ | ⟨hnone, dv, hd, hbdv⟩
      · obtain ⟨items2, hw2, hn2, happ⟩ := hnext v.data hbv
        refine ⟨items2, hw2, hn2, ?_⟩
        simp only [applySubs, substOne, hv, ebind_ok]
        rw [replaceAll_render items n v.data hwf hbn]
        exact happ
      · subst hd
        obtain ⟨items2, hw2, hn2, happ⟩ := hnext dv.data hbdv
        refine ⟨items2, hw2, hn2, ?_⟩
        simp only [applySubs, substOne, hnone, ebind_ok]
        rw [replaceAll_render items n dv.data hwf hbn]
        exact happ

/-! ## Injectivity of `repr` (cache-key analysis for C3) -/

/-- Decimal digit character test. -/
def isDig (c : Char) : Bool := '0' ≤ c && c ≤ '9'

/-- Whether a character stream starts with a digit. -/
def startsDig : List Char → Bool
  | [] => false
  | c :: _ => isDig c

theorem digitChar10_isDig {d : Nat} (h : d < 10) : isDig (digitChar10 d) = true := by
  interval_cases d <;> decide

theorem digitChar10_val {d : Nat} (h : d < 10) : (digitChar10 d).toNat - 48 = d := by
  interval_cases d <;> decide

theorem digitsVal_single {c : Char} (h : isDig c = true) :
    digitsVal [c] = some (c.toNat - 48) := by
  have h' : '0' ≤ c ∧ c ≤ '9' := by simpa [isDig] using h
  simp [digitsVal, h']

theorem digitsVal_append : ∀ l1 l2 : List Char,
    digitsVal (l1 ++ l2) =
      (digitsVal l1).bind fun v1 => (digitsVal l2).map fun v2 => v1 * 10 ^ l2.length + v2 := by
  intro l1
  induction l1 with
  | nil =>
      intro l2
      simp only [List.nil_append, digitsVal]
      cases digitsVal l2 <;> simp
  | cons c t ih =>
      intro l2
      by_cases hc : '0' ≤ c ∧ c ≤ '9'
      · rw [List.cons_append,
            show digitsVal (c :: (t ++ l2)) = (digitsVal (t ++ l2)).map
              (fun v => (c.toNat - 48) * 10 ^ (t ++ l2).length + v) from by
                simp [digitsVal, hc],
            show digitsVal (c :: t) = (digitsVal t).map
              (fun v => (c.toNat - 48) * 10 ^ t.length + v) from by simp [digitsVal, hc],
            ih l2]
        cases ht : digitsVal t <;> cases h2 : digitsVal l2 <;>
          simp [List.length_append]
        ring
      · simp [digitsVal, hc]

theorem natCharsF_irrel : ∀ f1 : Nat, ∀ n : Nat, ∀ f2 : Nat, n ≤ f1 → n ≤ f2 →
    natCharsF f1 n = natCharsF f2 n := by
  intro f1
  induction f1 with
  | zero =>
      intro n f2 h1 _
      have hn : n = 0 := Nat.le_zero.mp h1
      subst hn
      cases f2 <;> simp [natCharsF]
  | succ f ih =>
      intro n f2 h1 h2
      cases f2 with
      | zero =>
          have hn : n = 0 := Nat.le_zero.mp h2
          subst hn
          simp [natCharsF]
      | succ f2' =>
          simp only [natCharsF]
          by_cases hn : n < 10
          · simp [hn]
          · simp only [hn, ite_false, if_false]
            have hd : n / 10 < n := Nat.div_lt_self (by omega) (by omega)
            rw [ih (n / 10) f2' (by omega) (by omega)]

theorem natChars_lt10 {n : Nat} (h : n < 10) : natChars n = [digitChar10 n] := by
  unfold natChars
  cases hn : n with
  | zero => rfl
  | succ m => rw [← hn]; rw [hn, natCharsF, if_pos (by omega)]

theorem natChars_ge10 {n : Nat} (h : 10 ≤ n) :
    natChars n = natChars (n / 10) ++ [digitChar10 (n % 10)] := by
  obtain ⟨f, hf⟩ : ∃ f, n = f + 1 := ⟨n - 1, by omega⟩
  have hd : n / 10 < n := Nat.div_lt_self (by omega) (by omega)
  show natCharsF n n = _
  rw [hf, natCharsF, if_neg (by omega), ← hf,
      natCharsF_irrel f (n / 10) (n / 10) (by omega) le_rfl]
  rfl

theorem natChars_spec : ∀ n : Nat, natChars n ≠ [] ∧
    (∀ c ∈ natChars n, isDig c = true) ∧ digitsVal (natChars n) = some n := by
  intro n
  induction n using Nat.strong_induction_on with
  | _ n ih =>
      by_cases h : n < 10
      · rw [natChars_lt10 h]
        refine ⟨by simp, ?_, ?_⟩
        · intro c hc
          simp at hc
          subst hc
          exact digitChar10_isDig h
        · rw [digitsVal_single (digitChar10_isDig h), digitChar10_val h]
      · have hd : n / 10 < n := Nat.div_lt_self (by omega) (by omega)
        obtain ⟨hne, hdig, hval⟩ := ih (n / 10) hd
        rw [natChars_ge10 (by omega)]
        have hm : n % 10 < 10 := Nat.mod_lt _ (by omega)
        refine ⟨by simp, ?_, ?_⟩
        · intro c hc
          rcases List.mem_append.mp hc with hc | hc
          · exact hdig c hc
          · simp at hc
            subst hc
            exact digitChar10_isDig hm
        · rw [digitsVal_append, hval, digitsVal_single (digitChar10_isDig hm),
              digitChar10_val hm]
          simp
          omega

theorem natChars_inj {m n : Nat} (h : natChars m = natChars n) : m = n := by
  have hm := (natChars_spec m).2.2
  have hn := (natChars_spec n).2.2
  rw [h, hn] at hm
  have h2 : n = m := by simpa using hm
  omega

theorem natChars_head : ∀ n : Nat, ∃ c t, natChars n = c :: t ∧ isDig c = true := by
  intro n
  obtain ⟨hne, hdig, -⟩ := natChars_spec n
  cases h : natChars n with
  | nil => exact absurd h hne
  | cons c t => exact ⟨c, t, rfl, hdig c (by rw [h]; simp)⟩

theorem digit_munch : ∀ d1 d2 r1 r2 : List Char,
    (∀ c ∈ d1, isDig c = true) → (∀ c ∈ d2, isDig c = true) →
    startsDig r1 = false → startsDig r2 = false →
    d1 ++ r1 = d2 ++ r2 → d1 = d2 ∧ r1 = r2 := by
  intro d1
  induction d1 with
  | nil =>
      intro d2 r1 r2 _ hd2 hr1 _ h
      cases d2 with
      | nil => exact ⟨rfl, h⟩
      | cons b bs =>
          rw [List.nil_append] at h
          rw [h, List.cons_append] at hr1
          have hb : isDig b = false := hr1
          rw [hd2 b (by simp)] at hb
          cases hb
  | cons a as ih =>
      intro d2 r1 r2 hd1 hd2 hr1 hr2 h
      cases d2 with
      | nil =>
          rw [List.nil_append] at h
          rw [← h, List.cons_append] at hr2
          have ha : isDig a = false := hr2
          rw [hd1 a (by simp)] at ha
          cases ha
      | cons b bs =>
          rw [List.cons_append, List.cons_append] at h
          injection h with h1 h2
          subst h1
          obtain ⟨he, hr⟩ := ih bs r1 r2 (fun c hc => hd1 c (by simp [hc]))
            (fun c hc => hd2 c (by simp [hc])) hr1 hr2 h2
          exact ⟨by rw [he], hr⟩

theorem natChars_munch {m n : Nat} {r1 r2 : List Char}
    (hr1 : startsDig r1 = false) (hr2 : startsDig r2 = false)
    (h : natChars m ++ r1 = natChars n ++ r2) : m = n ∧ r1 = r2 := by
  obtain ⟨he, hr⟩ := digit_munch (natChars m) (natChars n) r1 r2
    (natChars_spec m).2.1 (natChars_spec n).2.1 hr1 hr2 h
  exact ⟨natChars_inj he, hr⟩

theorem isDig_dash : isDig '-' = false := by decide

theorem intChars_munch : ∀ (a b : Int) (r1 r2 : List Char),
    startsDig r1 = false → startsDig r2 = false →
    intChars a ++ r1 = intChars b ++ r2 → a = b ∧ r1 = r2 := by
  intro a b r1 r2 h1 h2 h
  unfold intChars at h
  by_cases ha : a < 0 <;> by_cases hb : b < 0 <;>
    simp only [ha, hb, ite_true, ite_false, if_true, if_false] at h
  · rw [List.cons_append, List.cons_append] at h
    injection h with _ h
    obtain ⟨he, hr⟩ := natChars_munch h1 h2 h
    exact ⟨by omega, hr⟩
  · obtain ⟨c, t, hct, hdig⟩ := natChars_head b.natAbs
    rw [hct, List.cons_append, List.cons_append] at h
    injection h with h1' _
    rw [← h1'] at hdig
    rw [isDig_dash] at hdig
    cases hdig
  · obtain ⟨c, t, hct, hdig⟩ := natChars_head a.natAbs
    rw [hct, List.cons_append, List.cons_append] at h
    injection h with h1' _
    rw [h1'] at hdig
    rw [isDig_dash] at hdig
    cases hdig
  · obtain ⟨he, hr⟩ := natChars_munch h1 h2 h
    exact ⟨by omega, hr⟩

/-- The rendered integer part, fraction digits and sign of a float. -/
theorem floatChars_shape (f : PyFloat) :
    ∃ frac : List Char,
      floatChars f = (if f.mant < 0 then ['-'] else []) ++
        natChars (f.mant.natAbs / 10 ^ f.frexp) ++ '.' :: frac ∧
      (∀ c ∈ frac, isDig c = true) ∧
      frac.length = max f.frexp 1 ∧
      digitsVal frac = some (f.mant.natAbs % 10 ^ f.frexp) := by
  by_cases he : f.frexp = 0
  · refine ⟨['0'], ?_, ?_, ?_, ?_⟩
    · rw [floatChars, if_pos he, he]
      simp [List.append_assoc]
    · intro c hc; simp at hc; subst hc; decide
    · rw [he]; rfl
    · rw [he]
      simp [digitsVal]
      omega
  · have hlt : f.mant.natAbs % 10 ^ f.frexp < 10 ^ f.frexp :=
      Nat.mod_lt _ (Nat.pos_pow_of_pos _ (by omega))
    have hlen : (natChars (f.mant.natAbs % 10 ^ f.frexp)).length ≤ f.frexp := by
      clear hlt
      generalize hm : f.mant.natAbs % 10 ^ f.frexp = m
      have hm' : m < 10 ^ f.frexp := by
        rw [← hm]; exact Nat.mod_lt _ (Nat.pos_pow_of_pos _ (by omega))
      clear hm
      obtain ⟨e, he'⟩ : ∃ e, f.frexp = e + 1 := ⟨f.frexp - 1, by omega⟩
      rw [he'] at hm' ⊢
      clear he'
      induction m using Nat.strong_induction_on generalizing e with
      | _ m ih =>
          by_cases h10 : m < 10
          · rw [natChars_lt10 h10]; simp
          · rw [natChars_ge10 (by omega)]
            have hd : m / 10 < m := Nat.div_lt_self (by omega) (by omega)
            have he2 : 1 ≤ e := by
              by_contra hc
              have he0 : e = 0 := by omega
              rw [he0] at hm'
              norm_num at hm'
              omega
            obtain ⟨e', he3⟩ : ∃ e', e = e' + 1 := ⟨e - 1, by omega⟩
            subst he3
            have hm2 : m / 10 < 10 ^ (e' + 1) := by
              rw [Nat.div_lt_iff_lt_mul (by omega)]
              calc m < 10 ^ (e' + 1 + 1) := hm'
              _ = 10 ^ (e' + 1) * 10 := by ring
            have hlen2 := ih (m / 10) hd e' hm2
            simp only [List.length_append, List.length_cons, List.length_nil]
            omega
    refine ⟨padZeros f.frexp (f.mant.natAbs % 10 ^ f.frexp), ?_, ?_, ?_, ?_⟩
    · rw [floatChars, if_neg he]
    · intro c hc
      rcases List.mem_append.mp hc with hc | hc
      · have := List.eq_of_mem_replicate hc
        subst this; decide
      · exact (natChars_spec _).2.1 c hc
    · rw [show padZeros f.frexp (f.mant.natAbs % 10 ^ f.frexp) =
            List.replicate (f.frexp - (natChars (f.mant.natAbs % 10 ^ f.frexp)).length) '0' ++
              natChars (f.mant.natAbs % 10 ^ f.frexp) from rfl]
      simp [List.length_replicate]
      omega
    · rw [show padZeros f.frexp (f.mant.natAbs % 10 ^ f.frexp) =
            List.replicate (f.frexp - (natChars (f.mant.natAbs % 10 ^ f.frexp)).length) '0' ++
              natChars (f.mant.natAbs % 10 ^ f.frexp) from rfl]
      generalize (f.frexp - (natChars (f.mant.natAbs % 10 ^ f.frexp)).length) = k
      induction k with
      | zero => simpa using (natChars_spec _).2.2
      | succ k' ihk =>
          rw [List.replicate_succ, List.cons_append,
              show digitsVal ('0' :: (List.replicate k' '0' ++
                natChars (f.mant.natAbs % 10 ^ f.frexp))) =
                (digitsVal (List.replicate k' '0' ++
                  natChars (f.mant.natAbs % 10 ^ f.frexp))).map
                  (fun v => ('0'.toNat - 48) * 10 ^ (List.replicate k' '0' ++
                    natChars (f.mant.natAbs % 10 ^ f.frexp)).length + v) from by
                      simp [digitsVal]]
          rw [ihk]
          simp

theorem isDig_dot : isDig '.' = false := by decide

theorem floatChars_munch : ∀ (f g : PyFloat), f.WF → g.WF →
    ∀ r1 r2 : List Char, startsDig r1 = false → startsDig r2 = false →
    floatChars f ++ r1 = floatChars g ++ r2 → f = g ∧ r1 = r2 := by
  intro f g hwf hwg r1 r2 hr1 hr2 h
  obtain ⟨cf, hfe, hfdig, hflen, hfval⟩ := floatChars_shape f
  obtain ⟨cg, hge, hgdig, hglen, hgval⟩ := floatChars_shape g
  rw [hfe, hge] at h
  have core : natChars (f.mant.natAbs / 10 ^ f.frexp) ++ ('.' :: (cf ++ r1)) =
      natChars (g.mant.natAbs / 10 ^ g.frexp) ++ ('.' :: (cg ++ r2)) →
      f.mant.natAbs = g.mant.natAbs ∧ f.frexp = g.frexp ∧ r1 = r2 := by
    intro hc
    obtain ⟨hip, htl⟩ := digit_munch _ _ _ _ (natChars_spec _).2.1 (natChars_spec _).2.1
      (by rw [show startsDig ('.' :: (cf ++ r1)) = isDig '.' from rfl]; decide)
      (by rw [show startsDig ('.' :: (cg ++ r2)) = isDig '.' from rfl]; decide) hc
    injection htl with _ htl
    obtain ⟨hcc, hrr⟩ := digit_munch _ _ _ _ hfdig hgdig hr1 hr2 htl
    have hipv := natChars_inj hip
    have hlen : max f.frexp 1 = max g.frexp 1 := by rw [← hflen, ← hglen, hcc]
    have hvv : f.mant.natAbs % 10 ^ f.frexp = g.mant.natAbs % 10 ^ g.frexp := by
      have := hfval
      rw [hcc, hgval] at this
      simpa using this.symm
    by_cases hef : f.frexp = 0 <;> by_cases heg : g.frexp = 0
    · rw [hef, heg] at hipv
      simp at hipv
      exact ⟨hipv, by omega, hrr⟩
    · exfalso
      have h1 : max g.frexp 1 = 1 := by omega
      have heg1 : g.frexp = 1 := by omega
      rw [hef] at hvv
      simp at hvv
      rw [heg1] at hvv
      have := hwg (by omega)
      omega
    · exfalso
      have hef1 : f.frexp = 1 := by omega
      rw [heg] at hvv
      simp at hvv
      rw [hef1] at hvv
      have := hwf (by omega)
      omega
    · have hee : f.frexp = g.frexp := by omega
      rw [hee] at hipv hvv
      have : f.mant.natAbs = g.mant.natAbs := by
        calc f.mant.natAbs
            = 10 ^ g.frexp * (f.mant.natAbs / 10 ^ g.frexp) +
              f.mant.natAbs % 10 ^ g.frexp := (Nat.div_add_mod _ _).symm
          _ = 10 ^ g.frexp * (g.mant.natAbs / 10 ^ g.frexp) +
              g.mant.natAbs % 10 ^ g.frexp := by rw [hipv, hvv]
          _ = g.mant.natAbs := Nat.div_add_mod _ _
      exact ⟨this, hee, hrr⟩
  by_cases hsf : f.mant < 0 <;> by_cases hsg : g.mant < 0 <;>
    simp only [hsf, hsg, ite_true, ite_false, if_true, if_false] at h
  · simp only [List.cons_append, List.nil_append, List.append_assoc] at h
    injection h with _ h
    obtain ⟨hna, hfr, hrr⟩ := core h
    refine ⟨?_, hrr⟩
    cases f; cases g
    simp only [PyFloat.mk.injEq]
    simp only at hna hfr hsf hsg
    exact ⟨by omega, hfr⟩
  · exfalso
    obtain ⟨c, t, hct, hdig⟩ := natChars_head (g.mant.natAbs / 10 ^ g.frexp)
    simp only [List.cons_append, List.nil_append, List.append_assoc, hct] at h
    injection h with h1 _
    rw [← h1, isDig_dash] at hdig
    cases hdig
  · exfalso
    obtain ⟨c, t, hct, hdig⟩ := natChars_head (f.mant.natAbs / 10 ^ f.frexp)
    simp only [List.cons_append, List.nil_append, List.append_assoc, hct] at h
    injection h with h1 _
    rw [h1, isDig_dash] at hdig
    cases hdig
  · simp only [List.nil_append, List.append_assoc] at h
    obtain ⟨hna, hfr, hrr⟩ := core h
    refine ⟨?_, hrr⟩
    cases f; cases g
    simp only [PyFloat.mk.injEq]
    simp only at hna hfr hsf hsg
    exact ⟨by omega, hfr⟩

theorem int_float_clash : ∀ (a : Int) (g : PyFloat) (r1 r2 : List Char),
    startsDig r1 = false → (∀ c t, r1 = c :: t → ¬ c = '.') →
    intChars a ++ r1 = floatChars g ++ r2 → False := by
  intro a g r1 r2 hr1 hdot h
  obtain ⟨cg, hge, hgdig, hglen, hgval⟩ := floatChars_shape g
  rw [hge] at h
  unfold intChars at h
  have core : natChars a.natAbs ++ r1 =
      natChars (g.mant.natAbs / 10 ^ g.frexp) ++ ('.' :: (cg ++ r2)) → False := by
    intro hc
    obtain ⟨-, htl⟩ := digit_munch _ _ _ _ (natChars_spec _).2.1 (natChars_spec _).2.1
      hr1 (by rw [show startsDig ('.' :: (cg ++ r2)) = isDig '.' from rfl]; decide) hc
    exact hdot '.' (cg ++ r2) htl rfl
  by_cases hsa : a < 0 <;> by_cases hsg : g.mant < 0 <;>
    simp only [hsa, hsg, ite_true, ite_false, if_true, if_false] at h
  · simp only [List.cons_append, List.nil_append, List.append_assoc] at h
    injection h with _ h
    exact core h
  · exfalso
    obtain ⟨c, t, hct, hdig⟩ := natChars_head (g.mant.natAbs / 10 ^ g.frexp)
    simp only [List.cons_append, List.nil_append, List.append_assoc, hct] at h
    injection h with h1 _
    rw [← h1, isDig_dash] at hdig
    cases hdig
  · exfalso
    obtain ⟨c, t, hct, hdig⟩ := natChars_head a.natAbs
    simp only [List.cons_append, List.nil_append, List.append_assoc, hct] at h
    injection h with h1 _
    rw [h1, isDig_dash] at hdig
    cases hdig
  · simp only [List.nil_append, List.append_assoc] at h
    exact core h

/-- Characters that `repr` escapes inside a string literal. -/
def isSpec (c : Char) : Bool :=
  c = '\\' || c = '\'' || c = '\n' || c = '\r' || c = '\t'

/-- Second character of the two-character escape of a special character. -/
def escSnd (c : Char) : Char :=
  if c = '\\' then '\\'
  else if c = '\'' then '\''
  else if c = '\n' then 'n'
  else if c = '\r' then 'r'
  else 't'

theorem escChar_cases (c : Char) :
    (isSpec c = true ∧ escChar c = ['\\', escSnd c]) ∨
    (isSpec c = false ∧ escChar c = [c]) := by
  by_cases h1 : c = '\\'
  · subst h1; left; exact ⟨by decide, by decide⟩
  by_cases h2 : c = '\''
  · subst h2; left; exact ⟨by decide, by decide⟩
  by_cases h3 : c = '\n'
  · subst h3; left; exact ⟨by decide, by decide⟩
  by_cases h4 : c = '\r'
  · subst h4; left; exact ⟨by decide, by decide⟩
  by_cases h5 : c = '\t'
  · subst h5; left; exact ⟨by decide, by decide⟩
  · right
    refine ⟨by simp [isSpec, h1, h2, h3, h4, h5], ?_⟩
    simp [escChar, h1, h2, h3, h4, h5]

theorem escSnd_inj {c d : Char} (hc : isSpec c = true) (hd : isSpec d = true)
    (h : escSnd c = escSnd d) : c = d := by
  have hc' : c = '\\' ∨ c = '\'' ∨ c = '\n' ∨ c = '\r' ∨ c = '\t' := by
    simpa [isSpec, or_assoc] using hc
  have hd' : d = '\\' ∨ d = '\'' ∨ d = '\n' ∨ d = '\r' ∨ d = '\t' := by
    simpa [isSpec, or_assoc] using hd
  rcases hc' with rfl | rfl | rfl | rfl | rfl <;>
    rcases hd' with rfl | rfl | rfl | rfl | rfl <;>
    first | rfl | (exact absurd h (by decide))

theorem escFlat_inj : ∀ (a b : List Char) (r1 r2 : List Char),
    a.flatMap escChar ++ '\'' :: r1 = b.flatMap escChar ++ '\'' :: r2 →
    a = b ∧ r1 = r2 := by
  intro a
  induction a with
  | nil =>
      intro b r1 r2 h
      cases b with
      | nil =>
          simp only [List.flatMap_nil, List.nil_append] at h
          exact ⟨rfl, by injection h⟩
      | cons d bs =>
          exfalso
          simp only [List.flatMap_nil, List.flatMap_cons, List.nil_append,
            List.append_assoc] at h
          rcases escChar_cases d with ⟨hs, he⟩ | ⟨hs, he⟩ <;>
            rw [he] at h <;> simp only [List.cons_append, List.nil_append] at h
          · injection h with h1 _
            exact absurd h1 (by decide)
          · injection h with h1 _
            subst h1
            simp [isSpec] at hs
  | cons c as ih =>
      intro b r1 r2 h
      cases b with
      | nil =>
          exfalso
          simp only [List.flatMap_nil, List.flatMap_cons, List.nil_append,
            List.append_assoc] at h
          rcases escChar_cases c with ⟨hs, he⟩ | ⟨hs, he⟩ <;>
            rw [he] at h <;> simp only [List.cons_append, List.nil_append] at h
          · injection h with h1 _
            exact absurd h1.symm (by decide)
          · injection h with h1 _
            subst h1
            simp [isSpec] at hs
      | cons d bs =>
          simp only [List.flatMap_cons, List.append_assoc] at h
          rcases escChar_cases c with ⟨hsc, hec⟩ | ⟨hsc, hec⟩ <;>
            rcases escChar_cases d with ⟨hsd, hed⟩ | ⟨hsd, hed⟩ <;>
            rw [hec, hed] at h <;>
            simp only [List.cons_append, List.nil_append] at h
          · injection h with _ h
            injection h with h2 h
            have : c = d := escSnd_inj hsc hsd h2
            subst this
            obtain ⟨ha, hr⟩ := ih bs r1 r2 h
            exact ⟨by rw [ha], hr⟩
          · injection h with h1 _
            rw [← h1] at hsd
            simp [isSpec] at hsd
          · injection h with h1 _
            rw [h1] at hsc
            simp [isSpec] at hsc
          · injection h with h1 h
            subst h1
            obtain ⟨ha, hr⟩ := ih bs r1 r2 h
            exact ⟨by rw [ha], hr⟩

theorem strLitChars_inj : ∀ (s t : String) (r1 r2 : List Char),
    strLitChars s ++ r1 = strLitChars t ++ r2 → s = t ∧ r1 = r2 := by
  intro s t r1 r2 h
  simp only [strLitChars, List.cons_append, List.append_assoc,
    List.singleton_append] at h
  injection h with _ h
  obtain ⟨hd, hr⟩ := escFlat_inj s.data t.data r1 r2 h
  exact ⟨strData_inj hd, hr⟩

theorem append_overlap : ∀ (s t r1 r2 : List Char), s ++ r1 = t ++ r2 →
    s.isPrefixOf t = true ∨ t.isPrefixOf s = true := by
  intro s
  induction s with
  | nil => intro t _ _ _; left; cases t <;> simp [List.isPrefixOf]
  | cons c cs ih =>
      intro t r1 r2 h
      cases t with
      | nil => right; simp [List.isPrefixOf]
      | cons d ds =>
          simp only [List.cons_append] at h
          injection h with h1 h
          subst h1
          rcases ih ds r1 r2 h with hp | hp
          · left; simp [List.isPrefixOf, hp]
          · right; simp [List.isPrefixOf, hp]

theorem typeChars_inj : ∀ (t1 t2 : PyType) (r1 r2 : List Char),
    typeChars t1 ++ r1 = typeChars t2 ++ r2 → t1 = t2 ∧ r1 = r2 := by
  intro t1 t2 r1 r2 h
  cases t1 <;> cases t2 <;>
    first
      | exact ⟨rfl, List.append_cancel_left h⟩
      | (rcases append_overlap _ _ _ _ h with hp | hp <;> exact absurd hp (by decide))

/-! Well-formed values: every float payload is canonical (`PyFloat.WF`). -/
mutual
def wfVal : Value → Bool
  | .float f => decide f.WF
  | .list l => wfValL l
  | .tuple l => wfValL l
  | .dict d => wfValE d
  | _ => true
def wfValL : List Value → Bool
  | [] => true
  | v :: vs => wfVal v && wfValL vs
def wfValE : List (String × Value) → Bool
  | [] => true
  | (_, v) :: vs => wfVal v && wfValE vs
end

theorem wfValL_head {v : Value} {vs : List Value} (h : wfValL (v :: vs) = true) :
    wfVal v = true := by
  simp only [wfValL, Bool.and_eq_true] at h
  exact h.1

theorem wfValL_tail {v : Value} {vs : List Value} (h : wfValL (v :: vs) = true) :
    wfValL vs = true := by
  simp only [wfValL, Bool.and_eq_true] at h
  exact h.2

theorem wfValE_head {k : String} {v : Value} {es : List (String × Value)}
    (h : wfValE ((k, v) :: es) = true) : wfVal v = true := by
  simp only [wfValE, Bool.and_eq_true] at h
  exact h.1

theorem wfValE_tail {k : String} {v : Value} {es : List (String × Value)}
    (h : wfValE ((k, v) :: es) = true) : wfValE es = true := by
  simp only [wfValE, Bool.and_eq_true] at h
  exact h.2

/-- Delimiter characters that may legitimately follow a nested `repr`. -/
def isDelim (c : Char) : Bool := c = ',' || c = ']' || c = ')' || c = '}'

/-- A continuation stream that is empty or starts with a delimiter. -/
def delimB : List Char → Bool
  | [] => true
  | c :: _ => isDelim c

theorem delimB_cons {c : Char} (h : isDelim c = true) (r : List Char) :
    delimB (c :: r) = true := h

theorem isDelim_not_dig {c : Char} (h : isDelim c = true) : isDig c = false := by
  have h' : c = ',' ∨ c = ']' ∨ c = ')' ∨ c = '}' := by
    simpa [isDelim, or_assoc] using h
  rcases h' with rfl | rfl | rfl | rfl <;> decide

theorem isDig_not_delim {c : Char} (h : isDig c = true) : isDelim c = false := by
  cases hd : isDelim c
  · rfl
  · rw [isDelim_not_dig hd] at h
    cases h

theorem delim_not_digit {r : List Char} (h : delimB r = true) : startsDig r = false := by
  cases r with
  | nil => rfl
  | cons c t =>
      simp only [delimB] at h
      simp only [startsDig]
      exact isDelim_not_dig h

theorem delim_not_dot {r : List Char} (h : delimB r = true) :
    ∀ c t, r = c :: t → ¬ c = '.' := by
  rintro c t rfl rfl
  simp only [delimB] at h
  exact absurd h (by decide)

/-- Syntactic class of a `repr`'s first character. -/
def headClass (c : Char) : Nat :=
  if isDig c || c = '-' then 0
  else if c = '\'' then 1
  else if c = '<' then 2
  else if c = '[' then 3
  else if c = '(' then 4
  else if c = '{' then 5
  else if c = 'N' then 6
  else if c = 'T' || c = 'F' then 7
  else 8

/-- Syntactic class a value's `repr` must start in. -/
def classOf : Value → Nat
  | .none => 6
  | .bool _ => 7
  | .int _ => 0
  | .float _ => 0
  | .str _ => 1
  | .typ _ => 2
  | .list _ => 3
  | .tuple _ => 4
  | .dict _ => 5

theorem reprV_class : ∀ v : Value,
    ∃ c t, reprV v = c :: t ∧ headClass c = classOf v ∧ isDelim c = false := by
  intro v
  cases v with
  | none => exact ⟨'N', "one".data, by decide, by decide, by decide⟩
  | bool b =>
      cases b
      · exact ⟨'F', "alse".data, by decide, by decide, by decide⟩
      · exact ⟨'T', "rue".data, by decide, by decide, by decide⟩
  | int n =>
      by_cases hn : n < 0
      · exact ⟨'-', natChars n.natAbs, by simp [reprV, intChars, hn], rfl, by decide⟩
      · obtain ⟨c, t, hct, hdig⟩ := natChars_head n.natAbs
        exact ⟨c, t, by simp [reprV, intChars, hn, hct],
          by simp [headClass, hdig, classOf], isDig_not_delim hdig⟩
  | float f =>
      obtain ⟨frac, hsh, -, -, -⟩ := floatChars_shape f
      by_cases hs : f.mant < 0
      · refine ⟨'-', natChars (f.mant.natAbs / 10 ^ f.frexp) ++ '.' :: frac, ?_,
          rfl, by decide⟩
        rw [show reprV (.float f) = floatChars f from rfl, hsh]
        simp [hs]
      · obtain ⟨c, t, hct, hdig⟩ := natChars_head (f.mant.natAbs / 10 ^ f.frexp)
        refine ⟨c, t ++ '.' :: frac, ?_, by simp [headClass, hdig, classOf],
          isDig_not_delim hdig⟩
        rw [show reprV (.float f) = floatChars f from rfl, hsh, hct]
        simp [hs]
  | str s =>
      exact ⟨'\'', s.data.flatMap escChar ++ ['\''], by simp [reprV, strLitChars],
        rfl, by decide⟩
  | typ t =>
      refine ⟨'<', "class '".data ++ t.pyName.data ++ "'>".data, ?_, rfl, by decide⟩
      rw [show reprV (.typ t) = typeChars t from rfl, typeChars,
        show ("<class '".data : List Char) = '<' :: "class '".data from by decide]
      simp [List.cons_append, List.append_assoc]
  | list l =>
      exact ⟨'[', reprVL l ++ [']'], by simp [reprV, List.cons_append], rfl, by decide⟩
  | tuple l =>
      rcases l with _ | ⟨v, _ | ⟨w, rest⟩⟩
      · exact ⟨'(', [')'], by decide, by decide, by decide⟩
      · exact ⟨'(', reprV v ++ [',', ')'], by simp [reprV, List.cons_append],
          rfl, by decide⟩
      · exact ⟨'(', reprVL (v :: w :: rest) ++ [')'],
          by simp [reprV, List.cons_append], rfl, by decide⟩
  | dict d =>
      exact ⟨'{', reprVE d ++ ['}'], by simp [reprV, List.cons_append], rfl, by decide⟩

theorem class_clash {v w : Value} {r1 r2 : List Char} (hne : classOf v ≠ classOf w)
    (h : reprV v ++ r1 = reprV w ++ r2) : False := by
  obtain ⟨c, t, he, hc, -⟩ := reprV_class v
  obtain ⟨d, u, he2, hd, -⟩ := reprV_class w
  rw [he, he2] at h
  simp only [List.cons_append] at h
  injection h with h1 _
  apply hne
  rw [← hc, ← hd, h1]

theorem head_not_delim_clash {v : Value} {c : Char} {t rest : List Char}
    (hc : isDelim c = true) (h : c :: t = reprV v ++ rest) : False := by
  obtain ⟨d, u, he, -, hdel⟩ := reprV_class v
  rw [he, List.cons_append] at h
  injection h with h1 _
  rw [h1] at hc
  rw [hdel] at hc
  exact absurd hc (by decide)

theorem reprVL_cons_eq : ∀ (v : Value) (vs : List Value),
    ∃ t, reprVL (v :: vs) = reprV v ++ t ∧
      ∀ r, delimB r = true → delimB (t ++ r) = true := by
  intro v vs
  cases vs with
  | nil => exact ⟨[], by simp [reprVL], fun r h => by simpa⟩
  | cons w ws =>
      refine ⟨',' :: ' ' :: reprVL (w :: ws), by simp [reprVL], fun r _ => ?_⟩
      simp [delimB, isDelim]

theorem reprVE_cons_eq : ∀ (k : String) (v : Value) (es : List (String × Value)),
    ∃ t, reprVE ((k, v) :: es) = '\'' :: t := by
  intro k v es
  cases es with
  | nil =>
      refine ⟨k.data.flatMap escChar ++ ['\''] ++ (':' :: ' ' :: reprV v), ?_⟩
      simp [reprVE, strLitChars, List.cons_append, List.append_assoc]
  | cons e es2 =>
      refine ⟨k.data.flatMap escChar ++ ['\''] ++
        (':' :: ' ' :: (reprV v ++ ',' :: ' ' :: reprVE (e :: es2))), ?_⟩
      simp [reprVE, strLitChars, List.cons_append, List.append_assoc]

mutual
theorem reprV_inj : ∀ (v w : Value) (r1 r2 : List Char),
    wfVal v = true → wfVal w = true → delimB r1 = true → delimB r2 = true →
    reprV v ++ r1 = reprV w ++ r2 → v = w ∧ r1 = r2
  | .none, w => by
      intro r1 r2 h1 h2 hr1 hr2 h
      cases w
      all_goals try (refine (class_clash ?_ h).elim; simp [classOf]; done)
      exact ⟨rfl, List.append_cancel_left h⟩
  | .bool a, w => by
      intro r1 r2 h1 h2 hr1 hr2 h
      cases w
      all_goals try (refine (class_clash ?_ h).elim; simp [classOf]; done)
      rename_i b
      cases a <;> cases b
      · exact ⟨rfl, List.append_cancel_left h⟩
      · rcases append_overlap _ _ _ _ h with hp | hp <;> exact absurd hp (by decide)
      · rcases append_overlap _ _ _ _ h with hp | hp <;> exact absurd hp (by decide)
      · exact ⟨rfl, List.append_cancel_left h⟩
  | .int a, w => by
      intro r1 r2 h1 h2 hr1 hr2 h
      cases w
      all_goals try (refine (class_clash ?_ h).elim; simp [classOf]; done)
      case int b =>
        have h' : intChars a ++ r1 = intChars b ++ r2 := by simpa only [reprV] using h
        obtain ⟨hab, hrr⟩ := intChars_munch a b r1 r2 (delim_not_digit hr1)
          (delim_not_digit hr2) h'
        exact ⟨by rw [hab], hrr⟩
      case float g =>
        have h' : intChars a ++ r1 = floatChars g ++ r2 := by simpa only [reprV] using h
        exact (int_float_clash a g r1 r2 (delim_not_digit hr1) (delim_not_dot hr1) h').elim
  | .float f, w => by
      intro r1 r2 h1 h2 hr1 hr2 h
      cases w
      all_goals try (refine (class_clash ?_ h).elim; simp [classOf]; done)
      case int b =>
        have h' : intChars b ++ r2 = floatChars f ++ r1 := by simpa only [reprV] using h.symm
        exact (int_float_clash b f r2 r1 (delim_not_digit hr2) (delim_not_dot hr2) h').elim
      case float g =>
        have h' : floatChars f ++ r1 = floatChars g ++ r2 := by simpa only [reprV] using h
        have hwf : f.WF := of_decide_eq_true (by simpa only [wfVal] using h1)
        have hwg : g.WF := of_decide_eq_true (by simpa only [wfVal] using h2)
        obtain ⟨hfg, hrr⟩ := floatChars_munch f g hwf hwg r1 r2 (delim_not_digit hr1)
          (delim_not_digit hr2) h'
        exact ⟨by rw [hfg], hrr⟩
  | .str s, w => by
      intro r1 r2 h1 h2 hr1 hr2 h
      cases w
      all_goals try (refine (class_clash ?_ h).elim; simp [classOf]; done)
      rename_i t
      have h' : strLitChars s ++ r1 = strLitChars t ++ r2 := by simpa only [reprV] using h
      obtain ⟨hst, hrr⟩ := strLitChars_inj s t r1 r2 h'
      exact ⟨by rw [hst], hrr⟩
  | .typ u, w => by
      intro r1 r2 h1 h2 hr1 hr2 h
      cases w
      all_goals try (refine (class_clash ?_ h).elim; simp [classOf]; done)
      rename_i t
      have h' : typeChars u ++ r1 = typeChars t ++ r2 := by simpa only [reprV] using h
      obtain ⟨hut, hrr⟩ := typeChars_inj u t r1 r2 h'
      exact ⟨by rw [hut], hrr⟩
  | .list l1, w => by
      intro r1 r2 h1 h2 hr1 hr2 h
      cases w
      all_goals try (refine (class_clash ?_ h).elim; simp [classOf]; done)
      rename_i l2
      simp only [reprV, List.cons_append, List.append_assoc, List.singleton_append] at h
      injection h with _ h
      obtain ⟨hl, hrr⟩ := reprVL_inj l1 l2 ']' r1 r2 (by decide)
        (by simpa only [wfVal] using h1) (by simpa only [wfVal] using h2) hr1 hr2 h
      exact ⟨by rw [hl], hrr⟩
  | .tuple l1, w => by
      intro r1 r2 h1 h2 hr1 hr2 h
      cases w
      all_goals try (refine (class_clash ?_ h).elim; simp [classOf]; done)
      rename_i l2
      rcases l1 with _ | ⟨v, _ | ⟨v2, vs⟩⟩ <;> rcases l2 with _ | ⟨w1, _ | ⟨w2, ws⟩⟩
      · exact ⟨rfl, List.append_cancel_left h⟩
      · exfalso
        simp only [reprV, List.cons_append, List.nil_append, List.append_assoc,
          List.singleton_append] at h
        injection h with _ h
        exact head_not_delim_clash (by decide) h
      · exfalso
        simp only [reprV, reprVL, List.cons_append, List.nil_append, List.append_assoc,
          List.singleton_append] at h
        injection h with _ h
        exact head_not_delim_clash (by decide) h
      · exfalso
        simp only [reprV, List.cons_append, List.nil_append, List.append_assoc,
          List.singleton_append] at h
        injection h with _ h
        exact head_not_delim_clash (by decide) h.symm
      · simp only [reprV, List.cons_append, List.nil_append, List.append_assoc,
          List.singleton_append] at h
        injection h with _ h
        obtain ⟨hvw, htl⟩ := reprV_inj v w1 _ _
          (wfValL_head (by simpa only [wfVal] using h1))
          (wfValL_head (by simpa only [wfVal] using h2))
          (delimB_cons (by decide) _) (delimB_cons (by decide) _) h
        injection htl with _ htl
        injection htl with _ htl
        exact ⟨by rw [hvw], htl⟩
      · simp only [reprV, reprVL, List.cons_append, List.nil_append, List.append_assoc,
          List.singleton_append] at h
        injection h with _ h
        obtain ⟨hvw, htl⟩ := reprV_inj v w1 _ _
          (wfValL_head (by simpa only [wfVal] using h1))
          (wfValL_head (by simpa only [wfVal] using h2))
          (delimB_cons (by decide) _) (delimB_cons (by decide) _) h
        injection htl with _ htl
        injection htl with hbad _
        exact absurd hbad (by decide)
      · exfalso
        simp only [reprV, reprVL, List.cons_append, List.nil_append, List.append_assoc,
          List.singleton_append] at h
        injection h with _ h
        exact head_not_delim_clash (by decide) h.symm
      · simp only [reprV, reprVL, List.cons_append, List.nil_append, List.append_assoc,
          List.singleton_append] at h
        injection h with _ h
        obtain ⟨hvw, htl⟩ := reprV_inj v w1 _ _
          (wfValL_head (by simpa only [wfVal] using h1))
          (wfValL_head (by simpa only [wfVal] using h2))
          (delimB_cons (by decide) _) (delimB_cons (by decide) _) h
        injection htl with _ htl
        injection htl with hbad _
        exact absurd hbad (by decide)
      · simp only [reprV, List.cons_append, List.nil_append, List.append_assoc,
          List.singleton_append] at h
        injection h with _ h
        obtain ⟨hl, hrr⟩ := reprVL_inj (v :: v2 :: vs) (w1 :: w2 :: ws) ')' r1 r2 (by decide)
          (by simpa only [wfVal] using h1) (by simpa only [wfVal] using h2) hr1 hr2 h
        exact ⟨by rw [hl], hrr⟩
  | .dict d1, w => by
      intro r1 r2 h1 h2 hr1 hr2 h
      cases w
      all_goals try (refine (class_clash ?_ h).elim; simp [classOf]; done)
      rename_i d2
      simp only [reprV, List.cons_append, List.append_assoc, List.singleton_append] at h
      injection h with _ h
      obtain ⟨hd, hrr⟩ := reprVE_inj d1 d2 r1 r2
        (by simpa only [wfVal] using h1) (by simpa only [wfVal] using h2) hr1 hr2 h
      exact ⟨by rw [hd], hrr⟩

theorem reprVL_inj : ∀ (l1 l2 : List Value) (c : Char) (r1 r2 : List Char),
    isDelim c = true →
    wfValL l1 = true → wfValL l2 = true → delimB r1 = true → delimB r2 = true →
    reprVL l1 ++ c :: r1 = reprVL l2 ++ c :: r2 → l1 = l2 ∧ r1 = r2
  | [], l2 => by
      intro c r1 r2 hc h1 h2 hr1 hr2 h
      rcases l2 with _ | ⟨w, ws⟩
      · simp only [reprVL, List.nil_append] at h
        exact ⟨rfl, by injection h⟩
      · exfalso
        simp only [reprVL, List.nil_append] at h
        obtain ⟨t, ht, -⟩ := reprVL_cons_eq w ws
        rw [ht, List.append_assoc] at h
        exact head_not_delim_clash hc h
  | [v], l2 => by
      intro c r1 r2 hc h1 h2 hr1 hr2 h
      rcases l2 with _ | ⟨w, _ | ⟨w2, ws⟩⟩
      · exfalso
        simp only [reprVL, List.nil_append] at h
        exact head_not_delim_clash hc h.symm
      · simp only [reprVL] at h
        obtain ⟨hvw, htl⟩ := reprV_inj v w (c :: r1) (c :: r2) (wfValL_head h1)
          (wfValL_head h2) (delimB_cons hc _) (delimB_cons hc _) h
        injection htl with _ htl
        exact ⟨by rw [hvw], htl⟩
      · simp only [reprVL, List.cons_append, List.append_assoc] at h
        obtain ⟨hvw, htl⟩ := reprV_inj v w _ _ (wfValL_head h1) (wfValL_head h2)
          (delimB_cons hc _) (delimB_cons (by decide) _) h
        injection htl with _ htl
        rw [htl] at hr1
        simp only [delimB] at hr1
        exact absurd hr1 (by decide)
  | v :: v2 :: vs, l2 => by
      intro c r1 r2 hc h1 h2 hr1 hr2 h
      rcases l2 with _ | ⟨w, _ | ⟨w2, ws⟩⟩
      · exfalso
        simp only [reprVL, List.nil_append, List.cons_append, List.append_assoc] at h
        exact head_not_delim_clash hc h.symm
      · simp only [reprVL, List.cons_append, List.append_assoc] at h
        obtain ⟨hvw, htl⟩ := reprV_inj v w _ _ (wfValL_head h1) (wfValL_head h2)
          (delimB_cons (by decide) _) (delimB_cons hc _) h
        injection htl with _ htl
        rw [← htl] at hr2
        simp only [delimB] at hr2
        exact absurd hr2 (by decide)
      · simp only [reprVL, List.cons_append, List.append_assoc] at h
        obtain ⟨hvw, htl⟩ := reprV_inj v w _ _ (wfValL_head h1) (wfValL_head h2)
          (delimB_cons (by decide) _) (delimB_cons (by decide) _) h
        injection htl with _ htl
        injection htl with _ htl
        obtain ⟨hl, hrr⟩ := reprVL_inj (v2 :: vs) (w2 :: ws) c r1 r2 hc
          (wfValL_tail h1) (wfValL_tail h2) hr1 hr2 htl
        exact ⟨by rw [hvw, hl], hrr⟩

theorem reprVE_inj : ∀ (d1 d2 : List (String × Value)) (r1 r2 : List Char),
    wfValE d1 = true → wfValE d2 = true → delimB r1 = true → delimB r2 = true →
    reprVE d1 ++ '}' :: r1 = reprVE d2 ++ '}' :: r2 → d1 = d2 ∧ r1 = r2
  | [], d2 => by
      intro r1 r2 h1 h2 hr1 hr2 h
      rcases d2 with _ | ⟨⟨k, w⟩, ws⟩
      · simp only [reprVE, List.nil_append] at h
        exact ⟨rfl, by injection h⟩
      · exfalso
        obtain ⟨t, ht⟩ := reprVE_cons_eq k w ws
        rw [ht] at h
        simp only [reprVE, List.nil_append, List.cons_append] at h
        injection h with hq _
        exact absurd hq (by decide)
  | [(k, v)], d2 => by
      intro r1 r2 h1 h2 hr1 hr2 h
      rcases d2 with _ | ⟨⟨k2, w⟩, _ | ⟨e2, es2⟩⟩
      · exfalso
        obtain ⟨t, ht⟩ := reprVE_cons_eq k v []
        rw [ht] at h
        simp only [reprVE, List.nil_append, List.cons_append] at h
        injection h with hq _
        exact absurd hq (by decide)
      · simp only [reprVE, List.cons_append, List.append_assoc] at h
        obtain ⟨hk, htl⟩ := strLitChars_inj k k2 _ _ h
        injection htl with _ htl
        injection htl with _ htl
        obtain ⟨hvw, htl2⟩ := reprV_inj v w _ _ (wfValE_head h1) (wfValE_head h2)
          (delimB_cons (by decide) _) (delimB_cons (by decide) _) htl
        injection htl2 with _ htl2
        exact ⟨by rw [hk, hvw], htl2⟩
      · simp only [reprVE, List.cons_append, List.append_assoc] at h
        obtain ⟨hk, htl⟩ := strLitChars_inj k k2 _ _ h
        injection htl with _ htl
        injection htl with _ htl
        obtain ⟨hvw, htl2⟩ := reprV_inj v w _ _ (wfValE_head h1) (wfValE_head h2)
          (delimB_cons (by decide) _) (delimB_cons (by decide) _) htl
        injection htl2 with hbad _
        exact absurd hbad (by decide)
  | (k, v) :: e :: es, d2 => by
      intro r1 r2 h1 h2 hr1 hr2 h
      rcases d2 with _ | ⟨⟨k2, w⟩, _ | ⟨e2, es2⟩⟩
      · exfalso
        obtain ⟨t, ht⟩ := reprVE_cons_eq k v (e :: es)
        rw [ht] at h
        simp only [reprVE, List.nil_append, List.cons_append] at h
        injection h with hq _
        exact absurd hq (by decide)
      · simp only [reprVE, List.cons_append, List.append_assoc] at h
        obtain ⟨hk, htl⟩ := strLitChars_inj k k2 _ _ h
        injection htl with _ htl
        injection htl with _ htl
        obtain ⟨hvw, htl2⟩ := reprV_inj v w _ _ (wfValE_head h1) (wfValE_head h2)
          (delimB_cons (by decide) _) (delimB_cons (by decide) _) htl
        injection htl2 with hbad _
        exact absurd hbad (by decide)
      · simp only [reprVE, List.cons_append, List.append_assoc] at h
        obtain ⟨hk, htl⟩ := strLitChars_inj k k2 _ _ h
        injection htl with _ htl
        injection htl with _ htl
        obtain ⟨hvw, htl2⟩ := reprV_inj v w _ _ (wfValE_head h1) (wfValE_head h2)
          (delimB_cons (by decide) _) (delimB_cons (by decide) _) htl
        injection htl2 with _ htl2
        injection htl2 with _ htl2
        obtain ⟨hd, hrr⟩ := reprVE_inj (e :: es) (e2 :: es2) r1 r2
          (wfValE_tail h1) (wfValE_tail h2) hr1 hr2 htl2
        exact ⟨by rw [hk, hvw, hd], hrr⟩
end

theorem wfVal_str (s : String) : wfVal (.str s) = true := rfl

theorem wfValE_dSet {d : Dict} {v : Value} (hd : wfValE d = true)
    (hv : wfVal v = true) (k : String) : wfValE (dSet d k v) = true := by
  induction d with
  | nil => simp [dSet, wfValE, hv]
  | cons kv rest ih =>
      obtain ⟨k', v'⟩ := kv
      simp only [wfValE, Bool.and_eq_true] at hd
      by_cases hk : k' = k
      · simp [dSet, hk, wfValE, hv, hd.2]
      · simp only [dSet, if_neg hk, wfValE, Bool.and_eq_true]
        exact ⟨hd.1, ih hd.2⟩

theorem dSet_append_of_absent {d : Dict} {k : String} (h : dGet d k = Option.none)
    (v : Value) : dSet d k v = d ++ [(k, v)] := by
  induction d with
  | nil => rfl
  | cons kv rest ih =>
      obtain ⟨k', v'⟩ := kv
      simp only [dGet] at h
      by_cases hk : k' = k
      · rw [if_pos hk] at h
        cases h
      · rw [if_neg hk] at h
        simp [dSet, hk, ih h]

/-- Two resolutions of one instance with the same settings supplied in the
two possible orders (`model` first vs `temperature` first), with caching
enabled at the default per-process (session) scope; returns the total
provider call count and whether the two recorded effective configurations
are logically equal as Python dicts (`==`, order-insensitive). -/
def c3OrderRun : Except PyErr (Nat × Bool) :=
  match mkAI {prompt := .str "Hello?", output := .typ .str} Option.none with
  | .ok (a, sess) =>
      match invoke greetOracle a sess Option.none
          [("model", .str "gpt-4"), ("temperature", .float ⟨1, 0⟩)] with
      | .ok (_, a1, s1, n1) =>
          match invoke greetOracle a1 s1 Option.none
              [("temperature", .float ⟨1, 0⟩), ("model", .str "gpt-4")] with
          | .ok (_, a2, _, n2) =>
              let logEq :=
                match a1.results.getLast?, a2.results.getLast? with
                | some r1, some r2 => pyEq (.dict r1.1) (.dict r2.1)
                | _, _ => false
              .ok (n1 + n2, logEq)
          | .error e => .error e
      | .error e => .error e
  | .error e => .error e

/-! ## Claim theorems -/

/-- C1 (amended): with a stable effective configuration (caching on,
session scope, no conversation append, output type recorded), a fresh key
and a provider answer that casts to a *truthy* value, `n + 1` repeated
resolutions of the same request make exactly one provider call: the first
resolution misses, stores the result, and every later resolution returns
that same stored result from the Cache without invoking the provider. -/
theorem c1_amended (oracle : String → PyType → Value) (vars : Dict) (p q : String)
    (T : PyType) (results chat : List (Dict × Value)) (ic : Option Dict)
    (c : Dict) (w : Value) (n : Nat)
    (hcfg : StableCfg vars p q T)
    (hfresh : dGet c (cacheKeyStr vars q) = Option.none)
    (hT : ¬ T = PyType.dict)
    (hcast : pyCast T (oracle q T) = .ok w)
    (hw : pyTruthy w = true) :
    repeatInvoke oracle (n + 1) ⟨vars, results, chat, ic⟩ (some c) =
      .ok (List.replicate (n + 1) w,
           ⟨vars, results ++ [(dSet vars "full_prompt" (Value.str q), w)],
                  chat ++ [(dSet vars "prompt" (Value.str q), w)], ic⟩,
           some (dSet c (cacheKeyStr vars q) w), 1) := by
  have hmiss : pyTruthy (dGetD c (cacheKeyStr vars q) (Value.bool false)) = false := by
    simp [dGetD, hfresh, pyTruthy]
  show (do
    let (v, a1, sess1, c1) ← invoke oracle ⟨vars, results, chat, ic⟩ (some c) Option.none []
    let (vs, a2, sess2, c2) ← repeatInvoke oracle n a1 sess1
    Except.ok (v :: vs, a2, sess2, c1 + c2)) = _
  rw [invoke_miss oracle vars p q T results chat ic c w hcfg hmiss hT hcast]
  have hc1 : dGetD (dSet c (cacheKeyStr vars q) w) (cacheKeyStr vars q) (Value.bool false) = w :=
    dGetD_eq _ (dGet_dSet_self c (cacheKeyStr vars q) w)
  simp only [ebind_ok,
    repeatInvoke_hits oracle vars p q T
      (results ++ [(dSet vars "full_prompt" (Value.str q), w)])
      (chat ++ [(dSet vars "prompt" (Value.str q), w)]) ic
      (dSet c (cacheKeyStr vars q) w) w hcfg hc1 hw n,
    List.replicate_succ]

/-- C10: every invocation writes the resolved target type back into the
instance's stored configuration.  (1) A resolution demanded with implied
type `T` (the `output=T` keyword `result()` passes when the stored type is
absent) leaves `self.variables['output'] = T`.  (2) With no type demanded
and none stored, the type defaults to text (`str`) and is written back.
(3) On an instance whose stored output type is `T`, a subsequent demand
with any implied type `T'` delegates to `invoke()` *without* an output
override — the stored `T` is what the provider is asked for; only the
final cast uses `T'`. -/
theorem c10_output_writeback :
    (∀ (oracle : String → PyType → Value) (vars kw : Dict) (p q : String) (T : PyType)
       (results chat : List (Dict × Value)) (ic : Option Dict) (c : Dict) (w : Value),
      fillKwargs vars [("output", Value.typ T)] = kw →
      decodeOutput (dGetD kw "output" Value.none) = .ok T →
      KwReads kw p q →
      dGetD kw "caching" Value.none = Value.bool true →
      dGetD (dSet vars "output" (Value.typ T)) "caching" Value.none = Value.bool true →
      dGetD (dSet vars "output" (Value.typ T)) "cache_location" Value.none =
        Value.str "session" →
      pyTruthy (dGetD c (cacheKeyStr kw q) (Value.bool false)) = false →
      ¬ T = PyType.dict →
      pyCast T (oracle q T) = .ok w →
      invoke oracle ⟨vars, results, chat, ic⟩ (some c) Option.none [("output", Value.typ T)] =
        .ok (w,
             ⟨dSet vars "output" (Value.typ T),
              results ++ [(dSet kw "full_prompt" (Value.str q), w)],
              chat ++ [(dSet kw "prompt" (Value.str q), w)], ic⟩,
             some (dSet c (cacheKeyStr kw q) w), 1)) ∧
    (∀ (oracle : String → PyType → Value) (vars : Dict) (p q : String)
       (results chat : List (Dict × Value)) (ic : Option Dict) (c : Dict) (w : Value),
      dGetD vars "output" Value.none = Value.none →
      fillKwargs vars [] = vars →
      KwReads vars p q →
      dGetD vars "caching" Value.none = Value.bool true →
      dGetD (dSet vars "output" (Value.typ PyType.str)) "caching" Value.none = Value.bool true →
      dGetD (dSet vars "output" (Value.typ PyType.str)) "cache_location" Value.none =
        Value.str "session" →
      pyTruthy (dGetD c (cacheKeyStr vars q) (Value.bool false)) = false →
      pyCast PyType.str (oracle q PyType.str) = .ok w →
      invoke oracle ⟨vars, results, chat, ic⟩ (some c) Option.none [] =
        .ok (w,
             ⟨dSet vars "output" (Value.typ PyType.str),
              results ++ [(dSet vars "full_prompt" (Value.str q), w)],
              chat ++ [(dSet vars "prompt" (Value.str q), w)], ic⟩,
             some (dSet c (cacheKeyStr vars q) w), 1)) ∧
    (∀ (oracle : String → PyType → Value) (vars : Dict)
       (results chat : List (Dict × Value)) (ic : Option Dict) (sess : Option Dict)
       (T T' : PyType) (castArg : Bool),
      dGet vars "output" = some (Value.typ T) →
      memoHit ⟨vars, results, chat, ic⟩ = Option.none →
      pyTruthy (dGetD vars "prompt" Value.none) = true →
      result oracle ⟨vars, results, chat, ic⟩ sess (some T') castArg =
        (do
          let r ← invoke oracle ⟨vars, results, chat, ic⟩ sess Option.none []
          let r' ← if castArg then pyCast T' r.1 else pure r.1
          pure (r', r.2.1, r.2.2.1, r.2.2.2))) := by
  refine ⟨?_, ?_, ?_⟩
  · intro oracle vars kw p q T results chat ic c w hfill hout hk hck hvc hvl hmiss hT hcast
    exact invoke_miss_general oracle vars [("output", Value.typ T)] kw p q T results chat ic c w
      hfill hout hk hck hvc hvl hmiss hT hcast
  · intro oracle vars p q results chat ic c w houtN hfill hk hck hvc hvl hmiss hcast
    exact invoke_miss_general oracle vars [] vars p q PyType.str results chat ic c w
      hfill (by rw [houtN]; rfl) hk hck hvc hvl hmiss (by decide) hcast
  · intro oracle vars results chat ic sess T T' castArg hout hmemo hprompt
    exact result_reuses_stored_type oracle vars results chat ic sess T T' castArg
      hout hmemo hprompt

/-- C10 (witness): the three parts applied to concrete instances — a
demand of `int` on a type-less `AI("How many?")` writes `int` back; a bare
`invoke()` on the same writes `str` back; and a float demand on an
instance already typed `int` resolves through `invoke()` with no
override. -/
theorem c10_output_writeback_witness :
    (invoke zeroOracle
        ⟨AIArgs.toVariables {prompt := Value.str "How many?"}, [], [], Option.none⟩
        (some []) Option.none [("output", Value.typ PyType.int)] =
      .ok (Value.int 0,
           ⟨dSet (AIArgs.toVariables {prompt := Value.str "How many?"}) "output"
              (Value.typ PyType.int),
            [(dSet (fillKwargs (AIArgs.toVariables {prompt := Value.str "How many?"})
                  [("output", Value.typ PyType.int)]) "full_prompt" (Value.str "How many?"),
              Value.int 0)],
            [(dSet (fillKwargs (AIArgs.toVariables {prompt := Value.str "How many?"})
                  [("output", Value.typ PyType.int)]) "prompt" (Value.str "How many?"),
              Value.int 0)], Option.none⟩,
           some (dSet []
             (cacheKeyStr (fillKwargs (AIArgs.toVariables {prompt := Value.str "How many?"})
                [("output", Value.typ PyType.int)]) "How many?") (Value.int 0)), 1)) ∧
    (invoke greetOracle
        ⟨AIArgs.toVariables {prompt := Value.str "How many?"}, [], [], Option.none⟩
        (some []) Option.none [] =
      .ok (Value.str "Hi there",
           ⟨dSet (AIArgs.toVariables {prompt := Value.str "How many?"}) "output"
              (Value.typ PyType.str),
            [(dSet (AIArgs.toVariables {prompt := Value.str "How many?"}) "full_prompt"
                (Value.str "How many?"), Value.str "Hi there")],
            [(dSet (AIArgs.toVariables {prompt := Value.str "How many?"}) "prompt"
                (Value.str "How many?"), Value.str "Hi there")], Option.none⟩,
           some (dSet []
             (cacheKeyStr (AIArgs.toVariables {prompt := Value.str "How many?"}) "How many?")
             (Value.str "Hi there")), 1)) ∧
    (result zeroOracle
        ⟨AIArgs.toVariables {prompt := Value.str "How many?", output := Value.typ PyType.int},
         [], [], Option.none⟩ (some []) (some PyType.float) true =
      (do
        let r ← invoke zeroOracle
          ⟨AIArgs.toVariables {prompt := Value.str "How many?", output := Value.typ PyType.int},
           [], [], Option.none⟩ (some []) Option.none []
        let r' ← if true then pyCast PyType.float r.1 else pure r.1
        pure (r', r.2.1, r.2.2.1, r.2.2.2))) :=
  ⟨c10_output_writeback.1 zeroOracle _ _ "How many?" "How many?" PyType.int [] [] Option.none
      [] (Value.int 0) rfl (by decide)
      ⟨by decide, by decide, ⟨[], Value.none, by decide, by decide, by decide⟩,
       by decide, by decide⟩
      (by decide) (by decide) (by decide) (by decide) (by decide) (by decide),
   c10_output_writeback.2.1 greetOracle _ "How many?" "How many?" [] [] Option.none
      [] (Value.str "Hi there") (by decide) (by decide)
      ⟨by decide, by decide, ⟨[], Value.none, by decide, by decide, by decide⟩,
       by decide, by decide⟩
      (by decide) (by decide) (by decide) (by decide) (by decide),
   c10_output_writeback.2.2 zeroOracle _ [] [] Option.none (some []) PyType.int PyType.float
      true (by decide) (by decide) (by decide)⟩

/-- C5 (amended): `__mul__` first forces each engine operand to numeric
resolution using that instance's own int/float default preference, then
applies the native operator.  When both instances prefer integers
(`numericals_default_to_int=True`), prompts resolving to `n1` and `n2`
multiply to the integer `n1*n2`.  Under the *default* float preference
(`NUMERICALS_DEFAULT_WITHOUT_FLOAT=False`) the same multiplication yields
the float product — the integer 26 of the spec's example arises only with
the integer preference configured. -/
theorem c5_amended :
    (∀ (oracle : String → PyType → Value) (p1 p2 : String) (n1 n2 : Int) (sess : Option Dict),
      p1 ≠ "" → p2 ≠ "" → findPH p1.data = [] → findPH p2.data = [] →
      oracle p1 PyType.int = Value.int n1 → oracle p2 PyType.int = Value.int n2 →
      aiMul oracle (.engine (c5State p1 true)) (.engine (c5State p2 true)) sess =
        .ok (Value.int (n1 * n2), sess, 2)) ∧
    (∀ (oracle : String → PyType → Value) (p1 p2 : String) (f1 f2 : PyFloat) (sess : Option Dict),
      p1 ≠ "" → p2 ≠ "" → findPH p1.data = [] → findPH p2.data = [] →
      oracle p1 PyType.float = Value.float f1 → oracle p2 PyType.float = Value.float f2 →
      aiMul oracle (.engine (c5State p1 false)) (.engine (c5State p2 false)) sess =
        .ok (Value.float (floatMul f1 f2), sess, 2)) := by
  constructor
  · intro oracle p1 p2 n1 n2 sess hp1 hp2 hf1 hf2 ho1 ho2
    have mkr : ∀ (p : String), p ≠ "" → findPH p.data = [] → ∀ n : Int,
        oracle p PyType.int = Value.int n → ∀ sess' : Option Dict,
        result oracle ⟨(c5Args p true).toVariables, [], [], Option.none⟩ sess'
            (some PyType.int) true =
          .ok (Value.int n,
               ⟨dSet ((c5Args p true).toVariables) "output" (Value.typ PyType.int),
                [(dSet (fillKwargs ((c5Args p true).toVariables)
                    [("output", Value.typ PyType.int)]) "full_prompt" (Value.str p),
                  Value.int n)],
                [(dSet (fillKwargs ((c5Args p true).toVariables)
                    [("output", Value.typ PyType.int)]) "prompt" (Value.str p),
                  Value.int n)], Option.none⟩,
               sess', 1) := by
      intro p hp hf n ho sess'
      refine result_demand_nocache oracle ((c5Args p true).toVariables) p p PyType.int sess'
        (Value.int n) (Value.int n) rfl ?_ ?_ ?_ ?_ ?_ (by decide) ?_ rfl
      · have e : dGetD ((c5Args p true).toVariables) "prompt" Value.none = Value.str p := by
          simp [c5Args, AIArgs.toVariables, dGetD]
        rw [e]; exact pyTruthy_str_of_ne hp
      · simp [c5Args, AIArgs.toVariables, dGetD]
      · simp [c5Args, AIArgs.toVariables, fillKwargs, dGetD, decodeOutput]
      · exact ⟨by simp [c5Args, AIArgs.toVariables, fillKwargs, dGetD], hp,
          ⟨[], Value.none, by simp [c5Args, AIArgs.toVariables, fillKwargs, dGetD],
            by simp [c5Args, AIArgs.toVariables, fillKwargs, dGetD],
            replacePlaceholders_noPH p [] Value.none hf⟩,
          by simp [c5Args, AIArgs.toVariables, fillKwargs, dGetD],
          by simp [c5Args, AIArgs.toVariables, fillKwargs, dMem]⟩
      · simp [c5Args, AIArgs.toVariables, fillKwargs, dGetD]
      · rw [ho]; rfl
    have hnum : ∀ p : String, dGetD ((c5Args p true).toVariables)
        "numericals_default_to_int" Value.none = Value.bool true := by
      intro p; simp [c5Args, AIArgs.toVariables, dGetD]
    unfold aiMul make_numeric tonum toint
    simp only [c5State, hnum, pyTruthy_bool, if_true, ite_true,
               mkr p1 hp1 hf1 n1 ho1 sess, mkr p2 hp2 hf2 n2 ho2 sess,
               ebind_ok, epure_eq]
    simp [pyMul, asNum]
  · intro oracle p1 p2 f1 f2 sess hp1 hp2 hf1 hf2 ho1 ho2
    have mkr : ∀ (p : String), p ≠ "" → findPH p.data = [] → ∀ f : PyFloat,
        oracle p PyType.float = Value.float f → ∀ sess' : Option Dict,
        result oracle ⟨(c5Args p false).toVariables, [], [], Option.none⟩ sess'
            (some PyType.float) true =
          .ok (Value.float f,
               ⟨dSet ((c5Args p false).toVariables) "output" (Value.typ PyType.float),
                [(dSet (fillKwargs ((c5Args p false).toVariables)
                    [("output", Value.typ PyType.float)]) "full_prompt" (Value.str p),
                  Value.float f)],
                [(dSet (fillKwargs ((c5Args p false).toVariables)
                    [("output", Value.typ PyType.float)]) "prompt" (Value.str p),
                  Value.float f)], Option.none⟩,
               sess', 1) := by
      intro p hp hf f ho sess'
      refine result_demand_nocache oracle ((c5Args p false).toVariables) p p PyType.float sess'
        (Value.float f) (Value.float f) rfl ?_ ?_ ?_ ?_ ?_ (by decide) ?_ rfl
      · have e : dGetD ((c5Args p false).toVariables) "prompt" Value.none = Value.str p := by
          simp [c5Args, AIArgs.toVariables, dGetD]
        rw [e]; exact pyTruthy_str_of_ne hp
      · simp [c5Args, AIArgs.toVariables, dGetD]
      · simp [c5Args, AIArgs.toVariables, fillKwargs, dGetD, decodeOutput]
      · exact ⟨by simp [c5Args, AIArgs.toVariables, fillKwargs, dGetD], hp,
          ⟨[], Value.none, by simp [c5Args, AIArgs.toVariables, fillKwargs, dGetD],
            by simp [c5Args, AIArgs.toVariables, fillKwargs, dGetD],
            replacePlaceholders_noPH p [] Value.none hf⟩,
          by simp [c5Args, AIArgs.toVariables, fillKwargs, dGetD],
          by simp [c5Args, AIArgs.toVariables, fillKwargs, dMem]⟩
      · simp [c5Args, AIArgs.toVariables, fillKwargs, dGetD]
      · rw [ho]; rfl
    have hnum : ∀ p : String, dGetD ((c5Args p false).toVariables)
        "numericals_default_to_int" Value.none = Value.bool false := by
      intro p; simp [c5Args, AIArgs.toVariables, dGetD]
    unfold aiMul make_numeric tonum tofloat
    simp only [c5State, hnum, pyTruthy_bool, if_false, ite_false, Bool.false_eq_true,
               mkr p1 hp1 hf1 f1 ho1 sess, mkr p2 hp2 hf2 f2 ho2 sess,
               ebind_ok, epure_eq]
    simp [pyMul, asNum]

/-- C5 (witness): the spec's 13 × 2 scenario, both ways — integer 26 with
the integer preference on both instances, float 26.0 at the defaults. -/
theorem c5_amended_witness :
    aiMul mulOracle (.engine (c5State "How many is a bakers dozen?" true))
        (.engine (c5State "How many wheels does a bicycle have?" true)) Option.none =
      .ok (Value.int 26, Option.none, 2) ∧
    aiMul mulOracle (.engine (c5State "How many is a bakers dozen?" false))
        (.engine (c5State "How many wheels does a bicycle have?" false)) Option.none =
      .ok (Value.float (floatMul ⟨13, 0⟩ ⟨2, 0⟩), Option.none, 2) :=
  ⟨c5_amended.1 mulOracle "How many is a bakers dozen?"
      "How many wheels does a bicycle have?" 13 2 Option.none
      (by decide) (by decide) (by decide) (by decide) (by decide) (by decide),
   c5_amended.2 mulOracle "How many is a bakers dozen?"
      "How many wheels does a bicycle have?" ⟨13, 0⟩ ⟨2, 0⟩ Option.none
      (by decide) (by decide) (by decide) (by decide) (by decide) (by decide)⟩

/-- C1 (witness): three resolutions of `AI("Hello?", output=str)` with a
truthy provider answer make exactly one provider call. -/
theorem c1_amended_witness :
    repeatInvoke greetOracle 3
        ⟨AIArgs.toVariables {prompt := Value.str "Hello?", output := Value.typ PyType.str},
         [], [], Option.none⟩ (some []) =
      .ok (List.replicate 3 (Value.str "Hi there"),
           ⟨AIArgs.toVariables {prompt := Value.str "Hello?", output := Value.typ PyType.str},
            [(dSet (AIArgs.toVariables {prompt := Value.str "Hello?", output := Value.typ PyType.str})
                "full_prompt" (Value.str "Hello?"), Value.str "Hi there")],
            [(dSet (AIArgs.toVariables {prompt := Value.str "Hello?", output := Value.typ PyType.str})
                "prompt" (Value.str "Hello?"), Value.str "Hi there")], Option.none⟩,
           some (dSet []
             (cacheKeyStr (AIArgs.toVariables {prompt := Value.str "Hello?", output := Value.typ PyType.str})
               "Hello?") (Value.str "Hi there")), 1) :=
  c1_amended greetOracle _ "Hello?" "Hello?" PyType.str [] [] Option.none [] (Value.str "Hi there") 2
    ⟨by decide, by decide, by decide, by decide, ⟨[], Value.none, by decide, by decide, by decide⟩,
     by decide, by decide, by decide, by decide⟩
    (by decide) (by decide) (by decide) (by decide)

/-- C4 (amended): when a resolution is satisfied by a Cache hit (a truthy
value stored under the effective key), the result is returned immediately
with no provider call and the instance's invocation history and
conversation log are left unchanged — the record sequence grows only on
misses. -/
theorem c4_amended (oracle : String → PyType → Value) (vars : Dict) (p q : String)
    (T : PyType) (results chat : List (Dict × Value)) (ic : Option Dict)
    (c : Dict) (w : Value)
    (hcfg : StableCfg vars p q T)
    (hc : dGetD c (cacheKeyStr vars q) (Value.bool false) = w)
    (hw : pyTruthy w = true) :
    invoke oracle ⟨vars, results, chat, ic⟩ (some c) Option.none [] =
      .ok (w, ⟨vars, results, chat, ic⟩, some c, 0) :=
  invoke_hit oracle vars p q T results chat ic c w hcfg hc hw

/-- C4 (witness): a hit on a preloaded session cache returns the stored
answer, leaves the single existing record list unchanged and makes no
provider call. -/
theorem c4_amended_witness :
    invoke greetOracle
        ⟨AIArgs.toVariables {prompt := Value.str "Hello?", output := Value.typ PyType.str},
         [], [], Option.none⟩
        (some [(cacheKeyStr
                  (AIArgs.toVariables {prompt := Value.str "Hello?", output := Value.typ PyType.str})
                  "Hello?", Value.str "Hi there")])
        Option.none [] =
      .ok (Value.str "Hi there",
           ⟨AIArgs.toVariables {prompt := Value.str "Hello?", output := Value.typ PyType.str},
            [], [], Option.none⟩,
           some [(cacheKeyStr
                    (AIArgs.toVariables {prompt := Value.str "Hello?", output := Value.typ PyType.str})
                    "Hello?", Value.str "Hi there")], 0) :=
  c4_amended greetOracle _ "Hello?" "Hello?" PyType.str [] [] Option.none _ (Value.str "Hi there")
    ⟨by decide, by decide, by decide, by decide, ⟨[], Value.none, by decide, by decide, by decide⟩,
     by decide, by decide, by decide, by decide⟩
    (by decide) (by decide)

/-- C1 (counterexample): a request with `output=int`, caching enabled and a
stable configuration is resolved three times; the provider answers `0`, a
falsy value, so `if cached_result:` treats every later cache hit as a miss
and the provider is called three times — not once as the claim demands,
even though all three effective configurations (and hence cache keys) are
identical. -/
theorem c1_falsy_counterexample :
    c1FalsyRun = .ok ([.int 0, .int 0, .int 0], 3) := by decide

/-- C2 (code bug evidence): an instance resolved via `__float__`, then
demanded again with an unchanged configuration.  The memoization guard
`self.results[-1][0] == self.variables` evaluates to `False` (the stored
record carries the extra `full_prompt` key), so the second demand invokes
the provider again (caching disabled here to isolate the per-instance
memoization from the Cache): one provider call per demand. -/
theorem c2_memo_guard_dead : c2MemoRun = .ok (1, false, 1) := by decide

/-- C4 (counterexample): two identical resolutions, the first a miss and
the second a Cache hit (provider call count stays 1); after both, the
instance's invocation record list has one entry, not two — the hit was
returned immediately *without* being recorded into the history. -/
theorem c4_hit_not_recorded :
    c4HitRun = .ok ([.str "Hi there", .str "Hi there"], 1, 1) := by decide

/-- C5 (counterexample): multiplying two default-configured engines whose
prompts resolve to 13 and 2.  Because `numericals_default_to_int` defaults
to `False`, both operands resolve as floats and the product is the float
`26.0` — not the integer `26` the claim promises. -/
theorem c5_default_mul_is_float :
    c5MulRun = .ok (.float ⟨26, 0⟩, 2) ∧ Value.float ⟨26, 0⟩ ≠ Value.int 26 :=
  ⟨by decide, by decide⟩

/-- C6 (counterexample): the very first conversation-append call (empty
Conversation Log) sends `"\nQuestion: Hi\nAnswer: "` — a leading newline
precedes the current role label, so the prompt is not exactly the
role-labeled rendering the claim describes. -/
theorem c6_first_prompt_leading_newline :
    c6FirstPrompt = .ok "\nQuestion: Hi\nAnswer: " ∧
    "\nQuestion: Hi\nAnswer: " ≠ specChatPrompt "Question" "Answer" [] "Hi" :=
  ⟨by decide, by decide⟩

/-- C8 (counterexample): an instance requesting the unimplemented
`project` cache scope, but with caching disabled, is constructed without
any error — `cache_init` short-circuits before looking at the scope, so
this instance does not "fail clearly". -/
theorem c8_disabled_scope_accepted : exceptOk c8DisabledRun = true := by decide

/-- C8 (amended): an instance with caching enabled that requests any cache
scope other than `none`/`instance`/`session` (case-insensitively) fails at
construction with `NotImplementedError` naming the scope; with caching
disabled the same construction succeeds silently. -/
theorem c8_amended (p par pd batch il outp model temp meta tags hn ndi ah : Value)
    (loc : String) (sess : Option Dict)
    (h1 : pyLower loc ≠ "none") (h2 : pyLower loc ≠ "instance")
    (h3 : pyLower loc ≠ "session") :
    (∀ cach : Value, pyTruthy cach = true →
      mkAI ⟨p, par, pd, batch, il, outp, model, .str "openai", temp, meta, tags, cach,
            .str loc, ah, hn, ndi⟩ sess =
        .error (.notImplementedError ("Cache location " ++ loc ++ " is not implemented yet."))) ∧
    (∀ cach : Value, pyTruthy cach = false →
      mkAI ⟨p, par, pd, batch, il, outp, model, .str "openai", temp, meta, tags, cach,
            .str loc, ah, hn, ndi⟩ sess =
        .ok (⟨AIArgs.toVariables ⟨p, par, pd, batch, il, outp, model, .str "openai", temp,
              meta, tags, cach, .str loc, ah, hn, ndi⟩, [], [], Option.none⟩, sess)) := by
  have hop : (pyLower "openai" ∈ VALID_PROVIDERS) = True := by decide
  constructor
  · intro cach hcach
    simp only [mkAI, cache_init, locationLower, AIArgs.toVariables]
    simp [dGetD, dGet, cacheLocErrMsg, pyStr, hcach, h1, h2, h3, hop,
          Except.bind, bind, pure, Except.pure]
  · intro cach hcach
    simp only [mkAI, cache_init, locationLower, AIArgs.toVariables]
    simp [dGetD, dGet, hcach, hop, Except.bind, bind, pure, Except.pure]

/-- C8 (witness): the theorem applied at the `project` scope. -/
theorem c8_amended_witness :
    mkAI {cache_location := .str "project"} Option.none =
      .error (.notImplementedError "Cache location project is not implemented yet.") :=
  (c8_amended .none (.dict []) .none .none .none .none (.str "gpt-3.5-turbo")
      (.float ⟨75, 2⟩) (.dict []) (.list [.str "AI() call"])
      (.tuple [.str "Question", .str "Answer"]) (.bool NUMERICALS_DEFAULT_WITHOUT_FLOAT)
      (.bool false) "project" Option.none (by decide) (by decide) (by decide)).1
    (.bool true) (by decide)

/-- C6 (amended): with conversation-append enabled, each call's final
prompt is: the prior Conversation Log pairs rendered as alternating
role-labeled lines in chronological order, then an *unconditional*
separating newline, then the current role label with the new text, then
the answering role label with nothing after it — so the very first call's
prompt starts with a leading newline, and each of three sequential calls
on one instance receives all prior (question, answer) pairs before the
new question. -/
theorem c6_amended (oracle : String → PyType → Value) (q1 q2 q3 s1 s2 s3 : String)
    (hq1 : q1 ≠ "") (hq2 : q2 ≠ "") (hq3 : q3 ≠ "")
    (hf1 : findPH q1.data = []) (hf2 : findPH q2.data = []) (hf3 : findPH q3.data = [])
    (hs1 : endsNonWS s1 = true) (hs2 : endsNonWS s2 = true)
    (ho1 : oracle ("\nQuestion: " ++ q1 ++ "\nAnswer: ") PyType.str = Value.str s1)
    (ho2 : oracle ("Question: " ++ q1 ++ "\nAnswer: " ++ s1 ++ "\nQuestion: " ++ q2 ++
             "\nAnswer: ") PyType.str = Value.str s2)
    (ho3 : oracle ("Question: " ++ q1 ++ "\nAnswer: " ++ s1 ++ "\nQuestion: " ++ q2 ++
             "\nAnswer: " ++ s2 ++ "\nQuestion: " ++ q3 ++ "\nAnswer: ") PyType.str =
             Value.str s3) :
    ∃ a3 : AIState,
      threeChatTurns oracle q1 q2 q3 = .ok (Value.str s3, a3, Option.none, 1) ∧
      a3.results.map (fun r => dGetD r.1 "full_prompt" Value.none) =
        [Value.str ("\nQuestion: " ++ q1 ++ "\nAnswer: "),
         Value.str ("Question: " ++ q1 ++ "\nAnswer: " ++ s1 ++ "\nQuestion: " ++ q2 ++
           "\nAnswer: "),
         Value.str ("Question: " ++ q1 ++ "\nAnswer: " ++ s1 ++ "\nQuestion: " ++ q2 ++
           "\nAnswer: " ++ s2 ++ "\nQuestion: " ++ q3 ++ "\nAnswer: ")] := by
  refine ⟨⟨dSet (dSet (dSet (dSet (dSet (dSet c6Args.toVariables "prompt" (Value.str q1))
              "output" (Value.typ PyType.str)) "prompt" (Value.str q2)) "output"
              (Value.typ PyType.str)) "prompt" (Value.str q3)) "output"
              (Value.typ PyType.str),
            (([] ++ [(dSet (fillKwargs (dSet c6Args.toVariables "prompt" (Value.str q1))
                [("output", Value.typ PyType.str)]) "full_prompt"
                (Value.str ("\nQuestion: " ++ q1 ++ "\nAnswer: ")), Value.str s1)]) ++
              [(dSet (fillKwargs (dSet (dSet (dSet c6Args.toVariables "prompt"
                  (Value.str q1)) "output" (Value.typ PyType.str)) "prompt"
                  (Value.str q2)) []) "full_prompt"
                  (Value.str ("Question: " ++ q1 ++ "\nAnswer: " ++ s1 ++ "\nQuestion: " ++
                    q2 ++ "\nAnswer: ")), Value.str s2)]) ++
              [(dSet (fillKwargs (dSet (dSet (dSet (dSet (dSet c6Args.toVariables "prompt"
                  (Value.str q1)) "output" (Value.typ PyType.str)) "prompt" (Value.str q2))
                  "output" (Value.typ PyType.str)) "prompt" (Value.str q3)) [])
                  "full_prompt"
                  (Value.str ("Question: " ++ q1 ++ "\nAnswer: " ++ s1 ++ "\nQuestion: " ++
                    q2 ++ "\nAnswer: " ++ s2 ++ "\nQuestion: " ++ q3 ++ "\nAnswer: ")),
                Value.str s3)],
            (([] ++ [(dSet (fillKwargs (dSet c6Args.toVariables "prompt" (Value.str q1))
                [("output", Value.typ PyType.str)]) "prompt" (Value.str q1), Value.str s1)]) ++
              [(dSet (fillKwargs (dSet (dSet (dSet c6Args.toVariables "prompt"
                  (Value.str q1)) "output" (Value.typ PyType.str)) "prompt"
                  (Value.str q2)) []) "prompt" (Value.str q2), Value.str s2)]) ++
              [(dSet (fillKwargs (dSet (dSet (dSet (dSet (dSet c6Args.toVariables "prompt"
                  (Value.str q1)) "output" (Value.typ PyType.str)) "prompt" (Value.str q2))
                  "output" (Value.typ PyType.str)) "prompt" (Value.str q3)) []) "prompt"
                  (Value.str q3), Value.str s3)],
            Option.none⟩, ?_, ?_⟩
  · unfold threeChatTurns
    simp only [chatStep, c6State, callAI, dUnion, List.foldl_cons, List.foldl_nil]
    rw [c6_turn1 oracle q1 s1 hq1 hf1 ho1]
    simp only [ebind_ok]
    rw [c6_turn2 oracle q1 q2 s1 s2 hq2 hf2 hs1 ho2]
    simp only [ebind_ok]
    rw [c6_turn3 oracle q1 q2 q3 s1 s2 s3 hq3 hf3 hs2 ho3]
  · simp

/-- C6 (witness): three turns with a provider answering `ok.` to every
prompt — each full prompt carries the whole prior conversation, and the
first one starts with the separating newline. -/
theorem c6_amended_witness :
    ∃ a3 : AIState,
      threeChatTurns (fun _ _ => Value.str "ok.") "Hi" "How are you?" "Bye" =
        .ok (Value.str "ok.", a3, Option.none, 1) ∧
      a3.results.map (fun r => dGetD r.1 "full_prompt" Value.none) =
        [Value.str ("\nQuestion: " ++ "Hi" ++ "\nAnswer: "),
         Value.str ("Question: " ++ "Hi" ++ "\nAnswer: " ++ "ok." ++ "\nQuestion: " ++
           "How are you?" ++ "\nAnswer: "),
         Value.str ("Question: " ++ "Hi" ++ "\nAnswer: " ++ "ok." ++ "\nQuestion: " ++
           "How are you?" ++ "\nAnswer: " ++ "ok." ++ "\nQuestion: " ++ "Bye" ++
           "\nAnswer: ")] :=
  c6_amended (fun _ _ => Value.str "ok.") "Hi" "How are you?" "Bye" "ok." "ok." "ok."
    (by decide) (by decide) (by decide) (by decide) (by decide) (by decide)
    (by decide) (by decide) rfl rfl rfl

/-- C7 (counterexample): expanding `"{a} {x{a}z}"` with a mapping that
covers *every* scanned placeholder name (`a` and the nested-scan name
`x{a`) raises no error, yet the output `"A {xAz}"` still contains the
brace text `{xAz}` — a substitution inside an outer brace group silently
leaves (indeed creates) placeholder-looking brace text in the prompt. -/
theorem c7_braces_survive :
    replacePlaceholders "\x7ba\x7d \x7bx\x7ba\x7dz\x7d" [("a", Value.str "A"), ("x\x7ba", Value.str "V")]
        Value.none = .ok "A \x7bxAz\x7d" ∧
    findPH ("A \x7bxAz\x7d".data) = ["xAz"] := by
  exact ⟨by decide, by decide⟩

/-- C7 (amended): the scan–substitute policy, per scanned name in match
order: a name present in the mapping is substituted (all occurrences of
its brace text at once); with a missing name, a supplied string default is
substituted; with no default, expansion fails with a `KeyError` naming the
*first* missing placeholder.  (Substituted values are spliced in without
re-scanning, so brace text arising from values or nested brace groups can
survive in the output — the policy is per scanned name, not a guarantee
that no brace text remains.) -/
theorem c7_amended :
    (∀ (t : String) (repl : List (String × Value)) (ns1 : List String) (n : String)
       (ns2 : List String),
      findPH t.data = ns1 ++ n :: ns2 →
      (∀ m ∈ ns1, ∃ v, dGet repl m = some (Value.str v)) →
      dGet repl n = Option.none →
      replacePlaceholders t repl Value.none =
        .error (.keyError ("Placeholder " ++ n ++ " was not found in replacements dictionary."))) ∧
    (∀ (t : String) (repl : List (String × Value)) (d : Value),
      (∀ n ∈ findPH t.data, (∃ v, dGet repl n = some (Value.str v)) ∨
        (dGet repl n = Option.none ∧ ∃ dv, d = Value.str dv)) →
      ∃ out, replacePlaceholders t repl d = .ok out) := by
  constructor
  · intro t repl ns1 n ns2 hfind hcov hn
    unfold replacePlaceholders
    rw [hfind]
    exact applySubs_first_missing repl ns1 t n ns2 hcov hn
  · intro t repl d hall
    unfold replacePlaceholders
    exact applySubs_all_ok repl d (findPH t.data) t hall

/-- C7 (witness): a missing placeholder with no default raises the
`KeyError` naming it; a covered placeholder expands successfully. -/
theorem c7_amended_witness :
    replacePlaceholders "Hello \x7bname\x7d" [] Value.none =
      .error (.keyError "Placeholder name was not found in replacements dictionary.") ∧
    ∃ out, replacePlaceholders "Hello \x7bwho\x7d" [("who", Value.str "Bob")] Value.none =
      .ok out :=
  ⟨c7_amended.1 "Hello \x7bname\x7d" [] [] "name" [] (by decide)
      (by intro m hm; simp at hm) (by decide),
   c7_amended.2 "Hello \x7bwho\x7d" [("who", Value.str "Bob")] Value.none
      (by intro n hn
          have : n = "who" := by
            have hf : findPH ("Hello \x7bwho\x7d".data) = ["who"] := by decide
            rw [hf] at hn
            simpa using hn
          subst this
          exact Or.inl ⟨"Bob", by decide⟩)⟩

/-- C9 (counterexample): expanding `"{a}"` where the substituted value
itself contains brace text yields `"{b}"` — a `{name}` pattern survives in
the output even though a matching parameter (`b` → `"x"`) existed for that
name, so totality as claimed fails. -/
theorem c9_value_reintroduces_pattern :
    replacePlaceholders "\x7ba\x7d" [("a", Value.str "\x7bb\x7d"), ("b", Value.str "x")] Value.none =
      .ok "\x7bb\x7d" ∧
    findPH ("\x7bb\x7d".data) = ["b"] ∧
    dGet [("a", Value.str "\x7bb\x7d"), ("b", Value.str "x")] "b" = some (Value.str "x") :=
  ⟨by decide, by decide, by decide⟩

/-- C9 (amended): template expansion is idempotent on already-expanded
text — with no placeholder pattern in the input, the output equals the
input.  Totality holds on well-formed templates with brace-free
substitutions: when the text decomposes into brace-free literal segments
and placeholders with brace-free, newline-free names, and every scanned
name has a brace-free string value (or the default is a brace-free
string), expansion succeeds and no placeholder pattern survives in the
output.  (Without the brace-free restriction a substituted value can
reintroduce a pattern, as the counterexample shows.) -/
theorem c9_amended :
    (∀ (t : String) (repl : List (String × Value)) (d : Value),
      findPH t.data = [] → replacePlaceholders t repl d = .ok t) ∧
    (∀ (items : List TItem) (repl : List (String × Value)) (d : Value),
      wfT items = true →
      (∀ n ∈ phNames items,
        (∃ v, dGet repl n = some (Value.str v) ∧ braceFree v.data = true) ∨
        (dGet repl n = Option.none ∧ ∃ dv, d = Value.str dv ∧ braceFree dv.data = true)) →
      ∃ out, replacePlaceholders (String.mk (renderT items)) repl d = .ok out ∧
        findPH out.data = []) := by
  constructor
  · exact fun t repl d h => replacePlaceholders_noPH t repl d h
  · intro items repl d hwf hok
    unfold replacePlaceholders
    rw [show (String.mk (renderT items)).data = renderT items from rfl,
        findPH_render items hwf]
    obtain ⟨items2, hw2, hn2, happ⟩ := applySubs_render repl d (phNames items) items hwf
      (fun n hn => hn) (fun n hn => ⟨(wfT_names items n hwf hn).1, hok n hn⟩)
    refine ⟨String.mk (renderT items2), happ, ?_⟩
    show findPH (renderT items2) = []
    rw [findPH_render items2 hw2, hn2]

/-- C9 (witness): idempotence on a placeholder-free text, and totality on
`"Hello {who}!"` with a brace-free substitution. -/
theorem c9_amended_witness :
    replacePlaceholders "all done" [] Value.none = .ok "all done" ∧
    ∃ out, replacePlaceholders
        (String.mk (renderT [TItem.seg "Hello ".data, TItem.ph "who", TItem.seg "!".data]))
        [("who", Value.str "Bob")] Value.none = .ok out ∧ findPH out.data = [] :=
  ⟨c9_amended.1 "all done" [] Value.none (by decide),
   c9_amended.2 [TItem.seg "Hello ".data, TItem.ph "who", TItem.seg "!".data]
     [("who", Value.str "Bob")] Value.none (by decide)
     (by intro n hn
         have hn' : n = "who" := by simpa [phNames] using hn
         subst hn'
         exact Or.inl ⟨"Bob", by decide, by decide⟩)⟩

/-- C3 (counterexample): one instance, caching enabled at the default
per-process (session) scope, resolved twice with the same settings
supplied in the two possible orders (`model` first vs `temperature`
first).  The two recorded effective configurations are logically equal as
Python dicts (`==` is order-insensitive), yet both resolutions invoke the
provider: the serialized keys differ because `str(dict)` follows insertion
order, so the key is not an order-independent serialization. -/
theorem c3_order_dependent : c3OrderRun = .ok (2, true) := by decide

/-- C3 (amended): the cache key `str(kwargs | \x7b'full_prompt': ...\x7d)`
is deterministic and injective on the effective configuration *including
its insertion order*: for configurations with canonical float payloads
and no literal `full_prompt` entry, two keys are equal iff the
configuration dicts are equal entry-for-entry in the same order and the
expanded prompt texts are equal.  So any difference in any setting (or
the text) is a cache miss — but so is a mere difference in supply order. -/
theorem c3_amended : ∀ (kw1 kw2 : Dict) (fp1 fp2 : String),
    wfValE kw1 = true → wfValE kw2 = true →
    dGet kw1 "full_prompt" = Option.none → dGet kw2 "full_prompt" = Option.none →
    (cacheKeyStr kw1 fp1 = cacheKeyStr kw2 fp2 ↔ kw1 = kw2 ∧ fp1 = fp2) := by
  intro kw1 kw2 fp1 fp2 hw1 hw2 hn1 hn2
  constructor
  · intro h
    simp only [cacheKeyStr, cacheKeyV, pyStr] at h
    injection h with h
    have h' : reprV (.dict (dSet kw1 "full_prompt" (.str fp1))) ++ ([] : List Char) =
        reprV (.dict (dSet kw2 "full_prompt" (.str fp2))) ++ [] := by
      simpa using h
    obtain ⟨hd, -⟩ := reprV_inj _ _ [] []
      (by simp only [wfVal]; exact wfValE_dSet hw1 (wfVal_str fp1) _)
      (by simp only [wfVal]; exact wfValE_dSet hw2 (wfVal_str fp2) _)
      rfl rfl h'
    injection hd with hd
    rw [dSet_append_of_absent hn1, dSet_append_of_absent hn2] at hd
    obtain ⟨hk, ht⟩ := List.append_inj' hd rfl
    injection ht with ht _
    have hfp := congrArg Prod.snd ht
    injection hfp with hfp
    exact ⟨hk, hfp⟩
  · rintro ⟨rfl, rfl⟩
    rfl

/-- C3 (witness): the key-equality criterion evaluated at a concrete
configuration. -/
theorem c3_amended_witness :
    (cacheKeyStr [("model", Value.str "a")] "Hi" =
       cacheKeyStr [("model", Value.str "a")] "Hi" ↔
     ([("model", Value.str "a")] : Dict) = [("model", Value.str "a")] ∧
       ("Hi" : String) = "Hi") :=
  c3_amended [("model", Value.str "a")] [("model", Value.str "a")] "Hi" "Hi"
    (by decide) (by decide) (by decide) (by decide)

end AIQB
